import Mathlib

/-!
Basic-block layout (`maple_me/src/me_bb_layout.cpp`)

A shallow embedding of the basic-block layout pass of the Maple middle end and
a verification development over it.

Conventions of the embedding.

* A `BB*` is the id of the block: blocks live in an arena (`MeFunction.heap`,
  indexed by id) that is never shrunk, and the function's block table
  (`MeFunction.bbVec`) holds for every id either the pointer or null.
  `NullifyBBByID` clears a table entry; the block object stays in the arena.
* The pass has two code paths that do the same work on the two statement lists
  of a block (`GetMeStmts` when `func.GetIRMap() != nullptr`, `GetStmtNodes`
  otherwise).  A block carries one statement list `stmts`, read as the list the
  selected path works on; `MeFunction.hasIRMap` is the selector.
* Loops and recursion take a fuel argument; running out of fuel is the result
  `Err.fuel`, a failed check or an invalid access is `Err.abort`.
* `ASSERT` comes from a header that is not part of the sources; whether it is
  compiled in is the parameter `MeFunction.assertOn`.  `CHECK_FATAL` is always
  checked.
-/

namespace maple

/-! ## Data model -/

/-- Opcodes the pass looks at; `OP_other n` stands for the rest of the opcode table. -/
inductive Opcode where
  | OP_undef
  | OP_goto
  | OP_brtrue
  | OP_brfalse
  | OP_comment
  | OP_try
  | OP_eq
  | OP_ne
  | OP_lt
  | OP_le
  | OP_gt
  | OP_ge
  | OP_dread
  | OP_constval
  | OP_other (n : Nat)
  deriving DecidableEq, Repr, Inhabited

/-- Kind of a block (`BBKind` of bb.h). -/
inductive BBKind where
  | kBBUnknown
  | kBBCondGoto
  | kBBGoto
  | kBBFallthru
  | kBBReturn
  | kBBSwitch
  deriving DecidableEq, Repr, Inhabited

/-- Attributes of a block (`kBBAttr...` of bb.h). -/
inductive BBAttr where
  | kBBAttrIsEntry
  | kBBAttrArtificial
  | kBBAttrIsTry
  | kBBAttrIsTryEnd
  | kBBAttrWontExit
  deriving DecidableEq, Repr, Inhabited

/-- Class of an expression node (`MeExprOp`). -/
inductive MeExprOp where
  | kMeOpVar
  | kMeOpConst
  | kMeOpOp
  deriving DecidableEq, Repr, Inhabited

/-- Expressions of the IRMap.  The IRMap hash-conses expressions, so pointer
equality of `MeExpr*` is structural equality here.  `opExpr` is an `OpMeExpr`
with its operands 0 and 1. -/
inductive MeExpr where
  | var (ost : Nat)
  | const (value : Int) (primType : Nat)
  | opExpr (op : Opcode) (opnd0 opnd1 : MeExpr)
  deriving DecidableEq, Repr, Inhabited

namespace MeExpr

/-- Opcode of the expression (`MeExpr::GetOp`). -/
def GetOp : MeExpr → Opcode
  | var _ => Opcode.OP_dread
  | const _ _ => Opcode.OP_constval
  | opExpr op _ _ => op

/-- Class of the expression (`MeExpr::GetMeOp`). -/
def GetMeOp : MeExpr → MeExprOp
  | var _ => MeExprOp.kMeOpVar
  | const _ _ => MeExprOp.kMeOpConst
  | opExpr _ _ _ => MeExprOp.kMeOpOp

/-- Whether the expression is a zero constant (`MeExpr::IsZero`). -/
def IsZero : MeExpr → Bool
  | const v _ => decide (v = 0)
  | _ => false

end MeExpr

abbrev BBId := Nat
abbrev LabelIdx := Nat

/-- A statement: its opcode, the label it branches to (goto and conditional
branches) and its condition (conditional branches). -/
structure Stmt where
  op : Opcode
  offset : LabelIdx
  opnd : Option MeExpr
  deriving DecidableEq, Repr, Inhabited

/-- Conditional branch test (`IsCondBr`). -/
def Stmt.IsCondBr (st : Stmt) : Bool :=
  st.op == Opcode.OP_brtrue || st.op == Opcode.OP_brfalse

/-- A basic block.  `bbLabel = 0` means the block has no label yet. -/
structure BB where
  id : BBId
  kind : BBKind
  attributes : List BBAttr
  stmts : List Stmt
  bbLabel : LabelIdx
  pred : List BBId
  succ : List BBId
  frequency : Nat
  deriving DecidableEq, Repr, Inhabited

/-- Attribute test (`BB::GetAttributes`). -/
def BB.GetAttributes (bb : BB) (a : BBAttr) : Bool :=
  bb.attributes.contains a

/-- Modelled from the spec: `BB::IsEmpty` / `BB::IsMeStmtEmpty` (bb.h is not
under src/): the statement list contains no non-comment statements. -/
def BB.IsEmpty (bb : BB) : Bool :=
  bb.stmts.all (fun st => st.op == Opcode.OP_comment)

/-- The function: the arena of blocks, the block table, the label allocator
and the try-to-endtry map. -/
structure MeFunction where
  hasIRMap : Bool
  isJavaModule : Bool
  assertOn : Bool
  heap : List BB
  bbVec : List (Option BBId)
  labelCount : Nat
  endTryBB2TryBB : List (BBId × BBId)
  deriving DecidableEq, Repr, Inhabited

/-- Dereference of a block pointer. -/
def MeFunction.bb (f : MeFunction) (id : BBId) : BB :=
  f.heap.getD id default

/-- Update of the block behind a pointer. -/
def MeFunction.setBB (f : MeFunction) (id : BBId) (b : BB) : MeFunction :=
  { f with heap := f.heap.set id b }

/-- Result of a failed run: a failed check or invalid access, or fuel exhausted. -/
inductive Err where
  | abort
  | fuel
  deriving DecidableEq, Repr, Inhabited

abbrev Res := Except Err

/-- The `ASSERT` of the sources, checked only when assertions are compiled in. -/
def ASSERT (enabled : Bool) (cond : Bool) : Res Unit :=
  if enabled && !cond then Except.error Err.abort else Except.ok ()

/-- The layout state together with the function it works on. -/
structure BBLayout where
  func : MeFunction
  layoutBBs : List BBId
  laidOut : List Bool
  tryOutstanding : Bool
  newBBInLayout : Bool
  curBBId : Nat
  deriving DecidableEq, Repr, Inhabited

/-- Read of the bit `laidOut[id]`. -/
def BBLayout.IsBBLaidOut (l : BBLayout) (id : BBId) : Bool :=
  l.laidOut.getD id false

/-! ## Block classifiers -/

/-- The classifier `BBLayout::BBEmptyAndFallthru`. -/
def BBEmptyAndFallthru (bb : BB) : Bool :=
  if bb.GetAttributes BBAttr.kBBAttrIsTryEnd then false
  else if bb.kind == BBKind.kBBFallthru then bb.IsEmpty
  else false

/-- The classifier `BBLayout::BBContainsOnlyCondGoto`: the loop runs over all
statements before the last, then the last is tested (were the last visited by
the loop as well, the result would be the same). -/
def BBContainsOnlyCondGoto (bb : BB) : Bool :=
  if bb.kind != BBKind.kBBCondGoto || bb.GetAttributes BBAttr.kBBAttrIsTryEnd then false
  else
    match bb.stmts.getLast? with
    | none => false
    | some last =>
      if bb.stmts.dropLast.any (fun st => !st.IsCondBr && st.op != Opcode.OP_comment) then false
      else last.IsCondBr

/-- The table `GetOppositeOp`. -/
def GetOppositeOp : Opcode → Opcode
  | Opcode.OP_brtrue => Opcode.OP_brfalse
  | Opcode.OP_brfalse => Opcode.OP_brtrue
  | Opcode.OP_ne => Opcode.OP_eq
  | Opcode.OP_eq => Opcode.OP_ne
  | Opcode.OP_gt => Opcode.OP_le
  | Opcode.OP_le => Opcode.OP_gt
  | Opcode.OP_lt => Opcode.OP_ge
  | Opcode.OP_ge => Opcode.OP_lt
  | _ => Opcode.OP_undef

/-- The classifier `BBLayout::BBContainsOnlyGoto`. -/
def BBContainsOnlyGoto (bb : BB) : Bool :=
  if bb.kind != BBKind.kBBGoto || bb.GetAttributes BBAttr.kBBAttrIsTryEnd then false
  else
    match bb.stmts.getLast? with
    | none => false
    | some last =>
      if bb.stmts.dropLast.any (fun st => st.op != Opcode.OP_goto && st.op != Opcode.OP_comment) then false
      else last.op == Opcode.OP_goto

/-- The oracle `BBLayout::BBCanBeMoved`. -/
def BBCanBeMoved (l : BBLayout) (fromBB toAfterBB : BB) : Bool :=
  if fromBB.pred.length > 1 then false
  else if l.IsBBLaidOut fromBB.id then false
  else if fromBB.GetAttributes BBAttr.kBBAttrArtificial ||
      (!fromBB.GetAttributes BBAttr.kBBAttrIsTry && !toAfterBB.GetAttributes BBAttr.kBBAttrIsTry) then
    fromBB.succ.length == 1
  else BBContainsOnlyGoto fromBB

/-- The test `BBLayout::HasSameBranchCond`.  The two casts of the last
statement to a conditional branch abort when the block has no last statement
or the statement carries no condition. -/
def HasSameBranchCond (hasIRMap : Bool) (bb1 bb2 : BB) : Res Bool :=
  if !hasIRMap then Except.ok false
  else
    match bb1.stmts.getLast?, bb2.stmts.getLast? with
    | some meStmt1, some meStmt2 =>
      match meStmt1.opnd, meStmt2.opnd with
      | some expr1, some expr2 =>
        if !(meStmt1.op == meStmt2.op && expr1.GetOp == expr2.GetOp) &&
            !(meStmt1.op == GetOppositeOp meStmt2.op && expr1.GetOp == GetOppositeOp expr2.GetOp) then
          Except.ok false
        else if !(expr1.GetMeOp == expr2.GetMeOp && expr1.GetMeOp == MeExprOp.kMeOpOp) then
          Except.ok false
        else
          match expr1, expr2 with
          | MeExpr.opExpr _ l1 r1, MeExpr.opExpr _ l2 r2 =>
            if l1 != l2 then Except.ok false
            else if r1 != r2 && !(r1.IsZero && r2.IsZero) then Except.ok false
            else Except.ok true
          | _, _ => Except.ok false
      | _, _ => Except.error Err.abort
    | _, _ => Except.error Err.abort

/-! ## CFG view: helpers of `BB`, `MeFunction` and the layout class -/

/-- Access `BB::GetSucc(index)`; an index out of range aborts. -/
def GetSucc (b : BB) (index : Nat) : Res BBId :=
  match b.succ[index]? with
  | some x => Except.ok x
  | none => Except.error Err.abort

/-- Access `GetSucc().front()`; an empty vector aborts. -/
def SuccFront (b : BB) : Res BBId :=
  match b.succ.head? with
  | some x => Except.ok x
  | none => Except.error Err.abort

/-- Replace the first occurrence of `old` in a vector of blocks. -/
def replaceFirst : List BBId → BBId → BBId → List BBId
  | [], _, _ => []
  | x :: xs, old, new => if x == old then new :: xs else x :: replaceFirst xs old new

/-- Modelled from the spec: `BB::RemoveBBFromVector` (bb.h is not under src/):
delete the block from the vector (its first occurrence). -/
def RemoveBBFromVector (bb : BBId) (bbVec : List BBId) : List BBId :=
  bbVec.erase bb

/-- Modelled from the spec: `BB::RemoveBBFromPred` (bb.h is not under src/):
delete `bb` from the predecessor list of `this`. -/
def RemoveBBFromPred (f : MeFunction) (this bb : BBId) : MeFunction :=
  f.setBB this { f.bb this with pred := RemoveBBFromVector bb (f.bb this).pred }

/-- Modelled from the spec: `BB::ReplaceSucc` (bb.h is not under src/): replace
`old` by `newSucc` in the successors of `this`; edges are kept mutual, so
`this` is recorded as a predecessor of `newSucc`. -/
def ReplaceSucc (f : MeFunction) (this old newSucc : BBId) : MeFunction :=
  if (f.bb this).succ.contains old then
    let f1 := f.setBB this { f.bb this with succ := replaceFirst (f.bb this).succ old newSucc }
    f1.setBB newSucc { f1.bb newSucc with pred := (f1.bb newSucc).pred ++ [this] }
  else f

/-- Modelled from the spec: `BB::ReplacePred` (bb.h is not under src/): replace
`old` by `newPred` in the predecessors of `this`; edges are kept mutual, so
`this` is recorded as a successor of `newPred`. -/
def ReplacePred (f : MeFunction) (this old newPred : BBId) : MeFunction :=
  if (f.bb this).pred.contains old then
    let f1 := f.setBB this { f.bb this with pred := replaceFirst (f.bb this).pred old newPred }
    f1.setBB newPred { f1.bb newPred with succ := (f1.bb newPred).succ ++ [this] }
  else f

/-- Modelled from the spec: `MeFunction::GetOrCreateBBLabel` (me_function.h is
not under src/): the label of the block, minted from the label allocator on the
first call and the same on every later call. -/
def GetOrCreateBBLabel (f : MeFunction) (bb : BBId) : LabelIdx × MeFunction :=
  if (f.bb bb).bbLabel != 0 then ((f.bb bb).bbLabel, f)
  else
    (f.labelCount,
      { f.setBB bb { f.bb bb with bbLabel := f.labelCount } with labelCount := f.labelCount + 1 })

/-- Modelled from the spec: `MeFunction::NullifyBBByID` (me_function.h is not
under src/): clear the entry of the block table. -/
def NullifyBBByID (f : MeFunction) (id : BBId) : MeFunction :=
  { f with bbVec := f.bbVec.set id none }

/-- Modelled from the spec: `MeFunction::NewBasicBlock` (me_function.h is not
under src/): a fresh block with the next id, entered in the block table. -/
def NewBasicBlock (f : MeFunction) : BBId × MeFunction :=
  (f.heap.length,
    { f with
      heap := f.heap ++ [{ id := f.heap.length, kind := BBKind.kBBUnknown, attributes := [],
                           stmts := [], bbLabel := 0, pred := [], succ := [], frequency := 0 }]
      bbVec := f.bbVec ++ [some f.heap.length] })

/-- Scan of the block table for `NextBB`: `n` entries are left to look at. -/
def NextBBScan (f : MeFunction) (laidOut : List Bool) : Nat → Nat → Option BBId × Nat
  | 0, cur => (none, cur)
  | n + 1, cur =>
    match f.bbVec.getD cur none with
    | some id =>
      if !(laidOut.getD (f.bb id).id false) then (some id, cur)
      else NextBBScan f laidOut n (cur + 1)
    | none => NextBBScan f laidOut n (cur + 1)

/-- Modelled from the spec: `BBLayout::NextBB` (me_bb_layout.h is not under
src/): the next block in source order that is in the block table and not yet
laid out; the cursor only moves forward. -/
def NextBB (l : BBLayout) : Option BBId × BBLayout :=
  let r := NextBBScan l.func l.laidOut (l.func.bbVec.length - (l.curBBId + 1)) (l.curBBId + 1)
  (r.1, { l with curBBId := r.2 })

/-- Write of the bit `laidOut[id] = true`. -/
def BBLayout.SetLaidOut (l : BBLayout) (id : BBId) : BBLayout :=
  { l with laidOut := l.laidOut.set id true }

/-- Whether the first statement of the block is a `try`. -/
def FrontIsTry (b : BB) : Bool :=
  match b.stmts.head? with
  | some st => st.op == Opcode.OP_try
  | none => false

/-- Apply a change to the last statement of a block. -/
def modifyLast (g : Stmt → Stmt) : List Stmt → List Stmt
  | [] => []
  | [st] => [g st]
  | st :: st2 :: rest => st :: modifyLast g (st2 :: rest)

/-- Set the branch label of the last statement of block `bb` (`SetOffset`). -/
def SetLastOffset (f : MeFunction) (bb : BBId) (label : LabelIdx) : MeFunction :=
  f.setBB bb { f.bb bb with stmts := modifyLast (fun st => { st with offset := label }) (f.bb bb).stmts }

/-! ## The pass -/

/-- The synthesis `CreateGoto`: append `goto fallthru` to `bb` and make it a goto block. -/
def CreateGoto (f : MeFunction) (bb fallthru : BBId) : MeFunction :=
  let r := GetOrCreateBBLabel f fallthru
  let f1 := r.2
  f1.setBB bb { f1.bb bb with
    stmts := (f1.bb bb).stmts ++ [{ op := Opcode.OP_goto, offset := r.1, opnd := none }]
    kind := BBKind.kBBGoto }

/-- The sweep `BBLayout::RemoveUnreachable`.  `succBBs` and `preds` are copies
of the vectors of the blocks (they are declared by value), so the erasure and
the `clear` act on the copies. -/
def RemoveUnreachable : Nat → BBLayout → BBId → Res BBLayout
  | 0, _, _ => Except.error Err.fuel
  | fuel + 1, l, bb =>
    if (l.func.bb bb).GetAttributes BBAttr.kBBAttrIsEntry then Except.ok l
    else do
      let succBBs := (l.func.bb bb).succ
      let l1 ← succBBs.foldlM (fun (l0 : BBLayout) (succ : BBId) =>
        let preds := RemoveBBFromVector bb (l0.func.bb succ).pred
        if preds.isEmpty then RemoveUnreachable fuel l0 succ else Except.ok l0) l
      Except.ok { l1 with func := NullifyBBByID l1.func (l1.func.bb bb).id }

/-- The condition under which `OptimizeBranchTarget` threads `bb` through its
branch target (the negation of the second `return` test of the loop body). -/
def ThreadThrough (f : MeFunction) (bb brTargetBB : BBId) : Res Bool :=
  if BBContainsOnlyGoto (f.bb brTargetBB) then Except.ok true
  else if BBEmptyAndFallthru (f.bb brTargetBB) then Except.ok true
  else if (f.bb bb).kind == BBKind.kBBCondGoto && (f.bb brTargetBB).kind == BBKind.kBBCondGoto &&
      bb != brTargetBB && BBContainsOnlyCondGoto (f.bb brTargetBB) then
    HasSameBranchCond f.hasIRMap (f.bb bb) (f.bb brTargetBB)
  else Except.ok false

/-- Index of the labeled successor of a block ending in a branch:
`bb.GetKind() == kBBCondGoto ? bb.GetSucc(1) : bb.GetSucc(0)`. -/
def BrTargetIdx (b : BB) : Nat :=
  if b.kind == BBKind.kBBCondGoto then 1 else 0

/-- The new branch target chosen behind `brTargetBB`: its first successor, or
`GetSucc(1)` when it is a conditional block. -/
def NewTargetBB (t : BB) : Res BBId := do
  let front ← SuccFront t
  if t.kind == BBKind.kBBCondGoto then GetSucc t 1 else Except.ok front

/-- The body of the loop of `BBLayout::OptimizeBranchTarget` up to and
including the two CFG updates.  `none` is a `return`; otherwise the branch
target that was bypassed and the new state. -/
def RetargetBranch (l : BBLayout) (bb : BBId) : Res (Option (BBId × BBLayout)) := do
  ASSERT l.func.assertOn (!(l.func.bb bb).succ.isEmpty)
  let brTargetBB ← GetSucc (l.func.bb bb) (BrTargetIdx (l.func.bb bb))
  if (l.func.bb brTargetBB).GetAttributes BBAttr.kBBAttrWontExit then Except.ok none
  else do
    let thread ← ThreadThrough l.func bb brTargetBB
    if !thread then Except.ok none
    else do
      -- optimize stmt
      let newTargetBB ← NewTargetBB (l.func.bb brTargetBB)
      let r := GetOrCreateBBLabel l.func newTargetBB
      let newTargetLabel := r.1
      let f1 := r.2
      match (f1.bb bb).stmts.getLast? with
      | none => Except.error Err.abort
      | some lastStmt => do
        ASSERT f1.assertOn ((f1.bb brTargetBB).bbLabel == lastStmt.offset)
        let f2 := SetLastOffset f1 bb newTargetLabel
        -- update CFG
        let f3 := ReplaceSucc f2 bb brTargetBB newTargetBB
        let f4 := RemoveBBFromPred f3 brTargetBB bb
        Except.ok (some (brTargetBB, { l with func := f4 }))

/-- The `do ... while (true)` loop of `BBLayout::OptimizeBranchTarget`. -/
def OptimizeBranchTargetLoop : Nat → BBLayout → BBId → Res BBLayout
  | 0, _, _ => Except.error Err.fuel
  | fuel + 1, l, bb => do
    match ← RetargetBranch l bb with
    | none => Except.ok l
    | some (brTargetBB, l4) =>
      let l5 ←
        if (l4.func.bb brTargetBB).pred.isEmpty then
          RemoveUnreachable fuel (l4.SetLaidOut (l4.func.bb brTargetBB).id) brTargetBB
        else Except.ok l4
      OptimizeBranchTargetLoop fuel l5 bb

/-- The rewriter `BBLayout::OptimizeBranchTarget`. -/
def OptimizeBranchTarget (fuel : Nat) (l : BBLayout) (bb : BBId) : Res BBLayout :=
  match (l.func.bb bb).stmts.getLast? with
  | none => Except.ok l
  | some last =>
    if last.op != Opcode.OP_goto && !last.IsCondBr then Except.ok l
    else OptimizeBranchTargetLoop fuel l bb

/-- The append `BBLayout::AddBB`. -/
def AddBB (l : BBLayout) (bb : BBId) : Res BBLayout := do
  if !((l.func.bb bb).id < l.laidOut.length) then Except.error Err.abort
  else do
    ASSERT l.func.assertOn (!l.IsBBLaidOut (l.func.bb bb).id)
    let l1 := { l with layoutBBs := l.layoutBBs ++ [bb], laidOut := l.laidOut.set (l.func.bb bb).id true }
    let l2 ←
      if FrontIsTry (l.func.bb bb) then do
        ASSERT l.func.assertOn (!l1.tryOutstanding)
        Except.ok { l1 with tryOutstanding := true }
      else Except.ok l1
    if (l.func.bb bb).GetAttributes BBAttr.kBBAttrIsTryEnd && l.func.isJavaModule then
      Except.ok { l2 with tryOutstanding := false }
    else Except.ok l2

/-- The `do ... while (true)` loop of `BBLayout::GetFallThruBBSkippingEmpty`. -/
def GetFallThruBBSkippingEmptyLoop : Nat → BBLayout → BBId → BBId → Res (BBId × BBLayout)
  | 0, _, _, _ => Except.error Err.fuel
  | fuel + 1, l, bb, fallthru =>
    if (l.func.bb fallthru).pred.length > 1 ||
        (l.func.bb fallthru).GetAttributes BBAttr.kBBAttrIsTryEnd then Except.ok (fallthru, l)
    else if !(l.func.bb fallthru).IsEmpty then Except.ok (fallthru, l)
    else do
      let l1 := l.SetLaidOut (l.func.bb fallthru).id
      let oldFallThru := fallthru
      let fallthru2 ← SuccFront (l1.func.bb fallthru)
      let f2 := ReplaceSucc l1.func bb oldFallThru fallthru2
      let f3 := RemoveBBFromPred f2 oldFallThru bb
      let l3 := { l1 with func := f3 }
      let l4 ← if (f3.bb oldFallThru).pred.isEmpty then RemoveUnreachable fuel l3 oldFallThru
               else Except.ok l3
      GetFallThruBBSkippingEmptyLoop fuel l4 bb fallthru2

/-- The walk `BBLayout::GetFallThruBBSkippingEmpty`. -/
def GetFallThruBBSkippingEmpty (fuel : Nat) (l : BBLayout) (bb : BBId) : Res (BBId × BBLayout) := do
  ASSERT l.func.assertOn
    ((l.func.bb bb).kind == BBKind.kBBFallthru || (l.func.bb bb).kind == BBKind.kBBCondGoto)
  ASSERT l.func.assertOn (!(l.func.bb bb).succ.isEmpty)
  let fallthru ← SuccFront (l.func.bb bb)
  GetFallThruBBSkippingEmptyLoop fuel l bb fallthru

/-- The rewrite `BBLayout::ChangeToFallthruFromGoto`: drop the last statement. -/
def ChangeToFallthruFromGoto (l : BBLayout) (bb : BBId) : Res BBLayout := do
  ASSERT l.func.assertOn ((l.func.bb bb).kind == BBKind.kBBGoto)
  Except.ok { l with func := l.func.setBB bb { l.func.bb bb with
    stmts := (l.func.bb bb).stmts.dropLast
    kind := BBKind.kBBFallthru } }

/-- The repair `BBLayout::ResolveUnconditionalFallThru`; `nextBB` may be null. -/
def ResolveUnconditionalFallThru : Nat → BBLayout → BBId → Option BBId → Res BBLayout
  | 0, _, _, _ => Except.error Err.fuel
  | fuel + 1, l, bb, nextBB => do
    ASSERT l.func.assertOn
      ((l.func.bb bb).kind == BBKind.kBBFallthru || (l.func.bb bb).kind == BBKind.kBBGoto)
    if (l.func.bb bb).kind == BBKind.kBBGoto then Except.ok l
    else do
      ASSERT l.func.assertOn
        ((l.func.bb bb).GetAttributes BBAttr.kBBAttrIsTry ||
          (l.func.bb bb).GetAttributes BBAttr.kBBAttrWontExit || (l.func.bb bb).succ.length == 1)
      let r ← GetFallThruBBSkippingEmpty fuel l bb
      let fallthru := r.1
      let l1 := r.2
      if some fallthru != nextBB then
        if BBCanBeMoved l1 (l1.func.bb fallthru) (l1.func.bb bb) then do
          let l2 ← AddBB l1 fallthru
          let l3 ← ResolveUnconditionalFallThru fuel l2 fallthru nextBB
          OptimizeBranchTarget fuel l3 fallthru
        else
          OptimizeBranchTarget fuel { l1 with func := CreateGoto l1.func bb fallthru } bb
      else Except.ok l1

/-- Modelled from the spec: `MeFunction::GetTryBBFromEndTryBB` (me_function.h
is not under src/): the try block matching an endtry block, null when the
try-to-endtry map has no entry. -/
def GetTryBBFromEndTryBB (f : MeFunction) (bb : BBId) : Option BBId :=
  (f.endTryBB2TryBB.find? (fun p => p.1 == bb)).map (fun p => p.2)

/-- The try-endtry checks of `MeDoBBLayout::Run` on `nextBB` (assertions only). -/
def CheckTryEndTry (l : BBLayout) (nextBB : Option BBId) : Res Unit :=
  match nextBB with
  | none => Except.ok ()
  | some nb => do
    ASSERT l.func.assertOn (!(FrontIsTry (l.func.bb nb) && l.tryOutstanding))
    if (l.func.bb nb).GetAttributes BBAttr.kBBAttrIsTryEnd then
      match GetTryBBFromEndTryBB l.func nb with
      | some tryBB => ASSERT l.func.assertOn (tryBB == nb || l.IsBBLaidOut (l.func.bb tryBB).id)
      | none => ASSERT l.func.assertOn false
    else Except.ok ()

/-- Lay out a moved block: `AddBB`, `ResolveUnconditionalFallThru`, `OptimizeBranchTarget`. -/
def LayOutMoved (fuel : Nat) (l : BBLayout) (moved : BBId) (nextBB : Option BBId) : Res BBLayout := do
  let l1 ← AddBB l moved
  let l2 ← ResolveUnconditionalFallThru fuel l1 moved nextBB
  OptimizeBranchTarget fuel l2 moved

/-- The branch `bb->GetKind() == kBBCondGoto` of the loop body of `MeDoBBLayout::Run`. -/
def RunCondGoto (fuel : Nat) (l : BBLayout) (bb : BBId) (nextBB : Option BBId) : Res BBLayout := do
  let oldFallThru ← GetSucc (l.func.bb bb) 0
  let r ← GetFallThruBBSkippingEmpty fuel l bb
  let fallthru := r.1
  let l1 := r.2
  let brTargetBB ← GetSucc (l1.func.bb bb) 1
  if brTargetBB != fallthru &&
      (oldFallThru != fallthru || (l1.func.bb fallthru).pred.length > 1) &&
      BBCanBeMoved l1 (l1.func.bb brTargetBB) (l1.func.bb bb) then
    -- flip the sense of the condgoto and lay out brTargetBB right here
    let lab := GetOrCreateBBLabel l1.func fallthru
    let f1 := lab.2
    match (f1.bb bb).stmts.getLast? with
    | none => Except.error Err.abort
    | some condGoto => do
      ASSERT f1.assertOn ((f1.bb brTargetBB).bbLabel == condGoto.offset)
      let f2 := f1.setBB bb { f1.bb bb with
        stmts := modifyLast (fun st => { st with
          offset := lab.1
          op := if st.op == Opcode.OP_brtrue then Opcode.OP_brfalse else Opcode.OP_brtrue })
          (f1.bb bb).stmts }
      LayOutMoved fuel { l1 with func := f2 } brTargetBB nextBB
  else if some fallthru != nextBB then
    if BBCanBeMoved l1 (l1.func.bb fallthru) (l1.func.bb bb) then
      LayOutMoved fuel l1 fallthru nextBB
    else
      -- create a new fallthru that contains a goto to the original fallthru
      let nb := NewBasicBlock l1.func
      let newFallthru := nb.1
      let f1 := nb.2
      let f2 := f1.setBB newFallthru { f1.bb newFallthru with
        attributes := BBAttr.kBBAttrArtificial :: (f1.bb newFallthru).attributes }
      let f3 := f2.setBB newFallthru { f2.bb newFallthru with kind := BBKind.kBBGoto }
      let lab := GetOrCreateBBLabel f3 fallthru
      let f4 := lab.2
      let f5 := f4.setBB newFallthru { f4.bb newFallthru with
        stmts := [{ op := Opcode.OP_goto, offset := lab.1, opnd := none }] }
      -- replace pred and succ
      let f6 := ReplaceSucc f5 bb fallthru newFallthru
      let f7 := ReplacePred f6 fallthru bb newFallthru
      let f8 := f7.setBB newFallthru { f7.bb newFallthru with frequency := (f7.bb fallthru).frequency }
      let l2 := { l1 with func := f8, laidOut := l1.laidOut ++ [false], newBBInLayout := true }
      do
        let l3 ← AddBB l2 newFallthru
        OptimizeBranchTarget fuel l3 newFallthru
  else Except.ok l1

/-- The statement `if (bb->GetKind() == kBBGoto)` of the loop body of `MeDoBBLayout::Run`. -/
def RunGoto (fuel : Nat) (l : BBLayout) (bb : BBId) (nextBB : Option BBId) : Res BBLayout := do
  -- see if goto target can be placed here
  let gotoTarget ← SuccFront (l.func.bb bb)
  if some gotoTarget != nextBB && BBCanBeMoved l (l.func.bb gotoTarget) (l.func.bb bb) then do
    let l1 ← AddBB l gotoTarget
    let l2 ← ChangeToFallthruFromGoto l1 bb
    let l3 ← ResolveUnconditionalFallThru fuel l2 gotoTarget nextBB
    OptimizeBranchTarget fuel l3 gotoTarget
  else if (l.func.bb gotoTarget).kind == BBKind.kBBCondGoto &&
      (l.func.bb gotoTarget).pred.length == 1 then do
    let targetNext ← SuccFront (l.func.bb gotoTarget)
    if some targetNext != nextBB && BBCanBeMoved l (l.func.bb targetNext) (l.func.bb bb) then do
      let l1 ← AddBB l gotoTarget
      let l2 ← ChangeToFallthruFromGoto l1 bb
      let l3 ← OptimizeBranchTarget fuel l2 gotoTarget
      let l4 ← AddBB l3 targetNext
      let l5 ← ResolveUnconditionalFallThru fuel l4 targetNext nextBB
      OptimizeBranchTarget fuel l5 targetNext
    else Except.ok l
  else Except.ok l

/-- The `while (bb != nullptr)` loop of `MeDoBBLayout::Run`. -/
def RunLoop : Nat → BBLayout → Option BBId → Res BBLayout
  | _, l, none => Except.ok l
  | 0, _, some _ => Except.error Err.fuel
  | fuel + 1, l, some bb => do
    let l1 ← AddBB l bb
    let l2 ←
      if (l1.func.bb bb).kind == BBKind.kBBCondGoto || (l1.func.bb bb).kind == BBKind.kBBGoto then
        OptimizeBranchTarget fuel l1 bb
      else Except.ok l1
    let nx := NextBB l2
    let nextBB := nx.1
    let l3 := nx.2
    CheckTryEndTry l3 nextBB
    -- based on nextBB, may need to fix current bb's fall-thru
    let l4 ←
      if (l3.func.bb bb).kind == BBKind.kBBFallthru then
        ResolveUnconditionalFallThru fuel l3 bb nextBB
      else if (l3.func.bb bb).kind == BBKind.kBBCondGoto then
        RunCondGoto fuel l3 bb nextBB
      else Except.ok l3
    let l5 ←
      if (l4.func.bb bb).kind == BBKind.kBBGoto then RunGoto fuel l4 bb nextBB
      else Except.ok l4
    let adv :=
      match nextBB with
      | some nb => if l5.IsBBLaidOut (l5.func.bb nb).id then NextBB l5 else (nextBB, l5)
      | none => (nextBB, l5)
    RunLoop fuel adv.2 adv.1

/-- Modelled from the spec: `MeFunction::GetFirstBB` (me_function.h is not
under src/): the function's first block, which is the common entry. -/
def GetFirstBB (f : MeFunction) : Option BBId :=
  f.bbVec.getD 0 none

/-- Modelled from the spec: the constructor of `BBLayout` (me_bb_layout.h is
not under src/): `laidOut` holds one bit per block, all false. -/
def BBLayout.new (f : MeFunction) : BBLayout :=
  { func := f, layoutBBs := [], laidOut := List.replicate f.bbVec.length false,
    tryOutstanding := false, newBBInLayout := false, curBBId := 0 }

/-- The pass `MeDoBBLayout::Run`. -/
def Run (fuel : Nat) (f : MeFunction) : Res BBLayout :=
  RunLoop fuel (BBLayout.new f) (GetFirstBB f)

/-! ## Well-formed input, as the specification words it -/

/-- Modelled from the spec: edges are mutual and there are no dangling
references: every successor and predecessor is a block of the arena, and an
edge is recorded as often in the successor list of its source as in the
predecessor list of its target. -/
def MeFunction.EdgesMutual (f : MeFunction) : Bool :=
  (List.range f.heap.length).all (fun x =>
    (f.bb x).succ.all (fun s => decide (s < f.heap.length)) &&
    (f.bb x).pred.all (fun p => decide (p < f.heap.length)) &&
    (List.range f.heap.length).all (fun s => (f.bb x).succ.count s == (f.bb s).pred.count x))

/-- Modelled from the spec: the kind of a block fits its successors and its
terminator: two successors and a final conditional branch for `CondGoto`, one
successor and a final `goto` for `Goto`, one successor for `Fallthru`. -/
def KindFits (b : BB) : Bool :=
  match b.kind with
  | BBKind.kBBCondGoto =>
    b.succ.length == 2 && (match b.stmts.getLast? with | some st => st.IsCondBr | none => false)
  | BBKind.kBBGoto =>
    b.succ.length == 1 &&
      (match b.stmts.getLast? with | some st => st.op == Opcode.OP_goto | none => false)
  | BBKind.kBBFallthru => b.succ.length == 1
  | _ => true

/-- Label consistency of one block: a block that ends in a goto or
conditional branch records the label of its labeled successor
(`successors[1]` for `CondGoto`, `successors[0]` otherwise), which is minted. -/
def LabelConsistent (f : MeFunction) (b : BB) : Bool :=
  match b.stmts.getLast? with
  | none => true
  | some st =>
    if st.op == Opcode.OP_goto || st.IsCondBr then
      match b.succ[BrTargetIdx b]? with
      | some t => st.offset == (f.bb t).bbLabel && (f.bb t).bbLabel != 0
      | none => false
    else true

/-- Modelled from the spec: a well-formed input of the pass: every id of the
block table holds its block, edges are mutual, kinds fit, labels are below the
allocator mark and distinct, and every branch records the label of its labeled
successor. -/
def MeFunction.WellFormed (f : MeFunction) : Bool :=
  f.bbVec == (List.range f.heap.length).map some &&
  (List.range f.heap.length).all (fun x =>
    (f.bb x).id == x && KindFits (f.bb x) && LabelConsistent f (f.bb x) &&
    decide ((f.bb x).bbLabel < f.labelCount) &&
    (List.range f.heap.length).all (fun y =>
      x == y || (f.bb x).bbLabel == 0 || (f.bb x).bbLabel != (f.bb y).bbLabel)) &&
  f.EdgesMutual

/-- One round of the reachability closure. -/
def ReachStep (f : MeFunction) (xs : List BBId) : List BBId :=
  (xs ++ xs.flatMap (fun x => (f.bb x).succ)).dedup

/-- Blocks reachable from the entry (block 0) along successor edges. -/
def ReachableFromEntry (f : MeFunction) : List BBId :=
  Nat.iterate (ReachStep f) f.heap.length [0]

/-! ## The specification's wording of the classifiers -/

/-- The movability condition as the specification words it. -/
def SpecCanBeMoved (l : BBLayout) (fromBB toAfterBB : BB) : Bool :=
  decide (fromBB.pred.length ≤ 1) && !l.IsBBLaidOut fromBB.id &&
    (fromBB.GetAttributes BBAttr.kBBAttrArtificial ||
      (!fromBB.GetAttributes BBAttr.kBBAttrIsTry && !toAfterBB.GetAttributes BBAttr.kBBAttrIsTry &&
        fromBB.succ.length == 1) ||
      BBContainsOnlyGoto fromBB)

/-- The `opposite` table as the specification words it: `brtrue↔brfalse`,
`eq↔ne`, `lt↔ge`, `le↔gt`; any other operator has no opposite. -/
def SpecOpposite : Opcode → Option Opcode
  | Opcode.OP_brtrue => some Opcode.OP_brfalse
  | Opcode.OP_brfalse => some Opcode.OP_brtrue
  | Opcode.OP_eq => some Opcode.OP_ne
  | Opcode.OP_ne => some Opcode.OP_eq
  | Opcode.OP_lt => some Opcode.OP_ge
  | Opcode.OP_ge => some Opcode.OP_lt
  | Opcode.OP_le => some Opcode.OP_gt
  | Opcode.OP_gt => some Opcode.OP_le
  | _ => none

/-- The same-condition test as the specification words it, on the branch
operator, compare operator and compare operands of the two blocks. -/
def SpecSameBranchCond (op1 cmp1 : Opcode) (l1 r1 : MeExpr) (op2 cmp2 : Opcode) (l2 r2 : MeExpr) :
    Bool :=
  ((op1 == op2 && cmp1 == cmp2) ||
    (SpecOpposite op2 == some op1 && SpecOpposite cmp2 == some cmp1)) &&
  l1 == l2 && (r1 == r2 || (r1.IsZero && r2.IsZero))

/-- Integer meaning of the six compare operators; other operators have none. -/
def EvalCompare : Opcode → Int → Int → Option Bool
  | Opcode.OP_eq, a, b => some (decide (a = b))
  | Opcode.OP_ne, a, b => some (decide (a ≠ b))
  | Opcode.OP_lt, a, b => some (decide (a < b))
  | Opcode.OP_le, a, b => some (decide (a ≤ b))
  | Opcode.OP_gt, a, b => some (decide (a > b))
  | Opcode.OP_ge, a, b => some (decide (a ≥ b))
  | _, _, _ => none

/-- Whether a conditional branch is taken, given the value of its condition:
`brtrue` branches on true, `brfalse` on false. -/
def BranchTaken (brOp : Opcode) (cond : Bool) : Bool :=
  if brOp == Opcode.OP_brtrue then cond else !cond

/-! ## The chain of blocks a branch is threaded through -/

/-- Whether the loop of `OptimizeBranchTarget(bb)` retargets past branch target `t`. -/
def Threads (f : MeFunction) (bb t : BBId) : Bool :=
  !(f.bb t).GetAttributes BBAttr.kBBAttrWontExit &&
    (match ThreadThrough f bb t with
     | Except.ok true => true
     | _ => false)

/-- The chain of blocks `OptimizeBranchTarget(bb)` threads through, started at
`t`, ends after at most `n` threaded blocks, none of which is `bb`: it reaches
a block that is not threaded through (or has no successor to retarget to). -/
def ChainEnds (f : MeFunction) (bb : BBId) : Nat → BBId → Bool
  | 0, t => !Threads f bb t
  | n + 1, t =>
    !Threads f bb t ||
      (t != bb &&
        (match NewTargetBB (f.bb t) with
         | Except.ok t2 => ChainEnds f bb n t2
         | Except.error _ => true))

/-! ## Concrete control-flow graphs -/

/-- A statement that is neither a branch nor a comment. -/
def plainStmt (n : Nat) : Stmt := { op := Opcode.OP_other n, offset := 0, opnd := none }

/-- The statement `goto label`. -/
def gotoStmt (label : LabelIdx) : Stmt := { op := Opcode.OP_goto, offset := label, opnd := none }

/-- A conditional branch on `cond` to `label`. -/
def condStmt (op : Opcode) (label : LabelIdx) (cond : MeExpr) : Stmt :=
  { op := op, offset := label, opnd := some cond }

/-- The condition `a > 3`. -/
def aGt3 : MeExpr := MeExpr.opExpr Opcode.OP_gt (MeExpr.var 0) (MeExpr.const 3 0)

/-- A function over the given blocks, all of them in the block table. -/
def mkFunc (assertOn : Bool) (labelCount : Nat) (heap : List BB) : MeFunction :=
  { hasIRMap := true, isJavaModule := true, assertOn := assertOn, heap := heap,
    bbVec := (List.range heap.length).map some, labelCount := labelCount, endTryBB2TryBB := [] }

/-- A CFG on which the driver reaches `AddBB(gotoTarget)` for a block already laid out.
Source order: 0 entry `switch -> 2, 3, 4`; 1 `brtrue (a > 3) -> 6`, falling through to 5;
2 `goto 5`; 3 `goto 1`; 4 `return`; 5 `goto 7`; 6 `...; goto 7`; 7 `return`.
The label of block `i` is `i + 1`. -/
def doubleLayoutCFG (assertOn : Bool) : MeFunction :=
  mkFunc assertOn 9 [
    { id := 0, kind := BBKind.kBBSwitch, attributes := [BBAttr.kBBAttrIsEntry],
      stmts := [plainStmt 0], bbLabel := 0, pred := [], succ := [2, 3, 4], frequency := 0 },
    { id := 1, kind := BBKind.kBBCondGoto, attributes := [],
      stmts := [condStmt Opcode.OP_brtrue 7 aGt3], bbLabel := 2, pred := [3], succ := [5, 6],
      frequency := 0 },
    { id := 2, kind := BBKind.kBBGoto, attributes := [],
      stmts := [gotoStmt 6], bbLabel := 3, pred := [0], succ := [5], frequency := 0 },
    { id := 3, kind := BBKind.kBBGoto, attributes := [],
      stmts := [gotoStmt 2], bbLabel := 4, pred := [0], succ := [1], frequency := 0 },
    { id := 4, kind := BBKind.kBBReturn, attributes := [],
      stmts := [plainStmt 1], bbLabel := 5, pred := [0], succ := [], frequency := 0 },
    { id := 5, kind := BBKind.kBBGoto, attributes := [],
      stmts := [gotoStmt 8], bbLabel := 6, pred := [1, 2], succ := [7], frequency := 0 },
    { id := 6, kind := BBKind.kBBGoto, attributes := [],
      stmts := [plainStmt 2, gotoStmt 8], bbLabel := 7, pred := [1], succ := [7], frequency := 0 },
    { id := 7, kind := BBKind.kBBReturn, attributes := [],
      stmts := [plainStmt 1], bbLabel := 8, pred := [5, 6], succ := [], frequency := 0 }]

/-- A CFG on which the driver flips a conditional branch.  Source order:
0 entry `brtrue (a > 3) -> 2`, falling through to 1; 1 `return`; 2 `...; goto 1`.
The label of block `i` is `i + 1`. -/
def flipCFG : MeFunction :=
  mkFunc true 4 [
    { id := 0, kind := BBKind.kBBCondGoto, attributes := [BBAttr.kBBAttrIsEntry],
      stmts := [condStmt Opcode.OP_brtrue 3 aGt3], bbLabel := 1, pred := [], succ := [1, 2],
      frequency := 0 },
    { id := 1, kind := BBKind.kBBReturn, attributes := [],
      stmts := [plainStmt 1], bbLabel := 2, pred := [0, 2], succ := [], frequency := 0 },
    { id := 2, kind := BBKind.kBBGoto, attributes := [],
      stmts := [plainStmt 2, gotoStmt 2], bbLabel := 3, pred := [0], succ := [1], frequency := 0 }]

/-- A CFG state in which block 1 has no predecessor left and shares its
successor 2 with the entry.  0 entry `goto 2`; 1 `goto 2`; 2 `return`. -/
def sharedSuccCFG : MeFunction :=
  mkFunc true 4 [
    { id := 0, kind := BBKind.kBBGoto, attributes := [BBAttr.kBBAttrIsEntry],
      stmts := [plainStmt 0, gotoStmt 3], bbLabel := 1, pred := [], succ := [2], frequency := 0 },
    { id := 1, kind := BBKind.kBBGoto, attributes := [],
      stmts := [plainStmt 0, gotoStmt 3], bbLabel := 2, pred := [], succ := [2], frequency := 0 },
    { id := 2, kind := BBKind.kBBReturn, attributes := [],
      stmts := [plainStmt 1], bbLabel := 3, pred := [0, 1], succ := [], frequency := 0 }]

/-- An endless loop: 0 entry `goto 1`; 1 `goto 1`.  No block has `WontExit`. -/
def selfLoopCFG : MeFunction :=
  mkFunc true 3 [
    { id := 0, kind := BBKind.kBBGoto, attributes := [BBAttr.kBBAttrIsEntry],
      stmts := [plainStmt 0, gotoStmt 2], bbLabel := 1, pred := [], succ := [1], frequency := 0 },
    { id := 1, kind := BBKind.kBBGoto, attributes := [],
      stmts := [gotoStmt 2], bbLabel := 2, pred := [0, 1], succ := [1], frequency := 0 }]

/-- The state the loop of `OptimizeBranchTarget(0)` is in after every iteration on `selfLoopCFG`. -/
def selfLoopState : BBLayout :=
  BBLayout.new (mkFunc true 3 [
    { id := 0, kind := BBKind.kBBGoto, attributes := [BBAttr.kBBAttrIsEntry],
      stmts := [plainStmt 0, gotoStmt 2], bbLabel := 1, pred := [], succ := [1], frequency := 0 },
    { id := 1, kind := BBKind.kBBGoto, attributes := [],
      stmts := [gotoStmt 2], bbLabel := 2, pred := [1, 0], succ := [1], frequency := 0 }])

/-- A chain of trivial gotos: 0 entry `goto 1`; 1 `goto 2`; 2 `goto 3`; 3 `return`. -/
def gotoChainCFG : MeFunction :=
  mkFunc true 5 [
    { id := 0, kind := BBKind.kBBGoto, attributes := [BBAttr.kBBAttrIsEntry],
      stmts := [plainStmt 0, gotoStmt 2], bbLabel := 1, pred := [], succ := [1], frequency := 0 },
    { id := 1, kind := BBKind.kBBGoto, attributes := [],
      stmts := [gotoStmt 3], bbLabel := 2, pred := [0], succ := [2], frequency := 0 },
    { id := 2, kind := BBKind.kBBGoto, attributes := [],
      stmts := [gotoStmt 4], bbLabel := 3, pred := [1], succ := [3], frequency := 0 },
    { id := 3, kind := BBKind.kBBReturn, attributes := [],
      stmts := [plainStmt 1], bbLabel := 4, pred := [2], succ := [], frequency := 0 }]

/-- An artificial block without successors and with one predecessor. -/
def artificialExitBB : BB :=
  { id := 1, kind := BBKind.kBBReturn, attributes := [BBAttr.kBBAttrArtificial],
    stmts := [plainStmt 1], bbLabel := 0, pred := [0], succ := [], frequency := 0 }

/-- A fall-through block outside any try region. -/
def plainFallthruBB : BB :=
  { id := 0, kind := BBKind.kBBFallthru, attributes := [],
    stmts := [plainStmt 0], bbLabel := 0, pred := [], succ := [1], frequency := 0 }

/-- An artificial block inside a try region, with one predecessor and one
successor, that holds more than a goto. -/
def artificialTryBB : BB :=
  { id := 1, kind := BBKind.kBBFallthru,
    attributes := [BBAttr.kBBAttrIsTry, BBAttr.kBBAttrArtificial],
    stmts := [plainStmt 1], bbLabel := 0, pred := [0], succ := [2], frequency := 0 }

/-- A block inside a try region, with one predecessor and one successor,
that holds more than a goto. -/
def tryBodyBB : BB :=
  { id := 1, kind := BBKind.kBBFallthru, attributes := [BBAttr.kBBAttrIsTry],
    stmts := [plainStmt 1], bbLabel := 0, pred := [0], succ := [2], frequency := 0 }

/-- A layout state in which no block is laid out. -/
def nothingLaidOut : BBLayout :=
  BBLayout.new (mkFunc true 1 [plainFallthruBB, tryBodyBB, plainFallthruBB])

/-- A block that closes a try region and holds only `brfalse (a > 3)`. -/
def tryEndCondBB : BB :=
  { id := 1, kind := BBKind.kBBCondGoto, attributes := [BBAttr.kBBAttrIsTryEnd],
    stmts := [condStmt Opcode.OP_brfalse 4 aGt3], bbLabel := 2, pred := [0], succ := [2, 3],
    frequency := 0 }

/-- A block that holds only `brfalse (a > 3)`. -/
def condBB : BB :=
  { id := 1, kind := BBKind.kBBCondGoto, attributes := [],
    stmts := [condStmt Opcode.OP_brfalse 4 aGt3], bbLabel := 2, pred := [0], succ := [2, 3],
    frequency := 0 }

/-! ## Vocabulary of the termination proof -/

/-- Every edge is recorded in the predecessor list of its target at least as
often as in the successor list of its source. -/
def EdgesRecorded (f : MeFunction) : Prop :=
  ∀ x s : BBId, (f.bb x).succ.count s ≤ (f.bb s).pred.count x

/-- What the classifiers read of a statement: everything but the branch label. -/
def Stmt.shape (st : Stmt) : Opcode × Option MeExpr :=
  (st.op, st.opnd)

/-- Function `g` differs from `f` at most in branch labels, block labels,
predecessor lists, the successors of `bb`, the block table and the label
allocator. -/
def SameShape (bb : BBId) (f g : MeFunction) : Prop :=
  g.hasIRMap = f.hasIRMap ∧ g.heap.length = f.heap.length ∧
  ∀ x : BBId,
    (g.bb x).kind = (f.bb x).kind ∧ (g.bb x).attributes = (f.bb x).attributes ∧
    (g.bb x).stmts.map Stmt.shape = (f.bb x).stmts.map Stmt.shape ∧
    (x ≠ bb → (g.bb x).succ = (f.bb x).succ)

/-- A path of the recursion of `RemoveUnreachable`, innermost call first: each
block has the next one as its only predecessor, and the outermost block
`root` has no predecessor. -/
def PredPath (f : MeFunction) (root : BBId) : List BBId → Prop
  | [] => False
  | [x] => x = root ∧ (f.bb x).pred = []
  | x :: y :: rest => (f.bb x).pred = [y] ∧ PredPath f root (y :: rest)

/-- State `l2` differs from `l1` at most in the block table. -/
def OnlyTableChanged (l1 l2 : BBLayout) : Prop :=
  ∃ v : List (Option BBId), l2 = { l1 with func := { l1.func with bbVec := v } }

/-- Whether a conditional block has its branch target also as its first successor. -/
def TwinSucc (b : BB) (t : BBId) : Nat :=
  if BrTargetIdx b = 1 ∧ b.succ.head? = some t then 1 else 0

/-- The function after the branch of `bb` is retargeted from `t` to `nt`: the
label and the three updates of the body of the loop of `OptimizeBranchTarget`. -/
def Retargeted (f : MeFunction) (bb t nt : BBId) : MeFunction :=
  RemoveBBFromPred
    (ReplaceSucc (SetLastOffset (GetOrCreateBBLabel f nt).2 bb (GetOrCreateBBLabel f nt).1) bb t nt)
    t bb

/-- Functions `f` and `g` have the same edges. -/
def SameEdges (f g : MeFunction) : Prop :=
  ∀ x : BBId, (g.bb x).succ = (f.bb x).succ ∧ (g.bb x).pred = (f.bb x).pred

/-! ## Scenario graphs -/

/-- Scenario S3: 0 entry `brfalse (a > 3) -> 1`, falling through to 4;
1 `brfalse (a > 3) -> 2`, falling through to 3; 2 `return`; 3 `return`;
4 `...; goto 2`.  The label of block `i` is `i + 1`. -/
def sameCondCFG : MeFunction :=
  mkFunc true 6 [
    { id := 0, kind := BBKind.kBBCondGoto, attributes := [BBAttr.kBBAttrIsEntry],
      stmts := [condStmt Opcode.OP_brfalse 2 aGt3], bbLabel := 1, pred := [], succ := [4, 1],
      frequency := 0 },
    { id := 1, kind := BBKind.kBBCondGoto, attributes := [],
      stmts := [condStmt Opcode.OP_brfalse 3 aGt3], bbLabel := 2, pred := [0], succ := [3, 2],
      frequency := 0 },
    { id := 2, kind := BBKind.kBBReturn, attributes := [],
      stmts := [plainStmt 1], bbLabel := 3, pred := [1, 4], succ := [], frequency := 0 },
    { id := 3, kind := BBKind.kBBReturn, attributes := [],
      stmts := [plainStmt 1], bbLabel := 4, pred := [1], succ := [], frequency := 0 },
    { id := 4, kind := BBKind.kBBGoto, attributes := [],
      stmts := [plainStmt 2, gotoStmt 3], bbLabel := 5, pred := [0], succ := [2], frequency := 0 }]

/-- Scenario S4 for a fall-through block: 0 entry `brtrue (a > 3) -> 2`, falling
through to 1; 1 `...` falling through to 3; 2 `...; goto 3`; 3 `return`. -/
def fallthruDetourCFG : MeFunction :=
  mkFunc true 5 [
    { id := 0, kind := BBKind.kBBCondGoto, attributes := [BBAttr.kBBAttrIsEntry],
      stmts := [condStmt Opcode.OP_brtrue 3 aGt3], bbLabel := 1, pred := [], succ := [1, 2],
      frequency := 0 },
    { id := 1, kind := BBKind.kBBFallthru, attributes := [],
      stmts := [plainStmt 0], bbLabel := 2, pred := [0], succ := [3], frequency := 0 },
    { id := 2, kind := BBKind.kBBGoto, attributes := [],
      stmts := [plainStmt 2, gotoStmt 4], bbLabel := 3, pred := [0], succ := [3], frequency := 0 },
    { id := 3, kind := BBKind.kBBReturn, attributes := [],
      stmts := [plainStmt 1], bbLabel := 4, pred := [1, 2], succ := [], frequency := 0 }]

/-- A CFG on which a second run lays the blocks out in another order.
0 entry `switch -> 1, 2`; 1 `...; goto 4`; 2 `brfalse (a > 3) -> 4`, falling through to 3;
3 `return`; 4 `brfalse (a > 3) -> 6`, falling through to 5; 5 `...; goto 7`; 6 `return`;
7 `return`.  The label of block `i` is `i + 1`. -/
def secondRunCFG : MeFunction :=
  mkFunc true 9 [
    { id := 0, kind := BBKind.kBBSwitch, attributes := [BBAttr.kBBAttrIsEntry],
      stmts := [plainStmt 0], bbLabel := 0, pred := [], succ := [1, 2], frequency := 0 },
    { id := 1, kind := BBKind.kBBGoto, attributes := [],
      stmts := [plainStmt 2, gotoStmt 5], bbLabel := 2, pred := [0], succ := [4], frequency := 0 },
    { id := 2, kind := BBKind.kBBCondGoto, attributes := [],
      stmts := [plainStmt 2, condStmt Opcode.OP_brfalse 5 aGt3], bbLabel := 3, pred := [0],
      succ := [3, 4], frequency := 0 },
    { id := 3, kind := BBKind.kBBReturn, attributes := [],
      stmts := [plainStmt 1], bbLabel := 4, pred := [2], succ := [], frequency := 0 },
    { id := 4, kind := BBKind.kBBCondGoto, attributes := [],
      stmts := [condStmt Opcode.OP_brfalse 7 aGt3], bbLabel := 5, pred := [1, 2], succ := [5, 6],
      frequency := 0 },
    { id := 5, kind := BBKind.kBBGoto, attributes := [],
      stmts := [plainStmt 2, gotoStmt 8], bbLabel := 6, pred := [4], succ := [7], frequency := 0 },
    { id := 6, kind := BBKind.kBBReturn, attributes := [],
      stmts := [plainStmt 1], bbLabel := 7, pred := [4], succ := [], frequency := 0 },
    { id := 7, kind := BBKind.kBBReturn, attributes := [],
      stmts := [plainStmt 1], bbLabel := 8, pred := [5], succ := [], frequency := 0 }]

/-- A conditional block whose two successors are the same trivial goto:
0 entry `brtrue (a > 3) -> 1`, falling through to 1; 1 `goto 2`; 2 `return`. -/
def twinSuccCFG (assertOn : Bool) : MeFunction :=
  mkFunc assertOn 4 [
    { id := 0, kind := BBKind.kBBCondGoto, attributes := [BBAttr.kBBAttrIsEntry],
      stmts := [condStmt Opcode.OP_brtrue 2 aGt3], bbLabel := 1, pred := [], succ := [1, 1],
      frequency := 0 },
    { id := 1, kind := BBKind.kBBGoto, attributes := [],
      stmts := [gotoStmt 3], bbLabel := 2, pred := [0, 0], succ := [2], frequency := 0 },
    { id := 2, kind := BBKind.kBBReturn, attributes := [],
      stmts := [plainStmt 1], bbLabel := 3, pred := [1], succ := [], frequency := 0 }]

/-- Two blocks that are each other's only predecessor, behind the entry:
0 entry `return`; 1 `...; goto 2`; 2 `...; goto 1`. -/
def twoCycleCFG : MeFunction :=
  mkFunc true 4 [
    { id := 0, kind := BBKind.kBBReturn, attributes := [BBAttr.kBBAttrIsEntry],
      stmts := [plainStmt 1], bbLabel := 1, pred := [], succ := [], frequency := 0 },
    { id := 1, kind := BBKind.kBBGoto, attributes := [],
      stmts := [plainStmt 0, gotoStmt 3], bbLabel := 2, pred := [2], succ := [2], frequency := 0 },
    { id := 2, kind := BBKind.kBBGoto, attributes := [],
      stmts := [plainStmt 0, gotoStmt 2], bbLabel := 3, pred := [1], succ := [1], frequency := 0 }]

/-- An endless loop marked `WontExit`: 0 entry `...; goto 1`; 1 `goto 1`. -/
def wontExitCFG : MeFunction :=
  mkFunc true 3 [
    { id := 0, kind := BBKind.kBBGoto, attributes := [BBAttr.kBBAttrIsEntry],
      stmts := [plainStmt 0, gotoStmt 2], bbLabel := 1, pred := [], succ := [1], frequency := 0 },
    { id := 1, kind := BBKind.kBBGoto, attributes := [BBAttr.kBBAttrWontExit],
      stmts := [gotoStmt 2], bbLabel := 2, pred := [0, 1], succ := [1], frequency := 0 }]

/-- A CFG on which the block the driver has picked as next is dropped by a
recursive `RemoveUnreachable` call.  0 entry `...; goto 2`; 1 `return`;
2 `brfalse (a > 3) -> 4`, falling through to 3; 3 `...; goto 5`;
4 `brfalse (a > 3) -> 5`, falling through to 1; 5 `return`.
The label of block `i` is `i + 1`. -/
def droppedNextCFG : MeFunction :=
  mkFunc true 7 [
    { id := 0, kind := BBKind.kBBGoto, attributes := [BBAttr.kBBAttrIsEntry],
      stmts := [plainStmt 0, gotoStmt 3], bbLabel := 1, pred := [], succ := [2], frequency := 0 },
    { id := 1, kind := BBKind.kBBReturn, attributes := [],
      stmts := [plainStmt 1], bbLabel := 2, pred := [4], succ := [], frequency := 0 },
    { id := 2, kind := BBKind.kBBCondGoto, attributes := [],
      stmts := [condStmt Opcode.OP_brfalse 5 aGt3], bbLabel := 3, pred := [0], succ := [3, 4],
      frequency := 0 },
    { id := 3, kind := BBKind.kBBGoto, attributes := [],
      stmts := [plainStmt 2, gotoStmt 6], bbLabel := 4, pred := [2], succ := [5], frequency := 0 },
    { id := 4, kind := BBKind.kBBCondGoto, attributes := [],
      stmts := [condStmt Opcode.OP_brfalse 6 aGt3], bbLabel := 5, pred := [2], succ := [1, 5],
      frequency := 0 },
    { id := 5, kind := BBKind.kBBReturn, attributes := [],
      stmts := [plainStmt 1], bbLabel := 6, pred := [3, 4], succ := [], frequency := 0 }]

/-- A conditional block whose branch target is a trivial goto to its
fall-through block, itself a trivial goto: 0 entry `brtrue (a > 3) -> 2`,
falling through to 1; 1 `goto 3`; 2 `goto 1`; 3 `return`. -/
def joinCFG (assertOn : Bool) : MeFunction :=
  mkFunc assertOn 5 [
    { id := 0, kind := BBKind.kBBCondGoto, attributes := [BBAttr.kBBAttrIsEntry],
      stmts := [condStmt Opcode.OP_brtrue 3 aGt3], bbLabel := 1, pred := [], succ := [1, 2],
      frequency := 0 },
    { id := 1, kind := BBKind.kBBGoto, attributes := [],
      stmts := [gotoStmt 4], bbLabel := 2, pred := [0, 2], succ := [3], frequency := 0 },
    { id := 2, kind := BBKind.kBBGoto, attributes := [],
      stmts := [gotoStmt 2], bbLabel := 3, pred := [0], succ := [1], frequency := 0 },
    { id := 3, kind := BBKind.kBBReturn, attributes := [],
      stmts := [plainStmt 1], bbLabel := 4, pred := [1], succ := [], frequency := 0 }]

/-- Scenario S2: 0 entry `brtrue (a > 3) -> 2`, falling through to 1;
1 `return`; 2 `return`.  The label of block `i` is `i + 1`. -/
def condReturnsCFG : MeFunction :=
  mkFunc true 4 [
    { id := 0, kind := BBKind.kBBCondGoto, attributes := [BBAttr.kBBAttrIsEntry],
      stmts := [condStmt Opcode.OP_brtrue 3 aGt3], bbLabel := 1, pred := [], succ := [1, 2],
      frequency := 0 },
    { id := 1, kind := BBKind.kBBReturn, attributes := [],
      stmts := [plainStmt 1], bbLabel := 2, pred := [0], succ := [], frequency := 0 },
    { id := 2, kind := BBKind.kBBReturn, attributes := [],
      stmts := [plainStmt 1], bbLabel := 3, pred := [0], succ := [], frequency := 0 }]

/-- Scenario S1: 0 entry `...; goto 1`; 1 `goto 2`; 2 `return`.  The label of
block `i` is `i + 1`. -/
def gotoThreadCFG : MeFunction :=
  mkFunc true 4 [
    { id := 0, kind := BBKind.kBBGoto, attributes := [BBAttr.kBBAttrIsEntry],
      stmts := [plainStmt 0, gotoStmt 2], bbLabel := 1, pred := [], succ := [1], frequency := 0 },
    { id := 1, kind := BBKind.kBBGoto, attributes := [],
      stmts := [gotoStmt 3], bbLabel := 2, pred := [0], succ := [2], frequency := 0 },
    { id := 2, kind := BBKind.kBBReturn, attributes := [],
      stmts := [plainStmt 1], bbLabel := 3, pred := [1], succ := [], frequency := 0 }]

/-- Modelled from the spec: the shape of scenario S1.  The block table is
`A, B, C` (ids 0, 1, 2); `A` ends in a `goto` that records the label of its
only successor `B`; `B` contains only a goto, is neither `WontExit` nor the
entry, has `A` as its only predecessor and `C` as its successor; `C` is a
`Return` block; no try region opens at `A` or `C` or closes at `C`. -/
def GotoThreadShape (f : MeFunction) : Prop :=
  f.bbVec = [some 0, some 1, some 2] ∧
  ((f.bb 0).id = 0 ∧ (f.bb 1).id = 1 ∧ (f.bb 2).id = 2) ∧
  ((f.bb 0).kind = BBKind.kBBGoto ∧ (f.bb 0).succ = [1] ∧
    (f.bb 0).stmts.getLast?.map (fun st => (st.op, st.offset)) =
      some (Opcode.OP_goto, (f.bb 1).bbLabel)) ∧
  (BBContainsOnlyGoto (f.bb 1) = true ∧
    (f.bb 1).GetAttributes BBAttr.kBBAttrWontExit = false ∧
    (f.bb 1).GetAttributes BBAttr.kBBAttrIsEntry = false ∧
    (f.bb 1).pred = [0] ∧ (f.bb 1).succ = [2] ∧ (f.bb 1).bbLabel ≠ 0) ∧
  (f.bb 2).kind = BBKind.kBBReturn ∧
  (FrontIsTry (f.bb 0) = false ∧ FrontIsTry (f.bb 2) = false ∧
    (f.bb 2).GetAttributes BBAttr.kBBAttrIsTryEnd = false)

/-- Modelled from the spec: the shape of scenario S2.  The block table is
`A, F, T` (ids 0, 1, 2); `A` is a `CondGoto` block ending in a conditional
branch, with successors `[F, T]`; `F` is a non-empty `Return` block whose only
predecessor is `A`; `T` is a `Return` block; no try region opens or closes at
a block. -/
def CondReturnsShape (f : MeFunction) : Prop :=
  f.bbVec = [some 0, some 1, some 2] ∧
  ((f.bb 0).id = 0 ∧ (f.bb 1).id = 1 ∧ (f.bb 2).id = 2) ∧
  ((f.bb 0).kind = BBKind.kBBCondGoto ∧ (f.bb 0).succ = [1, 2] ∧
    (f.bb 0).stmts.getLast?.map (fun st => st.IsCondBr) = some true) ∧
  ((f.bb 1).kind = BBKind.kBBReturn ∧ (f.bb 1).IsEmpty = false ∧ (f.bb 1).pred = [0]) ∧
  (f.bb 2).kind = BBKind.kBBReturn ∧
  (FrontIsTry (f.bb 0) = false ∧ FrontIsTry (f.bb 1) = false ∧ FrontIsTry (f.bb 2) = false) ∧
  ((f.bb 1).GetAttributes BBAttr.kBBAttrIsTryEnd = false ∧
    (f.bb 2).GetAttributes BBAttr.kBBAttrIsTryEnd = false)

/-- The sweep `RemoveUnreachable` instrumented with a log: the same recursion,
returning next to the state the blocks it nullified, in the order of the calls
of `NullifyBBByID`. -/
def RemoveUnreachableLog : Nat → BBLayout → BBId → Res (BBLayout × List BBId)
  | 0, _, _ => Except.error Err.fuel
  | fuel + 1, l, bb =>
    if (l.func.bb bb).GetAttributes BBAttr.kBBAttrIsEntry then Except.ok (l, [])
    else do
      let succBBs := (l.func.bb bb).succ
      let r ← succBBs.foldlM (fun (p : BBLayout × List BBId) (succ : BBId) =>
        let preds := RemoveBBFromVector bb (p.1.func.bb succ).pred
        if preds.isEmpty then do
          let q ← RemoveUnreachableLog fuel p.1 succ
          Except.ok (q.1, p.2 ++ q.2)
        else Except.ok p) (l, [])
      Except.ok ({ r.1 with func := NullifyBBByID r.1.func (r.1.func.bb bb).id }, r.2 ++ [bb])

/-- Block `y` is below block `x`: following the only predecessor, step by
step, leads from `y` to `x`. -/
inductive Below (f : MeFunction) (x : BBId) : BBId → Prop where
  | self : Below f x x
  | step (y p : BBId) : (f.bb y).pred = [p] → Below f x p → Below f x y

/-- A block that ends in `brtrue` on an operator expression whose opcode is `OP_undef`. -/
def undefCmpBB : BB :=
  { id := 1, kind := BBKind.kBBCondGoto, attributes := [],
    stmts := [condStmt Opcode.OP_brtrue 4
      (MeExpr.opExpr Opcode.OP_undef (MeExpr.var 0) (MeExpr.const 3 0))],
    bbLabel := 2, pred := [0], succ := [2, 3], frequency := 0 }

/-- A block that ends in `brfalse` on an operator expression whose operator
is outside the table of `GetOppositeOp`. -/
def tablelessCmpBB : BB :=
  { id := 2, kind := BBKind.kBBCondGoto, attributes := [],
    stmts := [condStmt Opcode.OP_brfalse 4
      (MeExpr.opExpr (Opcode.OP_other 0) (MeExpr.var 0) (MeExpr.const 3 0))],
    bbLabel := 3, pred := [0], succ := [2, 3], frequency := 0 }

/-- A chain without predecessor behind the entry: 0 entry `return`;
1 `...; goto 2`, no predecessor; 2 `...; goto 3`, only predecessor 1;
3 `return`, only predecessor 2.  The label of block `i` is `i + 1`. -/
def orphanChainCFG : MeFunction :=
  mkFunc true 5 [
    { id := 0, kind := BBKind.kBBReturn, attributes := [BBAttr.kBBAttrIsEntry],
      stmts := [plainStmt 1], bbLabel := 1, pred := [], succ := [], frequency := 0 },
    { id := 1, kind := BBKind.kBBGoto, attributes := [],
      stmts := [plainStmt 0, gotoStmt 3], bbLabel := 2, pred := [], succ := [2], frequency := 0 },
    { id := 2, kind := BBKind.kBBGoto, attributes := [],
      stmts := [plainStmt 0, gotoStmt 4], bbLabel := 3, pred := [1], succ := [3], frequency := 0 },
    { id := 3, kind := BBKind.kBBReturn, attributes := [],
      stmts := [plainStmt 1], bbLabel := 4, pred := [2], succ := [], frequency := 0 }]

/-- A fall-through block whose target is a trivial goto with two
predecessors: 0 entry `brtrue (a > 3) -> 2`, falling through to 1; 1 `...`
falling through to 3; 2 `...; goto 3`; 3 `goto 4`; 4 `return`.  The label of
block `i` is `i + 1`. -/
def threadableDetourCFG : MeFunction :=
  mkFunc true 6 [
    { id := 0, kind := BBKind.kBBCondGoto, attributes := [BBAttr.kBBAttrIsEntry],
      stmts := [condStmt Opcode.OP_brtrue 3 aGt3], bbLabel := 1, pred := [], succ := [1, 2],
      frequency := 0 },
    { id := 1, kind := BBKind.kBBFallthru, attributes := [],
      stmts := [plainStmt 0], bbLabel := 2, pred := [0], succ := [3], frequency := 0 },
    { id := 2, kind := BBKind.kBBGoto, attributes := [],
      stmts := [plainStmt 2, gotoStmt 4], bbLabel := 3, pred := [0], succ := [3], frequency := 0 },
    { id := 3, kind := BBKind.kBBGoto, attributes := [],
      stmts := [gotoStmt 5], bbLabel := 4, pred := [1, 2], succ := [4], frequency := 0 },
    { id := 4, kind := BBKind.kBBReturn, attributes := [],
      stmts := [plainStmt 1], bbLabel := 5, pred := [3], succ := [], frequency := 0 }]

/-! ## Vocabulary of the label and edge invariant of branch threading -/

/-- The loop of `OptimizeBranchTarget` with a log of the branch targets it
bypassed, first to last: the same loop, which also collects `brTargetBB` of
every iteration that retargets the branch. -/
def OptimizeBranchTargetLoopLog : Nat → BBLayout → BBId → Res (BBLayout × List BBId)
  | 0, _, _ => Except.error Err.fuel
  | fuel + 1, l, bb => do
    match ← RetargetBranch l bb with
    | none => Except.ok (l, [])
    | some (brTargetBB, l4) =>
      let l5 ←
        if (l4.func.bb brTargetBB).pred.isEmpty then
          RemoveUnreachable fuel (l4.SetLaidOut (l4.func.bb brTargetBB).id) brTargetBB
        else Except.ok l4
      let r ← OptimizeBranchTargetLoopLog fuel l5 bb
      Except.ok (r.1, brTargetBB :: r.2)

/-- The rewriter `OptimizeBranchTarget` with the log of the bypassed blocks. -/
def OptimizeBranchTargetLog (fuel : Nat) (l : BBLayout) (bb : BBId) : Res (BBLayout × List BBId) :=
  match (l.func.bb bb).stmts.getLast? with
  | none => Except.ok (l, [])
  | some last =>
    if last.op != Opcode.OP_goto && !last.IsCondBr then Except.ok (l, [])
    else OptimizeBranchTargetLoopLog fuel l bb

/-- The branch that ends block `b` records the label of block `s`, which is minted. -/
def BranchLabelOK (f : MeFunction) (b s : BBId) : Prop :=
  ∃ st, (f.bb b).stmts.getLast? = some st ∧ st.offset = (f.bb s).bbLabel ∧ (f.bb s).bbLabel ≠ 0

/-- Every edge out of `b` is recorded as often in the predecessor list of its
target as in the successor list of `b`. -/
def OutEdgesMutual (f : MeFunction) (b : BBId) : Prop :=
  ∀ s : BBId, (f.bb s).pred.count b = (f.bb b).succ.count s

/-- Every successor is a block of the arena. -/
def SuccInRange (f : MeFunction) : Prop :=
  ∀ x s : BBId, s ∈ (f.bb x).succ → s < f.heap.length

/-- The states the loop of `OptimizeBranchTarget(b)` runs through.  A `Goto`
block has one successor, whose label the branch records.  A `CondGoto` block
has two successors, and the branch records the label of the second one; or,
after `ReplaceSucc` has replaced the first of two equal successors, the
branch records the label of the first one, which is the next target behind
the second one, still to be threaded past. -/
def ThreadState (f : MeFunction) (b : BBId) : Prop :=
  ((f.bb b).kind = BBKind.kBBGoto ∧ ∃ s, (f.bb b).succ = [s] ∧ BranchLabelOK f b s) ∨
  ((f.bb b).kind = BBKind.kBBCondGoto ∧ ∃ s0 s1, (f.bb b).succ = [s0, s1] ∧
    (BranchLabelOK f b s1 ∨
      (s0 ≠ s1 ∧ Threads f b s1 = true ∧ NewTargetBB (f.bb s1) = Except.ok s0 ∧
        BranchLabelOK f b s0)))

/-- Block `x` is the fall-through successor of the conditional block `b`,
differs from the branch target, and is not what the branch is retargeted to
next: the loop of `OptimizeBranchTarget(b)` leaves this successor alone. -/
def FallthruKept (f : MeFunction) (b x : BBId) : Prop :=
  (f.bb b).kind = BBKind.kBBCondGoto ∧ ∃ s1, (f.bb b).succ = [x, s1] ∧ x ≠ s1 ∧
    ¬ (Threads f b s1 = true ∧ NewTargetBB (f.bb s1) = Except.ok x)

/-! ## The layout driver on concrete graphs -/

/-- C1 (code defect).  On the well-formed `doubleLayoutCFG`, whose blocks are all
reachable from the entry, the driver reaches `AddBB(gotoTarget)` in the
piggy-back case of a `Goto` block for block 1, which is already laid out: with
assertions compiled out block 1 is appended to `layoutBBs` twice (and is not
null in the block table), with assertions compiled in `Run` aborts. -/
theorem Run_appends_block_twice :
    (doubleLayoutCFG false).WellFormed = true ∧
    (ReachableFromEntry (doubleLayoutCFG false)).length = 8 ∧
    (Run 20 (doubleLayoutCFG false)).map (fun l => (l.layoutBBs, l.func.bbVec.getD 1 none)) =
      Except.ok ([0, 1, 6, 2, 3, 1, 5, 4, 7], some 1) ∧
    (Run 20 (doubleLayoutCFG true)).map (fun l => l.layoutBBs) = Except.error Err.abort := by
  refine ⟨by rfl, by rfl, by rfl, by rfl⟩

/-- C2 (code defect).  On the well-formed `flipCFG` the driver flips the
conditional branch of block 0 and lays out `[0, 2, 1]`; afterwards block 0
ends in `brfalse` with recorded offset 2, the label of `successors[0]` (block
1), while its labeled successor `successors[1]` is still block 2, whose label
is 3. -/
theorem Run_flip_breaks_label_consistency :
    flipCFG.WellFormed = true ∧
    (Run 20 flipCFG).map (fun l =>
      (l.layoutBBs, (l.func.bb 0).kind, (l.func.bb 0).stmts.map (fun st => (st.op, st.offset)),
        (l.func.bb 0).succ, (l.func.bb 1).bbLabel, (l.func.bb 2).bbLabel,
        LabelConsistent l.func (l.func.bb 0))) =
      Except.ok ([0, 2, 1], BBKind.kBBCondGoto, [(Opcode.OP_brfalse, 2)], [1, 2], 2, 3, false) := by
  refine ⟨by rfl, by rfl⟩


/-! ## Movability -/

/-- C3 (counterexample).  For an artificial block without successors, with
one predecessor and not laid out, the condition of the claim holds (clause
(a)), yet `BBCanBeMoved` returns false. -/
theorem BBCanBeMoved_artificial_needs_one_succ :
    SpecCanBeMoved nothingLaidOut artificialExitBB plainFallthruBB = true ∧
    BBCanBeMoved nothingLaidOut artificialExitBB plainFallthruBB = false := by
  decide

/-- C3 (amended).  `BBCanBeMoved(from, toAfter)` returns true if and only if
`from` has at most one predecessor, is not laid out, and either (`from` is
artificial, or neither block is in a try region) and `from` has exactly one
successor, or (`from` is not artificial and one of the two blocks is in a try
region) and `from` contains only a goto. -/
theorem BBCanBeMoved_iff (l : BBLayout) (fromBB toAfterBB : BB) :
    BBCanBeMoved l fromBB toAfterBB = true ↔
      fromBB.pred.length ≤ 1 ∧ l.IsBBLaidOut fromBB.id = false ∧
      (((fromBB.GetAttributes BBAttr.kBBAttrArtificial = true ∨
            (fromBB.GetAttributes BBAttr.kBBAttrIsTry = false ∧
              toAfterBB.GetAttributes BBAttr.kBBAttrIsTry = false)) ∧
          fromBB.succ.length = 1) ∨
        ((fromBB.GetAttributes BBAttr.kBBAttrArtificial = false ∧
            (fromBB.GetAttributes BBAttr.kBBAttrIsTry = true ∨
              toAfterBB.GetAttributes BBAttr.kBBAttrIsTry = true)) ∧
          BBContainsOnlyGoto fromBB = true)) := by
  unfold BBCanBeMoved
  by_cases hp : fromBB.pred.length > 1
  · simp [hp]
  · have hp2 : fromBB.pred.length ≤ 1 := by omega
    cases hl : l.IsBBLaidOut fromBB.id <;>
    cases ha : fromBB.GetAttributes BBAttr.kBBAttrArtificial <;>
    cases hf : fromBB.GetAttributes BBAttr.kBBAttrIsTry <;>
    cases ht : toAfterBB.GetAttributes BBAttr.kBBAttrIsTry <;>
    simp [hp, hp2]

/-- C4 (counterexample).  A block with the `Try` and `Artificial` attributes,
one predecessor, one successor, not laid out and not only a goto can be moved
behind a block outside the try region. -/
theorem BBCanBeMoved_artificial_try_block :
    artificialTryBB.GetAttributes BBAttr.kBBAttrIsTry = true ∧
    plainFallthruBB.GetAttributes BBAttr.kBBAttrIsTry = false ∧
    BBContainsOnlyGoto artificialTryBB = false ∧
    BBCanBeMoved nothingLaidOut artificialTryBB plainFallthruBB = true := by
  decide

/-- C4 (amended).  EH-aware refusal: for every block `F` that has the `Try`
attribute and not the `Artificial` attribute and every block `B`,
`BBCanBeMoved(F, B)` returns false whenever `F` is not an only-goto block,
whatever the predecessors, successors and layout state. -/
theorem BBCanBeMoved_refuses_try_block (l : BBLayout) (F B : BB)
    (hTry : F.GetAttributes BBAttr.kBBAttrIsTry = true)
    (hArt : F.GetAttributes BBAttr.kBBAttrArtificial = false)
    (hGoto : BBContainsOnlyGoto F = false) :
    BBCanBeMoved l F B = false := by
  unfold BBCanBeMoved
  simp [hTry, hArt, hGoto]

/-- C4 (amended), at a try-body block with one predecessor and one successor. -/
theorem BBCanBeMoved_refuses_try_block_witness :
    BBCanBeMoved nothingLaidOut tryBodyBB plainFallthruBB = false :=
  BBCanBeMoved_refuses_try_block nothingLaidOut tryBodyBB plainFallthruBB
    (by decide) (by decide) (by decide)

/-! ## Pruning -/

/-- C5 (code defect).  `RemoveUnreachable(1)` on `sharedSuccCFG` returns with
block 1 nullified in the block table, but block 1 still occurs in the
predecessor list of its successor 2: the erasure acts on a copy of the list. -/
theorem RemoveUnreachable_keeps_pred_entry :
    (sharedSuccCFG.bb 1).GetAttributes BBAttr.kBBAttrIsEntry = false ∧
    (sharedSuccCFG.bb 1).succ = [2] ∧
    (RemoveUnreachable 5 (BBLayout.new sharedSuccCFG) 1).map
        (fun l => ((l.func.bb 2).pred, l.func.bbVec)) =
      Except.ok ([0, 1], [some 0, none, some 2]) := by
  refine ⟨by decide, by decide, by rfl⟩

/-- C6.  For every state and every block with the `Entry` attribute,
`RemoveUnreachable` returns and leaves the whole state unchanged. -/
theorem RemoveUnreachable_entry_unchanged (fuel : Nat) (l : BBLayout) (bb : BBId)
    (hEntry : (l.func.bb bb).GetAttributes BBAttr.kBBAttrIsEntry = true) :
    RemoveUnreachable (fuel + 1) l bb = Except.ok l := by
  simp [RemoveUnreachable, hEntry]

/-- C6, at the entry block of `sharedSuccCFG`. -/
theorem RemoveUnreachable_entry_unchanged_witness :
    RemoveUnreachable 1 (BBLayout.new sharedSuccCFG) 0 = Except.ok (BBLayout.new sharedSuccCFG) :=
  RemoveUnreachable_entry_unchanged 0 (BBLayout.new sharedSuccCFG) 0 (by decide)


/-! ## Classifiers -/

/-- The code's table agrees with the specification's on every operator that
can equal an entry of the table. -/
theorem GetOppositeOp_eq_iff (a b : Opcode) (ha : a ≠ Opcode.OP_undef) :
    a = GetOppositeOp b ↔ SpecOpposite b = some a := by
  cases b <;> cases a <;> simp [GetOppositeOp, SpecOpposite] at ha ⊢

/-- C8 (counterexample).  Without an IRMap `HasSameBranchCond` returns false
for two blocks that end in the very same conditional branch, for which the
condition of the claim holds. -/
theorem HasSameBranchCond_false_without_IRMap :
    condBB.stmts.getLast? = some (condStmt Opcode.OP_brfalse 4 aGt3) ∧
    SpecSameBranchCond Opcode.OP_brfalse Opcode.OP_gt (MeExpr.var 0) (MeExpr.const 3 0)
      Opcode.OP_brfalse Opcode.OP_gt (MeExpr.var 0) (MeExpr.const 3 0) = true ∧
    (HasSameBranchCond false condBB condBB).toOption = some false := by
  decide

/-- With an IRMap, the test of the code is the test of the specification on
conditional branches over operator expressions whose first compare operator
is not `OP_undef`. -/
theorem HasSameBranchCond_eq_spec (b1 b2 : BB) (op1 op2 cmp1 cmp2 : Opcode) (off1 off2 : LabelIdx)
    (l1 r1 l2 r2 : MeExpr)
    (h1 : b1.stmts.getLast? = some (condStmt op1 off1 (MeExpr.opExpr cmp1 l1 r1)))
    (h2 : b2.stmts.getLast? = some (condStmt op2 off2 (MeExpr.opExpr cmp2 l2 r2)))
    (hb1 : (condStmt op1 off1 (MeExpr.opExpr cmp1 l1 r1)).IsCondBr = true)
    (_hb2 : (condStmt op2 off2 (MeExpr.opExpr cmp2 l2 r2)).IsCondBr = true)
    (hc : cmp1 ≠ Opcode.OP_undef) :
    HasSameBranchCond true b1 b2 = Except.ok true ↔
      SpecSameBranchCond op1 cmp1 l1 r1 op2 cmp2 l2 r2 = true := by
  have ho1 : op1 ≠ Opcode.OP_undef := by
    intro h
    simp [Stmt.IsCondBr, condStmt, h] at hb1
  have e1 := GetOppositeOp_eq_iff op1 op2 ho1
  have e2 := GetOppositeOp_eq_iff cmp1 cmp2 hc
  simp only [HasSameBranchCond, h1, h2, condStmt, MeExpr.GetOp, MeExpr.GetMeOp,
    SpecSameBranchCond]
  by_cases hl : l1 = l2 <;> by_cases hr : r1 = r2 <;>
    by_cases hs : (op1 = op2 ∧ cmp1 = cmp2) <;>
    by_cases ho : (op1 = GetOppositeOp op2 ∧ cmp1 = GetOppositeOp cmp2) <;>
    cases hz1 : r1.IsZero <;> cases hz2 : r2.IsZero <;>
    simp_all <;> tauto

/-- C8 (amended).  When the function has an IRMap, for all blocks `b1`, `b2`
that end in conditional branches `(op_i, cmp_i, l_i, r_i)` on operator
expressions, with `cmp1` not `OP_undef`, `HasSameBranchCond(b1, b2)` returns
true if and only if ((op1 = op2 and cmp1 = cmp2) or (op1 = opposite(op2) and
cmp1 = opposite(cmp2))) and l1 is identical to l2 and (r1 is identical to r2
or both are zero constants), with the `opposite` table of the specification. -/
theorem HasSameBranchCond_iff (b1 b2 : BB) (op1 op2 cmp1 cmp2 : Opcode) (off1 off2 : LabelIdx)
    (l1 r1 l2 r2 : MeExpr)
    (h1 : b1.stmts.getLast? = some (condStmt op1 off1 (MeExpr.opExpr cmp1 l1 r1)))
    (h2 : b2.stmts.getLast? = some (condStmt op2 off2 (MeExpr.opExpr cmp2 l2 r2)))
    (hb1 : (condStmt op1 off1 (MeExpr.opExpr cmp1 l1 r1)).IsCondBr = true)
    (hb2 : (condStmt op2 off2 (MeExpr.opExpr cmp2 l2 r2)).IsCondBr = true)
    (hc : cmp1 ≠ Opcode.OP_undef) :
    HasSameBranchCond true b1 b2 = Except.ok true ↔
      SpecSameBranchCond op1 cmp1 l1 r1 op2 cmp2 l2 r2 = true :=
  HasSameBranchCond_eq_spec b1 b2 op1 op2 cmp1 cmp2 off1 off2 l1 r1 l2 r2 h1 h2 hb1 hb2 hc

/-- C8 (amended), at `brfalse (a > 3)` against `brtrue (a <= 3)`. -/
theorem HasSameBranchCond_iff_witness :
    HasSameBranchCond true condBB
        { condBB with stmts := [condStmt Opcode.OP_brtrue 4
            (MeExpr.opExpr Opcode.OP_le (MeExpr.var 0) (MeExpr.const 3 0))] } = Except.ok true ↔
      SpecSameBranchCond Opcode.OP_brfalse Opcode.OP_gt (MeExpr.var 0) (MeExpr.const 3 0)
        Opcode.OP_brtrue Opcode.OP_le (MeExpr.var 0) (MeExpr.const 3 0) = true :=
  HasSameBranchCond_iff condBB _ Opcode.OP_brfalse Opcode.OP_brtrue Opcode.OP_gt Opcode.OP_le 4 4
    (MeExpr.var 0) (MeExpr.const 3 0) (MeExpr.var 0) (MeExpr.const 3 0)
    (by rfl) (by rfl) (by decide) (by decide) (by decide)


/-- Opposite compare operators give opposite results on the same integers. -/
theorem EvalCompare_opposite (cmp1 cmp2 : Opcode) (x y : Int) (c1 c2 : Bool)
    (h : SpecOpposite cmp2 = some cmp1)
    (h1 : EvalCompare cmp1 x y = some c1) (h2 : EvalCompare cmp2 x y = some c2) :
    c1 = !c2 := by
  cases cmp2 <;> simp only [SpecOpposite, Option.some.injEq, reduceCtorEq] at h <;> subst h <;>
    simp only [EvalCompare, Option.some.injEq, reduceCtorEq] at h1 h2 <;>
    subst h1 <;> subst h2 <;> simp <;>
    (rw [← decide_not]; apply decide_eq_decide.mpr; omega)

/-- C9.  Soundness of the same-condition test: whenever
`HasSameBranchCond(b, t)` returns true for blocks ending in conditional
branches whose compare operators are among eq, ne, lt, le, gt, ge (they have an
integer meaning), then for every assignment of integer values to the operands
that gives zero constants the value 0, the branch of `b` is taken if and only
if the branch of `t` is taken. -/
theorem HasSameBranchCond_sound (hasIRMap : Bool) (b t : BB) (op1 op2 cmp1 cmp2 : Opcode)
    (off1 off2 : LabelIdx) (l1 r1 l2 r2 : MeExpr) (val : MeExpr → Int) (c1 c2 : Bool)
    (h1 : b.stmts.getLast? = some (condStmt op1 off1 (MeExpr.opExpr cmp1 l1 r1)))
    (h2 : t.stmts.getLast? = some (condStmt op2 off2 (MeExpr.opExpr cmp2 l2 r2)))
    (hb1 : (condStmt op1 off1 (MeExpr.opExpr cmp1 l1 r1)).IsCondBr = true)
    (hb2 : (condStmt op2 off2 (MeExpr.opExpr cmp2 l2 r2)).IsCondBr = true)
    (hzero : ∀ e : MeExpr, e.IsZero = true → val e = 0)
    (hsame : HasSameBranchCond hasIRMap b t = Except.ok true)
    (hc1 : EvalCompare cmp1 (val l1) (val r1) = some c1)
    (hc2 : EvalCompare cmp2 (val l2) (val r2) = some c2) :
    BranchTaken op1 c1 = BranchTaken op2 c2 := by
  cases hasIRMap
  · simp [HasSameBranchCond] at hsame
  · have hcu : cmp1 ≠ Opcode.OP_undef := by
      intro h
      simp [h, EvalCompare] at hc1
    have hspec := (HasSameBranchCond_eq_spec b t op1 op2 cmp1 cmp2 off1 off2 l1 r1 l2 r2
      h1 h2 hb1 hb2 hcu).mp hsame
    simp only [SpecSameBranchCond, Bool.and_eq_true, Bool.or_eq_true, beq_iff_eq] at hspec
    obtain ⟨⟨hops, hl⟩, hr⟩ := hspec
    have hvr : val r1 = val r2 := by
      rcases hr with hr | ⟨hz1, hz2⟩
      · rw [hr]
      · rw [hzero r1 hz1, hzero r2 hz2]
    subst hl
    rw [hvr] at hc1
    have hbr1 : op1 = Opcode.OP_brtrue ∨ op1 = Opcode.OP_brfalse := by
      simpa [Stmt.IsCondBr, condStmt] using hb1
    have hbr2 : op2 = Opcode.OP_brtrue ∨ op2 = Opcode.OP_brfalse := by
      simpa [Stmt.IsCondBr, condStmt] using hb2
    rcases hops with ⟨ho, hc⟩ | ⟨ho, hc⟩
    · subst ho
      subst hc
      rw [hc1] at hc2
      cases hc2
      rfl
    · have hneg := EvalCompare_opposite cmp1 cmp2 (val l1) (val r2) c1 c2 hc hc1 hc2
      subst hneg
      rcases hbr1 with rfl | rfl <;> rcases hbr2 with rfl | rfl <;>
        simp [SpecOpposite] at ho <;> simp [BranchTaken]

/-- C9, at `brfalse (a > 0)` against `brtrue (a <= 0)` with a second zero constant, for `a = -5`. -/
theorem HasSameBranchCond_sound_witness :
    BranchTaken Opcode.OP_brfalse false = BranchTaken Opcode.OP_brtrue true :=
  HasSameBranchCond_sound true
    { condBB with stmts := [condStmt Opcode.OP_brfalse 4
        (MeExpr.opExpr Opcode.OP_gt (MeExpr.var 0) (MeExpr.const 0 0))] }
    { condBB with stmts := [condStmt Opcode.OP_brtrue 4
        (MeExpr.opExpr Opcode.OP_le (MeExpr.var 0) (MeExpr.const 0 1))] }
    Opcode.OP_brfalse Opcode.OP_brtrue Opcode.OP_gt Opcode.OP_le 4 4
    (MeExpr.var 0) (MeExpr.const 0 0) (MeExpr.var 0) (MeExpr.const 0 1)
    (fun e => match e with
      | MeExpr.var _ => -5
      | _ => 0)
    false true
    (by rfl) (by rfl) (by decide) (by decide)
    (by
      intro e he
      cases e <;> simp_all [MeExpr.IsZero])
    (by rfl) (by rfl) (by rfl)

/-- C10 (counterexample).  `HasSameBranchCond` returns true for a pair of
blocks of which the first has the `TryEnd` attribute, and for a pair in which
both have it. -/
theorem HasSameBranchCond_true_on_TryEnd :
    tryEndCondBB.GetAttributes BBAttr.kBBAttrIsTryEnd = true ∧
    condBB.GetAttributes BBAttr.kBBAttrIsTryEnd = false ∧
    (HasSameBranchCond true tryEndCondBB condBB).toOption = some true ∧
    (HasSameBranchCond true tryEndCondBB tryEndCondBB).toOption = some true := by
  decide

/-- C10 (amended).  For every block `b` with the `TryEnd` attribute
`BBEmptyAndFallthru(b)`, `BBContainsOnlyGoto(b)` and
`BBContainsOnlyCondGoto(b)` are false; `HasSameBranchCond` does not look at
attributes, but the condition under which `OptimizeBranchTarget` threads a
branch through `b`, the only place where it is used, is false. -/
theorem classifiers_false_on_TryEnd (b : BB)
    (hTryEnd : b.GetAttributes BBAttr.kBBAttrIsTryEnd = true) :
    BBEmptyAndFallthru b = false ∧ BBContainsOnlyGoto b = false ∧
    BBContainsOnlyCondGoto b = false ∧
    ∀ (f : MeFunction) (bb t : BBId), f.bb t = b → ThreadThrough f bb t = Except.ok false := by
  refine ⟨?_, ?_, ?_, ?_⟩
  · simp [BBEmptyAndFallthru, hTryEnd]
  · simp [BBContainsOnlyGoto, hTryEnd]
  · simp [BBContainsOnlyCondGoto, hTryEnd]
  · intro f bb t ht
    simp [ThreadThrough, ht, BBEmptyAndFallthru, BBContainsOnlyGoto, BBContainsOnlyCondGoto,
      hTryEnd]

/-- C10 (amended), at a `TryEnd` block that holds only a conditional branch. -/
theorem classifiers_false_on_TryEnd_witness :
    BBEmptyAndFallthru tryEndCondBB = false ∧ BBContainsOnlyGoto tryEndCondBB = false ∧
    BBContainsOnlyCondGoto tryEndCondBB = false ∧
    ∀ (f : MeFunction) (bb t : BBId), f.bb t = tryEndCondBB →
      ThreadThrough f bb t = Except.ok false :=
  classifiers_false_on_TryEnd tryEndCondBB (by decide)


/-! ## Termination of branch threading -/

theorem bind_ok_eq {α β : Type} (a : α) (g : α → Res β) : (Except.ok a >>= g) = g a := rfl

theorem bind_error_eq {α β : Type} (e : Err) (g : α → Res β) :
    ((Except.error e : Res α) >>= g) = Except.error e := rfl

theorem bind_eq_ok_iff {α β : Type} (x : Res α) (g : α → Res β) (b : β) :
    (x >>= g) = Except.ok b ↔ ∃ a, x = Except.ok a ∧ g a = Except.ok b := by
  cases x with
  | error e => simp [bind_error_eq]
  | ok a => simp [bind_ok_eq]

theorem bind_eq_error_iff {α β : Type} (x : Res α) (g : α → Res β) (e : Err) :
    (x >>= g) = Except.error e ↔ x = Except.error e ∨ ∃ a, x = Except.ok a ∧ g a = Except.error e := by
  cases x with
  | error e2 => simp [bind_error_eq]
  | ok a => simp [bind_ok_eq]

theorem ASSERT_ne_fuel (c d : Bool) : ASSERT c d ≠ Except.error Err.fuel := by
  unfold ASSERT
  split <;> simp

theorem GetSucc_ne_fuel (b : BB) (i : Nat) : GetSucc b i ≠ Except.error Err.fuel := by
  unfold GetSucc
  split <;> simp

theorem SuccFront_ne_fuel (b : BB) : SuccFront b ≠ Except.error Err.fuel := by
  unfold SuccFront
  split <;> simp

theorem NewTargetBB_ne_fuel (b : BB) : NewTargetBB b ≠ Except.error Err.fuel := by
  unfold NewTargetBB
  intro h
  rw [bind_eq_error_iff] at h
  rcases h with h | ⟨a, _, h⟩
  · exact SuccFront_ne_fuel b h
  · split at h
    · exact GetSucc_ne_fuel b 1 h
    · simp at h

theorem HasSameBranchCond_ne_fuel (i : Bool) (b1 b2 : BB) :
    HasSameBranchCond i b1 b2 ≠ Except.error Err.fuel := by
  unfold HasSameBranchCond
  repeat' split
  all_goals simp

theorem ThreadThrough_ne_fuel (f : MeFunction) (bb t : BBId) :
    ThreadThrough f bb t ≠ Except.error Err.fuel := by
  unfold ThreadThrough
  split
  · simp
  · split
    · simp
    · split
      · exact HasSameBranchCond_ne_fuel _ _ _
      · simp

theorem bb_setBB (f : MeFunction) (id : BBId) (b : BB) (x : BBId) :
    (f.setBB id b).bb x = if x = id ∧ id < f.heap.length then b else f.bb x := by
  unfold MeFunction.setBB MeFunction.bb
  simp only [List.getD_eq_getElem?_getD, List.getElem?_set]
  by_cases h : id = x
  · subst h
    by_cases h2 : id < f.heap.length
    · simp [h2]
    · have hlen : f.heap.length ≤ id := Nat.le_of_not_lt h2
      simp [h2, List.getElem?_eq_none hlen]
  · have h' : ¬ x = id := fun e => h e.symm
    simp [h, h']

theorem bb_default_of_ge (f : MeFunction) (x : BBId) (h : f.heap.length ≤ x) :
    f.bb x = default := by
  unfold MeFunction.bb
  simp [List.getElem?_eq_none h]

theorem setBB_length (f : MeFunction) (id : BBId) (b : BB) :
    (f.setBB id b).heap.length = f.heap.length := by
  simp [MeFunction.setBB]


theorem bb_of_heap_eq (f g : MeFunction) (h : f.heap = g.heap) (x : BBId) : f.bb x = g.bb x := by
  unfold MeFunction.bb
  rw [h]

theorem OnlyTableChanged_refl (l : BBLayout) : OnlyTableChanged l l :=
  ⟨l.func.bbVec, rfl⟩

theorem OnlyTableChanged_trans {l1 l2 l3 : BBLayout} (h12 : OnlyTableChanged l1 l2)
    (h23 : OnlyTableChanged l2 l3) : OnlyTableChanged l1 l3 := by
  obtain ⟨v, rfl⟩ := h12
  obtain ⟨w, rfl⟩ := h23
  exact ⟨w, rfl⟩

theorem OnlyTableChanged_heap_eq {l1 l2 : BBLayout} (h : OnlyTableChanged l1 l2) :
    l2.func.heap = l1.func.heap := by
  obtain ⟨v, rfl⟩ := h
  rfl

theorem OnlyTableChanged_bb_eq {l1 l2 : BBLayout} (h : OnlyTableChanged l1 l2) (x : BBId) :
    l2.func.bb x = l1.func.bb x :=
  bb_of_heap_eq _ _ (OnlyTableChanged_heap_eq h) x

theorem foldlM_invariant {σ α : Type} (P : σ → Prop) (step : σ → α → Res σ) (L : List α)
    (h : ∀ s a, a ∈ L → P s → ∃ s2, step s a = Except.ok s2 ∧ P s2) :
    ∀ s, P s → ∃ s2, L.foldlM step s = Except.ok s2 ∧ P s2 := by
  induction L with
  | nil =>
    intro s hs
    exact ⟨s, rfl, hs⟩
  | cons a L ih =>
    intro s hs
    obtain ⟨s1, h1, hP1⟩ := h s a (List.mem_cons_self a L) hs
    have ih2 := ih (fun s a ha hP => h s a (List.mem_cons_of_mem _ ha) hP) s1 hP1
    obtain ⟨s2, h2, hP2⟩ := ih2
    refine ⟨s2, ?_, hP2⟩
    rw [List.foldlM_cons, h1, bind_ok_eq, h2]

theorem pred_ne_nil_lt (f : MeFunction) (x : BBId) (h : (f.bb x).pred ≠ []) :
    x < f.heap.length := by
  by_contra hlt
  rw [bb_default_of_ge f x (Nat.le_of_not_lt hlt)] at h
  exact h rfl

theorem succ_ne_nil_lt (f : MeFunction) (x : BBId) (h : (f.bb x).succ ≠ []) :
    x < f.heap.length := by
  by_contra hlt
  rw [bb_default_of_ge f x (Nat.le_of_not_lt hlt)] at h
  exact h rfl

theorem PredPath_mem_tail (f : MeFunction) (root : BBId) :
    ∀ (q : List BBId) (s x : BBId), PredPath f root q → s ∈ q → (f.bb s).pred = [x] →
      x ∈ q.tail
  | [], _, _, h, _, _ => h.elim
  | [y], s, x, h, hs, hp => by
    simp only [List.mem_singleton] at hs
    subst hs
    rw [h.2] at hp
    cases hp
  | y :: z :: r, s, x, h, hs, hp => by
    rcases List.mem_cons.mp hs with hsy | hsr
    · subst hsy
      rw [h.1] at hp
      cases hp
      simp
    · have := PredPath_mem_tail f root (z :: r) s x h.2 hsr hp
      simp only [List.tail_cons] at this ⊢
      exact List.mem_cons_of_mem _ this

theorem PredPath_subset (f : MeFunction) (root : BBId) :
    ∀ (q : List BBId), PredPath f root q → q ⊆ root :: List.range f.heap.length
  | [], h => h.elim
  | [y], h => by
    intro a ha
    simp only [List.mem_singleton] at ha
    subst ha
    rw [h.1]
    simp
  | y :: z :: r, h => by
    intro a ha
    rcases List.mem_cons.mp ha with hay | har
    · subst hay
      have hlt : a < f.heap.length := pred_ne_nil_lt f a (by rw [h.1]; simp)
      simp [hlt]
    · exact PredPath_subset f root (z :: r) h.2 har

theorem PredPath_length (f : MeFunction) (root : BBId) (q : List BBId)
    (h : PredPath f root q) (hnd : q.Nodup) : q.length ≤ f.heap.length + 1 := by
  have hsub := (List.subperm_of_subset hnd (PredPath_subset f root q h)).length_le
  simpa using hsub

theorem erase_eq_nil_of_mem (p : List BBId) (x : BBId) (hx : x ∈ p) (he : p.erase x = []) :
    p = [x] := by
  cases p with
  | nil => cases hx
  | cons a r =>
    by_cases hax : a = x
    · subst hax
      simp at he
      rw [he]
    · have : (a :: r).erase x = a :: r.erase x := by
        simp [List.erase_cons, hax]
      rw [this] at he
      cases he

theorem RemoveUnreachable_succ (fuel : Nat) (l : BBLayout) (bb : BBId) :
    RemoveUnreachable (fuel + 1) l bb =
      if (l.func.bb bb).GetAttributes BBAttr.kBBAttrIsEntry then Except.ok l
      else
        ((l.func.bb bb).succ.foldlM (fun (l0 : BBLayout) (succ : BBId) =>
          if (RemoveBBFromVector bb (l0.func.bb succ).pred).isEmpty then
            RemoveUnreachable fuel l0 succ
          else Except.ok l0) l) >>= fun l1 =>
          Except.ok { l1 with func := NullifyBBByID l1.func (l1.func.bb bb).id } := by
  rfl

/-- When edges are recorded in the predecessor lists, `RemoveUnreachable`
returns on every block without predecessors (and on every block its recursion
reaches), and changes nothing but the block table. -/
theorem RemoveUnreachable_ok (f0 : MeFunction) (root : BBId)
    (hrec : ∀ x s : BBId, s ∈ (f0.bb x).succ → x ∈ (f0.bb s).pred) :
    ∀ (fuel : Nat) (l : BBLayout) (x : BBId) (q : List BBId),
      l.func.heap = f0.heap → PredPath f0 root (x :: q) → (x :: q).Nodup →
      f0.heap.length + 2 ≤ fuel + (x :: q).length →
      ∃ l2, RemoveUnreachable fuel l x = Except.ok l2 ∧ OnlyTableChanged l l2 := by
  intro fuel
  induction fuel with
  | zero =>
    intro l x q _ hpath hnd hfuel
    have := PredPath_length f0 root (x :: q) hpath hnd
    omega
  | succ fuel ih =>
    intro l x q hheap hpath hnd hfuel
    rw [RemoveUnreachable_succ]
    split
    · exact ⟨l, rfl, OnlyTableChanged_refl l⟩
    · have hfold := foldlM_invariant (fun l0 => OnlyTableChanged l l0)
        (fun (l0 : BBLayout) (succ : BBId) =>
          if (RemoveBBFromVector x (l0.func.bb succ).pred).isEmpty then
            RemoveUnreachable fuel l0 succ
          else Except.ok l0)
        (l.func.bb x).succ
        (by
          intro l0 s hs hP
          have hbs : l0.func.bb s = f0.bb s :=
            (OnlyTableChanged_bb_eq hP s).trans (bb_of_heap_eq _ _ hheap s)
          have hbx : l.func.bb x = f0.bb x := bb_of_heap_eq _ _ hheap x
          simp only []
          split
          · rename_i hempty
            rw [hbs] at hempty
            have hmem : x ∈ (f0.bb s).pred := hrec x s (by rw [← hbx]; exact hs)
            have hpred : (f0.bb s).pred = [x] :=
              erase_eq_nil_of_mem _ _ hmem (by simpa [RemoveBBFromVector] using hempty)
            have hnotin : s ∉ x :: q := by
              intro hin
              have := PredPath_mem_tail f0 root (x :: q) s x hpath hin hpred
              simp only [List.tail_cons] at this
              exact (List.nodup_cons.mp hnd).1 this
            have hl0 : l0.func.heap = f0.heap := (OnlyTableChanged_heap_eq hP).trans hheap
            obtain ⟨l2, h2, hP2⟩ := ih l0 s (x :: q) hl0 ⟨hpred, hpath⟩
              (List.nodup_cons.mpr ⟨hnotin, hnd⟩) (by simp only [List.length_cons] at hfuel ⊢; omega)
            exact ⟨l2, h2, OnlyTableChanged_trans hP hP2⟩
          · exact ⟨l0, rfl, hP⟩)
        l (OnlyTableChanged_refl l)
      obtain ⟨l1, h1, hP1⟩ := hfold
      rw [h1, bind_ok_eq]
      refine ⟨_, rfl, ?_⟩
      obtain ⟨v, rfl⟩ := hP1
      exact ⟨_, rfl⟩


theorem foldlM_preserves {σ α : Type} (P : σ → Prop) (step : σ → α → Res σ) (L : List α)
    (h : ∀ s a s2, a ∈ L → P s → step s a = Except.ok s2 → P s2) :
    ∀ s s2, P s → L.foldlM step s = Except.ok s2 → P s2 := by
  induction L with
  | nil =>
    intro s s2 hs hf
    cases hf
    exact hs
  | cons a L ih =>
    intro s s2 hs hf
    rw [List.foldlM_cons, bind_eq_ok_iff] at hf
    obtain ⟨s1, h1, h2⟩ := hf
    exact ih (fun s a s2 ha => h s a s2 (List.mem_cons_of_mem _ ha)) s1 s2
      (h s a s1 (List.mem_cons_self a L) hs h1) h2

/-- Whenever `RemoveUnreachable` returns, it has changed nothing but the block
table: every predecessor and successor list is as before. -/
theorem RemoveUnreachable_onlyTable :
    ∀ (fuel : Nat) (l : BBLayout) (x : BBId) (l2 : BBLayout),
      RemoveUnreachable fuel l x = Except.ok l2 → OnlyTableChanged l l2 := by
  intro fuel
  induction fuel with
  | zero =>
    intro l x l2 h
    cases h
  | succ fuel ih =>
    intro l x l2 h
    rw [RemoveUnreachable_succ] at h
    split at h
    · cases h
      exact OnlyTableChanged_refl l
    · rw [bind_eq_ok_iff] at h
      obtain ⟨l1, h1, h2⟩ := h
      have hP1 : OnlyTableChanged l l1 :=
        foldlM_preserves (fun l0 => OnlyTableChanged l l0) _ _
          (by
            intro l0 s l3 _ hP hstep
            split at hstep
            · exact OnlyTableChanged_trans hP (ih l0 s l3 hstep)
            · cases hstep
              exact hP)
          l l1 (OnlyTableChanged_refl l) h1
      cases h2
      obtain ⟨v, rfl⟩ := hP1
      exact ⟨_, rfl⟩

theorem getLast?_shape_cases (l1 l2 : List Stmt) (h : l2.map Stmt.shape = l1.map Stmt.shape) :
    (l2.getLast? = none ∧ l1.getLast? = none) ∨
    ∃ s2 s1, l2.getLast? = some s2 ∧ l1.getLast? = some s1 ∧ s2.op = s1.op ∧ s2.opnd = s1.opnd := by
  have h2 := congrArg List.getLast? h
  simp only [List.getLast?_map] at h2
  cases h1 : l1.getLast? with
  | none =>
    rw [h1] at h2
    cases h3 : l2.getLast? with
    | none => exact Or.inl ⟨rfl, rfl⟩
    | some s => rw [h3] at h2; cases h2
  | some s1 =>
    rw [h1] at h2
    cases h3 : l2.getLast? with
    | none => rw [h3] at h2; cases h2
    | some s2 =>
      rw [h3] at h2
      simp only [Option.map_some', Option.some.injEq, Stmt.shape, Prod.mk.injEq] at h2
      exact Or.inr ⟨s2, s1, rfl, rfl, h2.1, h2.2⟩

theorem any_dropLast_shape (p : Stmt → Bool) (p2 : Opcode × Option MeExpr → Bool)
    (hp : ∀ st, p st = p2 st.shape) (l1 l2 : List Stmt)
    (h : l2.map Stmt.shape = l1.map Stmt.shape) :
    l2.dropLast.any p = l1.dropLast.any p := by
  have e : ∀ l : List Stmt, l.dropLast.any p = (l.map Stmt.shape).dropLast.any p2 := by
    intro l
    rw [← List.map_dropLast]
    induction l.dropLast with
    | nil => rfl
    | cons a r ih => simp only [List.any_cons, List.map_cons, hp, ih]
  rw [e l1, e l2, h]

theorem BBContainsOnlyGoto_congr (b1 b2 : BB) (hk : b2.kind = b1.kind)
    (ha : b2.attributes = b1.attributes)
    (hs : b2.stmts.map Stmt.shape = b1.stmts.map Stmt.shape) :
    BBContainsOnlyGoto b2 = BBContainsOnlyGoto b1 := by
  unfold BBContainsOnlyGoto BB.GetAttributes
  rw [hk, ha]
  have hany := any_dropLast_shape
    (fun st => st.op != Opcode.OP_goto && st.op != Opcode.OP_comment)
    (fun sh => sh.1 != Opcode.OP_goto && sh.1 != Opcode.OP_comment) (fun _ => rfl) _ _ hs
  rcases getLast?_shape_cases _ _ hs with ⟨h2, h1⟩ | ⟨s2, s1, h2, h1, hop, _⟩
  · rw [h1, h2]
  · rw [h1, h2]
    simp only [hany, hop]

theorem BBContainsOnlyCondGoto_congr (b1 b2 : BB) (hk : b2.kind = b1.kind)
    (ha : b2.attributes = b1.attributes)
    (hs : b2.stmts.map Stmt.shape = b1.stmts.map Stmt.shape) :
    BBContainsOnlyCondGoto b2 = BBContainsOnlyCondGoto b1 := by
  unfold BBContainsOnlyCondGoto BB.GetAttributes Stmt.IsCondBr
  rw [hk, ha]
  have hany := any_dropLast_shape
    (fun st => !(st.op == Opcode.OP_brtrue || st.op == Opcode.OP_brfalse) &&
      st.op != Opcode.OP_comment)
    (fun sh => !(sh.1 == Opcode.OP_brtrue || sh.1 == Opcode.OP_brfalse) &&
      sh.1 != Opcode.OP_comment) (fun _ => rfl) _ _ hs
  rcases getLast?_shape_cases _ _ hs with ⟨h2, h1⟩ | ⟨s2, s1, h2, h1, hop, _⟩
  · rw [h1, h2]
  · rw [h1, h2]
    simp only [hany, hop]

theorem BBEmptyAndFallthru_congr (b1 b2 : BB) (hk : b2.kind = b1.kind)
    (ha : b2.attributes = b1.attributes)
    (hs : b2.stmts.map Stmt.shape = b1.stmts.map Stmt.shape) :
    BBEmptyAndFallthru b2 = BBEmptyAndFallthru b1 := by
  unfold BBEmptyAndFallthru BB.GetAttributes BB.IsEmpty
  rw [hk, ha]
  have e : ∀ l : List Stmt, l.all (fun st => st.op == Opcode.OP_comment) =
      (l.map Stmt.shape).all (fun sh => sh.1 == Opcode.OP_comment) := by
    intro l
    induction l with
    | nil => rfl
    | cons a r ih => simp only [List.all_cons, List.map_cons, ih, Stmt.shape]
  rw [e b1.stmts, e b2.stmts, hs]

theorem HasSameBranchCond_congr (i : Bool) (a1 a2 b1 b2 : BB)
    (hsa : a2.stmts.map Stmt.shape = a1.stmts.map Stmt.shape)
    (hsb : b2.stmts.map Stmt.shape = b1.stmts.map Stmt.shape) :
    HasSameBranchCond i a2 b2 = HasSameBranchCond i a1 b1 := by
  unfold HasSameBranchCond
  rcases getLast?_shape_cases _ _ hsa with ⟨h2, h1⟩ | ⟨s2, s1, h2, h1, hop, hopnd⟩ <;>
  rcases getLast?_shape_cases _ _ hsb with ⟨k2, k1⟩ | ⟨t2, t1, k2, k1, kop, kopnd⟩
  · rw [h1, h2, k1, k2]
  · rw [h1, h2, k1, k2]
  · rw [h1, h2, k1, k2]
  · rw [h1, h2, k1, k2]
    simp only [hop, hopnd, kop, kopnd]

theorem ThreadThrough_congr (bb : BBId) (f g : MeFunction) (h : SameShape bb f g) (t : BBId) :
    ThreadThrough g bb t = ThreadThrough f bb t := by
  obtain ⟨hir, _, hx⟩ := h
  obtain ⟨hkt, hat, hst, _⟩ := hx t
  obtain ⟨hkb, _, hsb, _⟩ := hx bb
  unfold ThreadThrough
  rw [BBContainsOnlyGoto_congr _ _ hkt hat hst, BBEmptyAndFallthru_congr _ _ hkt hat hst,
    BBContainsOnlyCondGoto_congr _ _ hkt hat hst, HasSameBranchCond_congr _ _ _ _ _ hsb hst,
    hkt, hkb, hir]

theorem Threads_congr (bb : BBId) (f g : MeFunction) (h : SameShape bb f g) (t : BBId) :
    Threads g bb t = Threads f bb t := by
  unfold Threads
  rw [ThreadThrough_congr bb f g h t]
  obtain ⟨_, _, hx⟩ := h
  unfold BB.GetAttributes
  rw [(hx t).2.1]

theorem NewTargetBB_congr (b1 b2 : BB) (hk : b2.kind = b1.kind) (hs : b2.succ = b1.succ) :
    NewTargetBB b2 = NewTargetBB b1 := by
  unfold NewTargetBB SuccFront GetSucc
  rw [hk, hs]

theorem ChainEnds_congr (bb : BBId) (f g : MeFunction) (h : SameShape bb f g) :
    ∀ (n : Nat) (t : BBId), ChainEnds g bb n t = ChainEnds f bb n t := by
  intro n
  induction n with
  | zero =>
    intro t
    simp only [ChainEnds, Threads_congr bb f g h t]
  | succ n ih =>
    intro t
    simp only [ChainEnds, Threads_congr bb f g h t]
    by_cases htb : t = bb
    · simp [htb]
    · have hnt : NewTargetBB (g.bb t) = NewTargetBB (f.bb t) :=
        NewTargetBB_congr _ _ (h.2.2 t).1 ((h.2.2 t).2.2.2 htb)
      rw [hnt]
      cases NewTargetBB (f.bb t) with
      | error e => rfl
      | ok t2 => simp only [ih t2]


theorem SameShape_refl (bb : BBId) (f : MeFunction) : SameShape bb f f :=
  ⟨rfl, rfl, fun _ => ⟨rfl, rfl, rfl, fun _ => rfl⟩⟩

theorem SameShape_trans {bb : BBId} {f g h : MeFunction} (h1 : SameShape bb f g)
    (h2 : SameShape bb g h) : SameShape bb f h := by
  obtain ⟨a1, b1, c1⟩ := h1
  obtain ⟨a2, b2, c2⟩ := h2
  refine ⟨a2.trans a1, b2.trans b1, fun x => ?_⟩
  obtain ⟨k1, t1, s1, e1⟩ := c1 x
  obtain ⟨k2, t2, s2, e2⟩ := c2 x
  exact ⟨k2.trans k1, t2.trans t1, s2.trans s1, fun hx => (e2 hx).trans (e1 hx)⟩

theorem bb_GetOrCreateBBLabel (f : MeFunction) (nt x : BBId) :
    ∃ lab, (GetOrCreateBBLabel f nt).2.bb x = { f.bb x with bbLabel := lab } := by
  unfold GetOrCreateBBLabel
  split
  · exact ⟨(f.bb x).bbLabel, rfl⟩
  · have e : ∀ (g : MeFunction) (c : Nat), ({ g with labelCount := c } : MeFunction).bb x = g.bb x :=
      fun _ _ => rfl
    simp only [e, bb_setBB]
    split
    · rename_i h
      rw [h.1]
      exact ⟨_, rfl⟩
    · exact ⟨(f.bb x).bbLabel, rfl⟩

theorem GetOrCreateBBLabel_sameShape (bb : BBId) (f : MeFunction) (nt : BBId) :
    SameShape bb f (GetOrCreateBBLabel f nt).2 := by
  refine ⟨?_, ?_, fun x => ?_⟩
  · unfold GetOrCreateBBLabel
    split <;> rfl
  · unfold GetOrCreateBBLabel
    split
    · rfl
    · simp [MeFunction.setBB]
  · obtain ⟨lab, h⟩ := bb_GetOrCreateBBLabel f nt x
    rw [h]
    exact ⟨rfl, rfl, rfl, fun _ => rfl⟩

theorem GetOrCreateBBLabel_sameEdges (f : MeFunction) (nt : BBId) :
    SameEdges f (GetOrCreateBBLabel f nt).2 := by
  intro x
  obtain ⟨lab, h⟩ := bb_GetOrCreateBBLabel f nt x
  rw [h]
  exact ⟨rfl, rfl⟩

theorem modifyLast_shape (lab : LabelIdx) :
    ∀ l : List Stmt, (modifyLast (fun st => { st with offset := lab }) l).map Stmt.shape =
      l.map Stmt.shape
  | [] => rfl
  | [_] => rfl
  | a :: b :: r => by
    simp only [modifyLast, List.map_cons, modifyLast_shape lab (b :: r)]

theorem SetLastOffset_sameShape (bb0 : BBId) (f : MeFunction) (bb : BBId) (lab : LabelIdx) :
    SameShape bb0 f (SetLastOffset f bb lab) := by
  refine ⟨rfl, setBB_length _ _ _, fun x => ?_⟩
  unfold SetLastOffset
  rw [bb_setBB]
  split
  · rename_i h
    rw [h.1]
    exact ⟨rfl, rfl, modifyLast_shape lab _, fun _ => rfl⟩
  · exact ⟨rfl, rfl, rfl, fun _ => rfl⟩

theorem SetLastOffset_sameEdges (f : MeFunction) (bb : BBId) (lab : LabelIdx) :
    SameEdges f (SetLastOffset f bb lab) := by
  intro x
  unfold SetLastOffset
  rw [bb_setBB]
  split
  · rename_i h
    rw [h.1]
    exact ⟨rfl, rfl⟩
  · exact ⟨rfl, rfl⟩

theorem replaceFirst_of_not_mem (old new : BBId) :
    ∀ l : List BBId, old ∉ l → replaceFirst l old new = l
  | [], _ => rfl
  | a :: r, h => by
    have ha : ¬ a = old := fun e => h (by simp [e])
    have hr : old ∉ r := fun e => h (List.mem_cons_of_mem _ e)
    simp [replaceFirst, ha, replaceFirst_of_not_mem old new r hr]

theorem contains_eq_true_iff (l : List BBId) (a : BBId) : l.contains a = true ↔ a ∈ l := by
  simp

theorem bb_ReplaceSucc (f : MeFunction) (bb t nt x : BBId) :
    (ReplaceSucc f bb t nt).bb x =
      { f.bb x with
        succ := if x = bb then replaceFirst (f.bb x).succ t nt else (f.bb x).succ
        pred := if x = nt ∧ t ∈ (f.bb bb).succ ∧ nt < f.heap.length then (f.bb x).pred ++ [bb]
                else (f.bb x).pred } := by
  unfold ReplaceSucc
  by_cases hc : t ∈ (f.bb bb).succ
  · have hbb : bb < f.heap.length := succ_ne_nil_lt f bb (List.ne_nil_of_mem hc)
    have hct : (f.bb bb).succ.contains t = true := (contains_eq_true_iff _ _).mpr hc
    rw [if_pos hct]
    simp only [hc, true_and, bb_setBB, setBB_length, hbb, and_true]
    by_cases h1 : x = nt <;> by_cases h2 : x = bb <;> by_cases h3 : nt < f.heap.length <;>
      by_cases h4 : nt = bb <;> simp_all
    have h5 : ¬ nt < f.heap.length := Nat.not_lt_of_le h3
    rw [if_neg h5, if_neg h5]
  · have hrf : replaceFirst (f.bb bb).succ t nt = (f.bb bb).succ :=
      replaceFirst_of_not_mem t nt _ hc
    have hct : ¬ (f.bb bb).succ.contains t = true := fun h => hc ((contains_eq_true_iff _ _).mp h)
    rw [if_neg hct]
    simp only [hc, false_and, and_false, if_false]
    by_cases h2 : x = bb
    · subst h2
      simp [hrf]
    · simp [h2]

theorem ReplaceSucc_sameShape (f : MeFunction) (bb t nt : BBId) :
    SameShape bb f (ReplaceSucc f bb t nt) := by
  refine ⟨?_, ?_, fun x => ?_⟩
  · unfold ReplaceSucc
    split <;> rfl
  · unfold ReplaceSucc
    split
    · simp [MeFunction.setBB]
    · rfl
  · rw [bb_ReplaceSucc]
    exact ⟨rfl, rfl, rfl, fun hx => by simp [hx]⟩

theorem bb_RemoveBBFromPred (f : MeFunction) (t bb x : BBId) :
    (RemoveBBFromPred f t bb).bb x =
      { f.bb x with pred := if x = t then (f.bb x).pred.erase bb else (f.bb x).pred } := by
  unfold RemoveBBFromPred RemoveBBFromVector
  rw [bb_setBB]
  by_cases h1 : x = t
  · subst h1
    by_cases h2 : x < f.heap.length
    · simp [h2]
    · have hd := bb_default_of_ge f x (Nat.le_of_not_lt h2)
      simp [h2, hd]
      rfl
  · simp [h1]

theorem RemoveBBFromPred_sameShape (bb0 : BBId) (f : MeFunction) (t bb : BBId) :
    SameShape bb0 f (RemoveBBFromPred f t bb) := by
  refine ⟨rfl, setBB_length _ _ _, fun x => ?_⟩
  rw [bb_RemoveBBFromPred]
  exact ⟨rfl, rfl, rfl, fun _ => rfl⟩

theorem Retargeted_sameShape (f : MeFunction) (bb t nt : BBId) :
    SameShape bb f (Retargeted f bb t nt) :=
  SameShape_trans
    (SameShape_trans (GetOrCreateBBLabel_sameShape bb f nt)
      (SameShape_trans (SetLastOffset_sameShape bb _ bb _) (ReplaceSucc_sameShape _ bb t nt)))
    (RemoveBBFromPred_sameShape bb _ t bb)


theorem count_replaceFirst (s old new : BBId) :
    ∀ l : List BBId, old ∈ l →
      (replaceFirst l old new).count s + (if s = old then 1 else 0) =
        l.count s + (if s = new then 1 else 0)
  | [], h => by cases h
  | a :: r, h => by
    by_cases ha : a = old
    · subst ha
      simp only [replaceFirst, beq_self_eq_true, if_true, List.count_cons, beq_iff_eq]
      by_cases h1 : s = a <;> by_cases h2 : s = new <;>
        simp [h1, h2, eq_comm] <;> omega
    · have hr : old ∈ r := by
        rcases List.mem_cons.mp h with h | h
        · exact absurd h.symm ha
        · exact h
      have ih := count_replaceFirst s old new r hr
      have e : replaceFirst (a :: r) old new = a :: replaceFirst r old new := by
        simp [replaceFirst, ha]
      rw [e, List.count_cons, List.count_cons]
      omega

theorem Retargeted_length (f : MeFunction) (bb t nt : BBId) :
    (Retargeted f bb t nt).heap.length = f.heap.length :=
  (Retargeted_sameShape f bb t nt).2.1

theorem Retargeted_succ (f : MeFunction) (bb t nt x : BBId) :
    ((Retargeted f bb t nt).bb x).succ =
      if x = bb then replaceFirst (f.bb x).succ t nt else (f.bb x).succ := by
  unfold Retargeted
  rw [bb_RemoveBBFromPred, bb_ReplaceSucc]
  have e1 := (SetLastOffset_sameEdges (GetOrCreateBBLabel f nt).2 bb (GetOrCreateBBLabel f nt).1 x).1
  have e2 := (GetOrCreateBBLabel_sameEdges f nt x).1
  simp only [e1, e2]

theorem Retargeted_pred (f : MeFunction) (bb t nt x : BBId) :
    ((Retargeted f bb t nt).bb x).pred =
      if x = t then
        (if x = nt ∧ t ∈ (f.bb bb).succ ∧ nt < f.heap.length then (f.bb x).pred ++ [bb]
         else (f.bb x).pred).erase bb
      else
        (if x = nt ∧ t ∈ (f.bb bb).succ ∧ nt < f.heap.length then (f.bb x).pred ++ [bb]
         else (f.bb x).pred) := by
  unfold Retargeted
  rw [bb_RemoveBBFromPred, bb_ReplaceSucc]
  have e1 := fun y => SetLastOffset_sameEdges (GetOrCreateBBLabel f nt).2 bb
    (GetOrCreateBBLabel f nt).1 y
  have e2 := fun y => GetOrCreateBBLabel_sameEdges f nt y
  have l1 := (SetLastOffset_sameShape bb (GetOrCreateBBLabel f nt).2 bb
    (GetOrCreateBBLabel f nt).1).2.1
  have l2 := (GetOrCreateBBLabel_sameShape bb f nt).2.1
  simp only [(e1 x).2, (e2 x).2, (e1 bb).1, (e2 bb).1, l1, l2]

theorem Retargeted_edgesRecorded (f : MeFunction) (bb t nt : BBId) (h : EdgesRecorded f)
    (ht : t ∈ (f.bb bb).succ) (hnt : nt < f.heap.length) :
    EdgesRecorded (Retargeted f bb t nt) := by
  intro x s
  rw [Retargeted_succ, Retargeted_pred]
  have hxs := h x s
  have hbt := h bb t
  have hpos : 0 < (f.bb bb).succ.count t := List.count_pos_iff.mpr ht
  simp only [ht, hnt, and_true]
  by_cases hx : x = bb
  · subst hx
    have hc := count_replaceFirst s t nt (f.bb x).succ ht
    have hq : (if s = nt then (f.bb s).pred ++ [x] else (f.bb s).pred).count x =
        (f.bb s).pred.count x + (if s = nt then 1 else 0) := by
      by_cases h2 : s = nt
      · simp [h2]
      · simp [h2]
    have hp : (if s = t then
          (if s = nt then (f.bb s).pred ++ [x] else (f.bb s).pred).erase x
        else (if s = nt then (f.bb s).pred ++ [x] else (f.bb s).pred)).count x =
        (if s = nt then (f.bb s).pred ++ [x] else (f.bb s).pred).count x -
          (if s = t then 1 else 0) := by
      by_cases h1 : s = t
      · simp only [h1, if_true, List.count_erase_self]
      · simp only [h1, if_false, Nat.sub_zero]
    rw [if_pos rfl, hp, hq]
    omega
  · have hne : ∀ l : List BBId, (l.erase bb).count x = l.count x := by
      intro l
      rw [List.count_erase]
      have : (bb == x) = false := by simp [Ne.symm hx]
      simp [this]
    have hap : ∀ l : List BBId, (l ++ [bb]).count x = l.count x := by
      intro l
      rw [List.count_append]
      have : (bb == x) = false := by simp [Ne.symm hx]
      simp [List.count_cons, this]
    have hq : ∀ p : List BBId, (if s = nt then p ++ [bb] else p).count x = p.count x := by
      intro p
      split
      · exact hap p
      · rfl
    have hp : ∀ p : List BBId, (if s = t then p.erase bb else p).count x = p.count x := by
      intro p
      split
      · exact hne p
      · rfl
    rw [if_neg hx, hp, hq]
    exact hxs


theorem RetargetBranch_some (l : BBLayout) (bb t : BBId) (l4 : BBLayout)
    (h : RetargetBranch l bb = Except.ok (some (t, l4))) :
    GetSucc (l.func.bb bb) (BrTargetIdx (l.func.bb bb)) = Except.ok t ∧
    Threads l.func bb t = true ∧
    ∃ nt, NewTargetBB (l.func.bb t) = Except.ok nt ∧
      l4 = { l with func := Retargeted l.func bb t nt } := by
  unfold RetargetBranch at h
  rw [bind_eq_ok_iff] at h
  obtain ⟨_, _, h⟩ := h
  rw [bind_eq_ok_iff] at h
  obtain ⟨t0, ht0, h⟩ := h
  split at h
  · cases h
  · rename_i hwont
    rw [bind_eq_ok_iff] at h
    obtain ⟨thread, hthread, h⟩ := h
    split at h
    · cases h
    · rename_i hth
      rw [bind_eq_ok_iff] at h
      obtain ⟨nt, hnt, h⟩ := h
      simp only [] at h
      split at h
      · cases h
      · rw [bind_eq_ok_iff] at h
        obtain ⟨_, _, h⟩ := h
        simp only [Except.ok.injEq, Option.some.injEq, Prod.mk.injEq] at h
        obtain ⟨h1, h2⟩ := h
        subst h1
        have hthread2 : thread = true := by simpa using hth
        subst hthread2
        refine ⟨ht0, ?_, nt, hnt, ?_⟩
        · unfold Threads
          rw [hthread]
          simpa using hwont
        · rw [← h2]
          rfl

theorem RetargetBranch_ne_fuel (l : BBLayout) (bb : BBId) :
    RetargetBranch l bb ≠ Except.error Err.fuel := by
  intro h
  unfold RetargetBranch at h
  rw [bind_eq_error_iff] at h
  rcases h with h | ⟨_, _, h⟩
  · exact ASSERT_ne_fuel _ _ h
  rw [bind_eq_error_iff] at h
  rcases h with h | ⟨t0, _, h⟩
  · exact GetSucc_ne_fuel _ _ h
  split at h
  · cases h
  rw [bind_eq_error_iff] at h
  rcases h with h | ⟨thread, _, h⟩
  · exact ThreadThrough_ne_fuel _ _ _ h
  split at h
  · cases h
  rw [bind_eq_error_iff] at h
  rcases h with h | ⟨nt, _, h⟩
  · exact NewTargetBB_ne_fuel _ h
  simp only [] at h
  split at h
  · cases h
  · rw [bind_eq_error_iff] at h
    rcases h with h | ⟨_, _, h⟩
    · exact ASSERT_ne_fuel _ _ h
    · cases h


theorem GetSucc_eq_ok (b : BB) (i : Nat) (t : BBId) :
    GetSucc b i = Except.ok t ↔ b.succ[i]? = some t := by
  unfold GetSucc
  cases b.succ[i]? with
  | none => simp
  | some x => simp

theorem NewTargetBB_mem (b : BB) (nt : BBId) (h : NewTargetBB b = Except.ok nt) : nt ∈ b.succ := by
  unfold NewTargetBB at h
  rw [bind_eq_ok_iff] at h
  obtain ⟨front, hf, h⟩ := h
  split at h
  · rw [GetSucc_eq_ok] at h
    exact List.getElem?_mem h
  · cases h
    unfold SuccFront at hf
    cases hh : b.succ.head? with
    | none => rw [hh] at hf; cases hf
    | some x =>
      rw [hh] at hf
      cases hf
      exact List.mem_of_mem_head? hh

theorem ChainEnds_not_self (f : MeFunction) (bb t : BBId) (hth : Threads f bb t = true)
    (hnt : NewTargetBB (f.bb t) = Except.ok t) : ∀ n, ChainEnds f bb n t = false := by
  intro n
  induction n with
  | zero => simp [ChainEnds, hth]
  | succ n ih => simp [ChainEnds, hth, hnt, ih]

theorem BrTargetIdx_le (b : BB) : BrTargetIdx b = 0 ∨ BrTargetIdx b = 1 := by
  unfold BrTargetIdx
  split <;> simp

theorem TwinSucc_le (b : BB) (t : BBId) : TwinSucc b t ≤ 1 := by
  unfold TwinSucc
  split <;> simp

theorem retarget_succ_cases (succ : List BBId) (idx : Nat) (hidx : idx = 0 ∨ idx = 1)
    (t nt : BBId) (h : succ[idx]? = some t) :
    (replaceFirst succ t nt)[idx]? = some nt ∨
    (idx = 1 ∧ succ.head? = some t ∧ (replaceFirst succ t nt)[idx]? = some t ∧
      (replaceFirst succ t nt).head? = some nt) := by
  rcases hidx with rfl | rfl
  · cases succ with
    | nil => simp at h
    | cons a r =>
      simp only [List.getElem?_cons_zero, Option.some.injEq] at h
      subst h
      left
      simp [replaceFirst]
  · cases succ with
    | nil => simp at h
    | cons a r =>
      cases r with
      | nil => simp at h
      | cons b r2 =>
        simp only [List.getElem?_cons_succ, List.getElem?_cons_zero, Option.some.injEq] at h
        subst h
        by_cases hab : a = b
        · subst hab
          right
          simp [replaceFirst]
        · left
          simp [replaceFirst, hab]

theorem OnlyTableChanged_sameShape {l1 l2 : BBLayout} (h : OnlyTableChanged l1 l2) (bb : BBId) :
    SameShape bb l1.func l2.func := by
  obtain ⟨v, rfl⟩ := h
  exact ⟨rfl, rfl, fun _ => ⟨rfl, rfl, rfl, fun _ => rfl⟩⟩

theorem OnlyTableChanged_edgesRecorded {l1 l2 : BBLayout} (h : OnlyTableChanged l1 l2)
    (he : EdgesRecorded l1.func) : EdgesRecorded l2.func := by
  intro x s
  rw [OnlyTableChanged_bb_eq h x, OnlyTableChanged_bb_eq h s]
  exact he x s

/-- The loop of `OptimizeBranchTarget(bb)` stops when edges are recorded in the
predecessor lists and the chain of blocks threaded through ends. -/
theorem OptimizeBranchTargetLoop_stops (bb : BBId) :
    ∀ (fuel : Nat) (l : BBLayout) (n : Nat) (t : BBId),
      EdgesRecorded l.func →
      GetSucc (l.func.bb bb) (BrTargetIdx (l.func.bb bb)) = Except.ok t →
      ChainEnds l.func bb n t = true →
      2 * n + TwinSucc (l.func.bb bb) t + l.func.heap.length + 2 ≤ fuel →
      OptimizeBranchTargetLoop fuel l bb ≠ Except.error Err.fuel := by
  intro fuel
  induction fuel with
  | zero =>
    intro l n t _ _ _ hfuel
    omega
  | succ fuel ih =>
    intro l n t hER hsucc hchain hfuel
    rw [OptimizeBranchTargetLoop]
    cases hr : RetargetBranch l bb with
    | error e =>
      rw [bind_error_eq]
      intro h
      cases h
      exact RetargetBranch_ne_fuel l bb hr
    | ok r =>
      rw [bind_ok_eq]
      cases r with
      | none => simp
      | some p =>
        obtain ⟨t2, l4⟩ := p
        obtain ⟨hsucc2, hth, nt, hnt, hl4⟩ := RetargetBranch_some l bb t2 l4 hr
        have htt : t2 = t := by
          rw [hsucc] at hsucc2
          cases hsucc2
          rfl
        subst htt
        -- the chain goes on behind `t2`
        obtain ⟨n2, rfl⟩ : ∃ n2, n = n2 + 1 := by
          cases n with
          | zero => simp [ChainEnds, hth] at hchain
          | succ n2 => exact ⟨n2, rfl⟩
        simp only [ChainEnds, hth, hnt, Bool.not_true, Bool.false_or, Bool.and_eq_true,
          bne_iff_ne, ne_eq] at hchain
        obtain ⟨htbb, hchain2⟩ := hchain
        have hne : nt ≠ t2 := by
          intro e
          rw [e] at hnt hchain2
          rw [ChainEnds_not_self l.func bb t2 hth hnt n2] at hchain2
          cases hchain2
        -- blocks are in range and the invariant is kept
        have hmem : t2 ∈ (l.func.bb bb).succ := List.getElem?_mem ((GetSucc_eq_ok _ _ _).mp hsucc)
        have hntmem : nt ∈ (l.func.bb t2).succ := NewTargetBB_mem _ _ hnt
        have hntlt : nt < l.func.heap.length := by
          apply pred_ne_nil_lt
          have := hER t2 nt
          have hpos : 0 < (l.func.bb t2).succ.count nt := List.count_pos_iff.mpr hntmem
          intro hnil
          rw [hnil] at this
          simp at this
          omega
        have hER4 : EdgesRecorded l4.func := by
          rw [hl4]
          exact Retargeted_edgesRecorded l.func bb t2 nt hER hmem hntlt
        have hshape4 : SameShape bb l.func l4.func := by
          rw [hl4]
          exact Retargeted_sameShape l.func bb t2 nt
        have hsucc4 : (l4.func.bb bb).succ = replaceFirst (l.func.bb bb).succ t2 nt := by
          rw [hl4]
          simp only [Retargeted_succ, if_true]
        -- what remains to be shown for the state after the sweep
        have hcont : ∀ l5 : BBLayout, SameShape bb l4.func l5.func → EdgesRecorded l5.func →
            (∀ x, l5.func.bb x = l4.func.bb x) →
            OptimizeBranchTargetLoop fuel l5 bb ≠ Except.error Err.fuel := by
          intro l5 hshape5 hER5 hbb5
          have hshape : SameShape bb l.func l5.func := SameShape_trans hshape4 hshape5
          have hlen5 : l5.func.heap.length = l.func.heap.length := hshape.2.1
          have hidx : BrTargetIdx (l5.func.bb bb) = BrTargetIdx (l.func.bb bb) := by
            unfold BrTargetIdx
            rw [(hshape.2.2 bb).1]
          have hsucc5 : (l5.func.bb bb).succ = replaceFirst (l.func.bb bb).succ t2 nt := by
            rw [hbb5 bb, hsucc4]
          rcases retarget_succ_cases (l.func.bb bb).succ (BrTargetIdx (l.func.bb bb))
            (BrTargetIdx_le _) t2 nt ((GetSucc_eq_ok _ _ _).mp hsucc) with hcase | hcase
          · apply ih l5 n2 nt hER5
            · rw [GetSucc_eq_ok, hidx, hsucc5]
              exact hcase
            · rw [ChainEnds_congr bb l.func l5.func hshape]
              exact hchain2
            · have := TwinSucc_le (l5.func.bb bb) nt
              omega
          · obtain ⟨hone, hhead, hget, hhead2⟩ := hcase
            apply ih l5 (n2 + 1) t2 hER5
            · rw [GetSucc_eq_ok, hidx, hsucc5]
              exact hget
            · rw [ChainEnds_congr bb l.func l5.func hshape]
              simp only [ChainEnds, hth, hnt, Bool.not_true, Bool.false_or, Bool.and_eq_true,
                bne_iff_ne, ne_eq]
              exact ⟨htbb, hchain2⟩
            · have hold : TwinSucc (l.func.bb bb) t2 = 1 := by
                unfold TwinSucc
                rw [if_pos ⟨hone, hhead⟩]
              have hnew : TwinSucc (l5.func.bb bb) t2 = 0 := by
                unfold TwinSucc
                rw [hsucc5, hhead2]
                simp [hne]
              omega
        -- the sweep returns
        simp only []
        split
        · rename_i hempty
          have hrec : ∀ x s : BBId, s ∈ (l4.func.bb x).succ → x ∈ (l4.func.bb s).pred := by
            intro x s hs
            have := hER4 x s
            have hpos : 0 < (l4.func.bb x).succ.count s := List.count_pos_iff.mpr hs
            exact List.count_pos_iff.mp (by omega)
          have hlen4 : l4.func.heap.length = l.func.heap.length := hshape4.2.1
          obtain ⟨l5, h5, hP⟩ := RemoveUnreachable_ok l4.func t2 hrec fuel
            (l4.SetLaidOut (l4.func.bb t2).id) t2 [] rfl
            ⟨rfl, by simpa using hempty⟩ (by simp)
            (by simp only [List.length_cons, List.length_nil]; omega)
          rw [h5, bind_ok_eq]
          have hshape5 := OnlyTableChanged_sameShape hP bb
          have hER5 := OnlyTableChanged_edgesRecorded hP hER4
          have hbb5 := OnlyTableChanged_bb_eq hP
          exact hcont l5 hshape5 hER5 hbb5
        · exact hcont l4 (SameShape_refl bb _) hER4 (fun _ => rfl)


theorem EdgesRecorded_of_EdgesMutual (f : MeFunction) (h : f.EdgesMutual = true) :
    EdgesRecorded f := by
  intro x s
  by_cases hx : x < f.heap.length
  · unfold MeFunction.EdgesMutual at h
    rw [List.all_eq_true] at h
    have hx2 := h x (List.mem_range.mpr hx)
    simp only [Bool.and_eq_true, List.all_eq_true, decide_eq_true_eq, List.mem_range,
      beq_iff_eq] at hx2
    obtain ⟨⟨hsucc, _⟩, hcount⟩ := hx2
    by_cases hs : s < f.heap.length
    · exact Nat.le_of_eq (hcount s hs)
    · have hnot : s ∉ (f.bb x).succ := fun hm => hs (hsucc s hm)
      rw [List.count_eq_zero_of_not_mem hnot]
      exact Nat.zero_le _
  · rw [bb_default_of_ge f x (Nat.le_of_not_lt hx)]
    exact Nat.zero_le _

theorem OptimizeBranchTargetLoop_stops_of_chain (bb : BBId) (fuel : Nat) (l : BBLayout) (n : Nat)
    (hER : EdgesRecorded l.func)
    (hchain : ∀ t, GetSucc (l.func.bb bb) (BrTargetIdx (l.func.bb bb)) = Except.ok t →
      ChainEnds l.func bb n t = true)
    (hfuel : 2 * n + l.func.heap.length + 3 ≤ fuel) :
    OptimizeBranchTargetLoop fuel l bb ≠ Except.error Err.fuel := by
  cases hg : GetSucc (l.func.bb bb) (BrTargetIdx (l.func.bb bb)) with
  | ok t =>
    apply OptimizeBranchTargetLoop_stops bb fuel l n t hER hg (hchain t hg)
    have := TwinSucc_le (l.func.bb bb) t
    omega
  | error e =>
    obtain ⟨k, rfl⟩ : ∃ k, fuel = k + 1 := ⟨fuel - 1, by omega⟩
    rw [OptimizeBranchTargetLoop]
    cases hr : RetargetBranch l bb with
    | error e2 =>
      rw [bind_error_eq]
      intro h
      cases h
      exact RetargetBranch_ne_fuel l bb hr
    | ok r =>
      rw [bind_ok_eq]
      cases r with
      | none => simp
      | some p =>
        obtain ⟨t2, l4⟩ := p
        have := (RetargetBranch_some l bb t2 l4 hr).1
        rw [hg] at this
        cases this

/-- C7 (amended).  Termination of branch threading: for every CFG with mutual
edges and every block `bb`, `OptimizeBranchTarget(bb)` leaves its fixed-point
loop (it returns, or aborts on a failed check) whenever the chain of blocks
threaded through from the labeled successor of `bb` ends: after at most `n`
threaded blocks, none of them `bb`, it reaches a block that has `WontExit` or
is not threaded through.  Fuel `2 * n + 3` plus the number of blocks is enough. -/
theorem OptimizeBranchTarget_terminates (l : BBLayout) (bb : BBId) (n fuel : Nat)
    (hwf : l.func.EdgesMutual = true)
    (hchain : ∀ t, GetSucc (l.func.bb bb) (BrTargetIdx (l.func.bb bb)) = Except.ok t →
      ChainEnds l.func bb n t = true)
    (hfuel : 2 * n + l.func.heap.length + 3 ≤ fuel) :
    OptimizeBranchTarget fuel l bb ≠ Except.error Err.fuel := by
  unfold OptimizeBranchTarget
  split
  · simp
  · split
    · simp
    · exact OptimizeBranchTargetLoop_stops_of_chain bb fuel l n
        (EdgesRecorded_of_EdgesMutual l.func hwf) hchain hfuel

/-- C7 (amended), at the chain of trivial gotos `gotoChainCFG`: the branch of
block 0 is threaded through blocks 1 and 2 and ends up at block 3. -/
theorem OptimizeBranchTarget_terminates_witness :
    gotoChainCFG.EdgesMutual = true ∧
    ChainEnds gotoChainCFG 0 2 1 = true ∧
    OptimizeBranchTarget 11 (BBLayout.new gotoChainCFG) 0 ≠ Except.error Err.fuel :=
  ⟨by rfl, by rfl,
    OptimizeBranchTarget_terminates (BBLayout.new gotoChainCFG) 0 2 11 (by rfl)
      (fun t ht => by
        have e : GetSucc ((BBLayout.new gotoChainCFG).func.bb 0)
            (BrTargetIdx ((BBLayout.new gotoChainCFG).func.bb 0)) = Except.ok 1 := rfl
        rw [e] at ht
        cases ht
        rfl)
      (by decide)⟩

theorem selfLoop_first :
    RetargetBranch (BBLayout.new selfLoopCFG) 0 = Except.ok (some (1, selfLoopState)) := by
  rfl

theorem selfLoop_again : RetargetBranch selfLoopState 0 = Except.ok (some (1, selfLoopState)) := by
  rfl

theorem selfLoop_loop (fuel : Nat) :
    OptimizeBranchTargetLoop fuel selfLoopState 0 = Except.error Err.fuel := by
  induction fuel with
  | zero => rfl
  | succ n ih =>
    rw [OptimizeBranchTargetLoop, selfLoop_again, bind_ok_eq]
    have h : (selfLoopState.func.bb 1).pred.isEmpty = false := by rfl
    simp only [h]
    simpa using ih

/-- C7 (counterexample).  On the well-formed `selfLoopCFG`, in which block 0
ends in a goto to block 1 and block 1 is a goto to itself without `WontExit`,
the loop of `OptimizeBranchTarget(0)` never ends: whatever the fuel, it runs
out. -/
theorem OptimizeBranchTarget_loops_on_goto_cycle :
    selfLoopCFG.WellFormed = true ∧
    (selfLoopCFG.bb 1).GetAttributes BBAttr.kBBAttrWontExit = false ∧
    BBContainsOnlyGoto (selfLoopCFG.bb 1) = true ∧
    ∀ fuel : Nat,
      OptimizeBranchTarget fuel (BBLayout.new selfLoopCFG) 0 = Except.error Err.fuel := by
  refine ⟨by rfl, by rfl, by rfl, ?_⟩
  intro fuel
  have hlast : ((BBLayout.new selfLoopCFG).func.bb 0).stmts.getLast? = some (gotoStmt 2) := rfl
  unfold OptimizeBranchTarget
  rw [hlast]
  simp only [gotoStmt, Stmt.IsCondBr]
  cases fuel with
  | zero => rfl
  | succ n =>
    have h : (selfLoopState.func.bb 1).pred.isEmpty = false := by rfl
    simp only [OptimizeBranchTargetLoop, selfLoop_first, bind_ok_eq, h]
    simpa using selfLoop_loop n



/-! ## Branch threading: frame and target selection -/

theorem succ_isEmpty_of_GetSucc (b : BB) (i : Nat) (t : BBId) (h : GetSucc b i = Except.ok t) :
    b.succ.isEmpty = false := by
  rw [GetSucc_eq_ok] at h
  cases hs : b.succ with
  | nil => rw [hs] at h; simp at h
  | cons a r => rfl

theorem RetargetBranch_WontExit (l : BBLayout) (b t : BBId)
    (ht : GetSucc (l.func.bb b) (BrTargetIdx (l.func.bb b)) = Except.ok t)
    (hw : (l.func.bb t).GetAttributes BBAttr.kBBAttrWontExit = true) :
    RetargetBranch l b = Except.ok none := by
  unfold RetargetBranch
  have he := succ_isEmpty_of_GetSucc _ _ _ ht
  simp only [ASSERT, he, Bool.not_false, Bool.not_true, Bool.and_false, Bool.false_eq_true,
    if_false, bind_ok_eq, ht, hw, if_true]

/-- C16.  For every state and every block `b` whose labeled successor `t`
(`successors[1]` for `CondGoto`, `successors[0]` otherwise) has the
`WontExit` attribute, `OptimizeBranchTarget(b)` returns and leaves the whole
state unchanged (terminator offset, successor and predecessor lists, the
`laidOut` bits and the block table), whatever kind of block `t` is. -/
theorem OptimizeBranchTarget_WontExit_unchanged (fuel : Nat) (l : BBLayout) (b t : BBId)
    (ht : GetSucc (l.func.bb b) (BrTargetIdx (l.func.bb b)) = Except.ok t)
    (hw : (l.func.bb t).GetAttributes BBAttr.kBBAttrWontExit = true) :
    OptimizeBranchTarget (fuel + 1) l b = Except.ok l := by
  unfold OptimizeBranchTarget
  split
  · rfl
  · split
    · rfl
    · rw [OptimizeBranchTargetLoop, RetargetBranch_WontExit l b t ht hw, bind_ok_eq]

/-- C16, at the endless loop `wontExitCFG`, whose block 1 is a `WontExit` trivial goto. -/
theorem OptimizeBranchTarget_WontExit_unchanged_witness :
    BBContainsOnlyGoto (wontExitCFG.bb 1) = true ∧
    OptimizeBranchTarget 1 (BBLayout.new wontExitCFG) 0 = Except.ok (BBLayout.new wontExitCFG) :=
  ⟨by decide, OptimizeBranchTarget_WontExit_unchanged 0 (BBLayout.new wontExitCFG) 0 1
    (by rfl) (by decide)⟩

theorem kind_of_BBContainsOnlyGoto (b : BB) (h : BBContainsOnlyGoto b = true) :
    b.kind = BBKind.kBBGoto := by
  unfold BBContainsOnlyGoto at h
  by_cases hk : b.kind = BBKind.kBBGoto
  · exact hk
  · simp [hk] at h

theorem kind_of_BBEmptyAndFallthru (b : BB) (h : BBEmptyAndFallthru b = true) :
    b.kind = BBKind.kBBFallthru := by
  unfold BBEmptyAndFallthru at h
  by_cases hk : b.kind = BBKind.kBBFallthru
  · exact hk
  · simp [hk] at h

theorem getLast?_modifyLast (g : Stmt → Stmt) :
    ∀ l : List Stmt, (modifyLast g l).getLast? = l.getLast?.map g
  | [] => rfl
  | [_] => rfl
  | a :: b :: r => by
    have ih := getLast?_modifyLast g (b :: r)
    cases hm : modifyLast g (b :: r) with
    | nil =>
      exfalso
      cases r <;> simp [modifyLast] at hm
    | cons c r2 =>
      rw [hm] at ih
      simp only [modifyLast, hm, List.getLast?_cons_cons]
      exact ih

theorem bb_SetLastOffset (f : MeFunction) (b : BBId) (lab : LabelIdx) (x : BBId) :
    (SetLastOffset f b lab).bb x =
      { f.bb x with
        stmts := if x = b then modifyLast (fun st => { st with offset := lab }) (f.bb x).stmts
                 else (f.bb x).stmts } := by
  unfold SetLastOffset
  rw [bb_setBB]
  by_cases h1 : x = b
  · subst h1
    by_cases h2 : x < f.heap.length
    · simp [h2]
    · have hd := bb_default_of_ge f x (Nat.le_of_not_lt h2)
      simp [h2, hd]
      rfl
  · simp [h1]

theorem Retargeted_stmts (f : MeFunction) (b t nt x : BBId) :
    ((Retargeted f b t nt).bb x).stmts =
      if x = b then
        modifyLast (fun st => { st with offset := (GetOrCreateBBLabel f nt).1 }) (f.bb x).stmts
      else (f.bb x).stmts := by
  unfold Retargeted
  rw [bb_RemoveBBFromPred, bb_ReplaceSucc, bb_SetLastOffset]
  obtain ⟨lab, h⟩ := bb_GetOrCreateBBLabel f nt x
  simp only [h]

theorem Retargeted_bbLabel (f : MeFunction) (b t nt x : BBId) :
    ((Retargeted f b t nt).bb x).bbLabel = ((GetOrCreateBBLabel f nt).2.bb x).bbLabel := by
  unfold Retargeted
  rw [bb_RemoveBBFromPred, bb_ReplaceSucc, bb_SetLastOffset]

theorem GetOrCreateBBLabel_label (f : MeFunction) (nt : BBId) (h : nt < f.heap.length) :
    ((GetOrCreateBBLabel f nt).2.bb nt).bbLabel = (GetOrCreateBBLabel f nt).1 := by
  unfold GetOrCreateBBLabel
  split
  · rfl
  · have e : ∀ (g : MeFunction) (c : Nat), ({ g with labelCount := c } : MeFunction).bb nt = g.bb nt :=
      fun _ _ => rfl
    simp only [e, bb_setBB, h, and_self, if_true]

theorem GetOrCreateBBLabel_keeps_label (f : MeFunction) (nt x : BBId)
    (h : (f.bb x).bbLabel ≠ 0) :
    ((GetOrCreateBBLabel f nt).2.bb x).bbLabel = (f.bb x).bbLabel := by
  unfold GetOrCreateBBLabel
  split
  · rfl
  · rename_i hz
    have e : ∀ (g : MeFunction) (c : Nat), ({ g with labelCount := c } : MeFunction).bb x = g.bb x :=
      fun _ _ => rfl
    simp only [e, bb_setBB]
    split
    · rename_i hx
      exfalso
      rw [hx.1] at h
      simp at hz
      exact h hz
    · rfl

theorem GetOrCreateBBLabel_stmts (f : MeFunction) (nt x : BBId) :
    ((GetOrCreateBBLabel f nt).2.bb x).stmts = (f.bb x).stmts := by
  obtain ⟨lab, h⟩ := bb_GetOrCreateBBLabel f nt x
  rw [h]

theorem GetOrCreateBBLabel_assertOn (f : MeFunction) (nt : BBId) :
    (GetOrCreateBBLabel f nt).2.assertOn = f.assertOn := by
  unfold GetOrCreateBBLabel
  split <;> rfl

/-- When the loop of `OptimizeBranchTarget(b)` threads through `t` to `nt`, it
returns the function retargeted from `t` to `nt`. -/
theorem RetargetBranch_threads (l : BBLayout) (b t nt : BBId) (lastStmt : Stmt)
    (ht : GetSucc (l.func.bb b) (BrTargetIdx (l.func.bb b)) = Except.ok t)
    (hw : (l.func.bb t).GetAttributes BBAttr.kBBAttrWontExit = false)
    (hthread : ThreadThrough l.func b t = Except.ok true)
    (hnt : NewTargetBB (l.func.bb t) = Except.ok nt)
    (hlast : (l.func.bb b).stmts.getLast? = some lastStmt)
    (hlabel : lastStmt.offset = (l.func.bb t).bbLabel ∧ (l.func.bb t).bbLabel ≠ 0) :
    RetargetBranch l b =
      Except.ok (some (t, { l with func := Retargeted l.func b t nt })) := by
  unfold RetargetBranch
  have he := succ_isEmpty_of_GetSucc _ _ _ ht
  have hl2 : ((GetOrCreateBBLabel l.func nt).2.bb b).stmts.getLast? = some lastStmt := by
    rw [GetOrCreateBBLabel_stmts, hlast]
  have hlab : ((GetOrCreateBBLabel l.func nt).2.bb t).bbLabel = lastStmt.offset := by
    rw [GetOrCreateBBLabel_keeps_label _ _ _ hlabel.2, hlabel.1]
  simp only [ASSERT, he, Bool.not_false, Bool.not_true, Bool.and_false, Bool.false_eq_true,
    if_false, bind_ok_eq, ht, hw, hthread, hnt, hl2, hlab, beq_self_eq_true]
  rfl

theorem SuccFront_of_GetSucc (b : BB) (i : Nat) (t : BBId) (h : GetSucc b i = Except.ok t) :
    ∃ x, SuccFront b = Except.ok x := by
  rw [GetSucc_eq_ok] at h
  unfold SuccFront
  cases hs : b.succ with
  | nil => rw [hs] at h; simp at h
  | cons a r => exact ⟨a, rfl⟩

/-- C18.  Thread-target selection: in a threading iteration of
`OptimizeBranchTarget(b)` with labeled successor `t` (not `WontExit`, its
label recorded by the branch of `b`), the branch is retargeted to `nt`, where
`nt` is the first successor of `t` when `t` is only-goto or
empty-and-fallthru, and `t.successors[1]` when `b` and `t` are distinct
`CondGoto` blocks, `t` contains only a conditional branch and
`HasSameBranchCond(b, t)` holds: afterwards the first occurrence of `t` among
the successors of `b` is `nt` and the branch of `b` records the label of `nt`.
On scenario S3 (`sameCondCFG`: block 0 `brfalse (a > 3) -> 1`, block 1
`brfalse (a > 3) -> 2` falling through to 3), the branch of block 0 ends up
targeting block 2 and block 1 is nullified. -/
theorem thread_target_selection (l : BBLayout) (b t nt : BBId) (lastStmt : Stmt)
    (ht : GetSucc (l.func.bb b) (BrTargetIdx (l.func.bb b)) = Except.ok t)
    (hw : (l.func.bb t).GetAttributes BBAttr.kBBAttrWontExit = false)
    (hlast : (l.func.bb b).stmts.getLast? = some lastStmt)
    (hlabel : lastStmt.offset = (l.func.bb t).bbLabel ∧ (l.func.bb t).bbLabel ≠ 0)
    (hlt : nt < l.func.heap.length)
    (hcase :
      ((BBContainsOnlyGoto (l.func.bb t) = true ∨ BBEmptyAndFallthru (l.func.bb t) = true) ∧
        SuccFront (l.func.bb t) = Except.ok nt) ∨
      ((l.func.bb b).kind = BBKind.kBBCondGoto ∧ (l.func.bb t).kind = BBKind.kBBCondGoto ∧
        b ≠ t ∧ BBContainsOnlyCondGoto (l.func.bb t) = true ∧
        HasSameBranchCond l.func.hasIRMap (l.func.bb b) (l.func.bb t) = Except.ok true ∧
        GetSucc (l.func.bb t) 1 = Except.ok nt)) :
    (RetargetBranch l b = Except.ok (some (t, { l with func := Retargeted l.func b t nt })) ∧
      ((Retargeted l.func b t nt).bb b).succ = replaceFirst (l.func.bb b).succ t nt ∧
      ((Retargeted l.func b t nt).bb b).stmts.getLast?.map (fun st => st.offset) =
        some ((Retargeted l.func b t nt).bb nt).bbLabel) ∧
    (OptimizeBranchTarget 5 (BBLayout.new sameCondCFG) 0).map (fun l2 =>
        ((l2.func.bb 0).stmts.map (fun st => (st.op, st.offset)), (l2.func.bb 0).succ,
          (l2.func.bb 2).bbLabel, l2.func.bbVec.getD 1 (some 1))) =
      Except.ok ([(Opcode.OP_brfalse, 3)], [4, 2], 3, none) := by
  refine ⟨⟨?_, ?_, ?_⟩, by rfl⟩
  · have hth : ThreadThrough l.func b t = Except.ok true ∧
        NewTargetBB (l.func.bb t) = Except.ok nt := by
      rcases hcase with ⟨h12, hfront⟩ | ⟨hkb, hkt, hne, honly, hsame, hsucc⟩
      · have hk : (l.func.bb t).kind ≠ BBKind.kBBCondGoto := by
          rcases h12 with h | h
          · rw [kind_of_BBContainsOnlyGoto _ h]; decide
          · rw [kind_of_BBEmptyAndFallthru _ h]; decide
        constructor
        · unfold ThreadThrough
          rcases h12 with h | h
          · simp [h]
          · cases BBContainsOnlyGoto (l.func.bb t) <;> simp [h]
        · unfold NewTargetBB
          rw [hfront, bind_ok_eq]
          simp [hk]
      · have h1 : BBContainsOnlyGoto (l.func.bb t) = false := by
          cases h : BBContainsOnlyGoto (l.func.bb t)
          · rfl
          · rw [kind_of_BBContainsOnlyGoto _ h] at hkt; cases hkt
        have h2 : BBEmptyAndFallthru (l.func.bb t) = false := by
          cases h : BBEmptyAndFallthru (l.func.bb t)
          · rfl
          · rw [kind_of_BBEmptyAndFallthru _ h] at hkt; cases hkt
        constructor
        · unfold ThreadThrough
          simp [h1, h2, hkb, hkt, hne, honly, hsame]
        · unfold NewTargetBB
          obtain ⟨x, hx⟩ := SuccFront_of_GetSucc _ _ _ hsucc
          rw [hx, bind_ok_eq]
          simp [hkt, hsucc]
    exact RetargetBranch_threads l b t nt lastStmt ht hw hth.1 hth.2 hlast hlabel
  · rw [Retargeted_succ, if_pos rfl]
  · rw [Retargeted_stmts, if_pos rfl, getLast?_modifyLast, hlast, Retargeted_bbLabel,
      GetOrCreateBBLabel_label _ _ hlt]
    rfl

/-- C18, at scenario S3: block 0 is threaded through block 1 to block 2. -/
theorem thread_target_selection_witness :
    RetargetBranch (BBLayout.new sameCondCFG) 0 =
      Except.ok (some (1, { BBLayout.new sameCondCFG with
        func := Retargeted (BBLayout.new sameCondCFG).func 0 1 2 })) :=
  (thread_target_selection (BBLayout.new sameCondCFG) 0 1 2 (condStmt Opcode.OP_brfalse 2 aGt3)
    (by rfl) (by decide) (by rfl) (by decide) (by decide)
    (Or.inr ⟨by rfl, by rfl, by decide, by decide, by rfl, by rfl⟩)).1.1


/-! ## Fall-through repair -/

theorem RetargetBranch_stops (l : BBLayout) (b t : BBId)
    (ht : GetSucc (l.func.bb b) (BrTargetIdx (l.func.bb b)) = Except.ok t)
    (hstop : (l.func.bb t).GetAttributes BBAttr.kBBAttrWontExit = true ∨
      ThreadThrough l.func b t = Except.ok false) :
    RetargetBranch l b = Except.ok none := by
  rcases hstop with hw | hth
  · exact RetargetBranch_WontExit l b t ht hw
  · unfold RetargetBranch
    have he := succ_isEmpty_of_GetSucc _ _ _ ht
    simp only [ASSERT, he, Bool.not_false, Bool.not_true, Bool.and_false, Bool.false_eq_true,
      if_false, bind_ok_eq, ht, hth, if_true]
    split <;> rfl

/-- The loop of `OptimizeBranchTarget` creates no block, lays out no block and
leaves the `newBBInLayout` flag alone. -/
theorem OptimizeBranchTargetLoop_keeps (bb : BBId) :
    ∀ (fuel : Nat) (l l2 : BBLayout), OptimizeBranchTargetLoop fuel l bb = Except.ok l2 →
      l2.func.heap.length = l.func.heap.length ∧ l2.newBBInLayout = l.newBBInLayout ∧
      l2.layoutBBs = l.layoutBBs := by
  intro fuel
  induction fuel with
  | zero =>
    intro l l2 h
    cases h
  | succ fuel ih =>
    intro l l2 h
    rw [OptimizeBranchTargetLoop, bind_eq_ok_iff] at h
    obtain ⟨r, hr, h⟩ := h
    cases r with
    | none =>
      cases h
      exact ⟨rfl, rfl, rfl⟩
    | some p =>
      obtain ⟨t, l4⟩ := p
      obtain ⟨_, _, nt, _, hl4⟩ := RetargetBranch_some l bb t l4 hr
      have h4 : l4.func.heap.length = l.func.heap.length ∧ l4.newBBInLayout = l.newBBInLayout ∧
          l4.layoutBBs = l.layoutBBs := by
        rw [hl4]
        exact ⟨Retargeted_length _ _ _ _, rfl, rfl⟩
      simp only [] at h
      split at h
      · rw [bind_eq_ok_iff] at h
        obtain ⟨l5, h5, h⟩ := h
        obtain ⟨v, hv⟩ := RemoveUnreachable_onlyTable _ _ _ _ h5
        obtain ⟨a, b, c⟩ := ih l5 l2 h
        rw [hv] at a b c
        exact ⟨a.trans h4.1, b.trans h4.2.1, c.trans h4.2.2⟩
      · obtain ⟨a, b, c⟩ := ih l4 l2 h
        exact ⟨a.trans h4.1, b.trans h4.2.1, c.trans h4.2.2⟩

theorem OptimizeBranchTarget_keeps (fuel : Nat) (l l2 : BBLayout) (bb : BBId)
    (h : OptimizeBranchTarget fuel l bb = Except.ok l2) :
    l2.func.heap.length = l.func.heap.length ∧ l2.newBBInLayout = l.newBBInLayout ∧
      l2.layoutBBs = l.layoutBBs := by
  unfold OptimizeBranchTarget at h
  split at h
  · cases h
    exact ⟨rfl, rfl, rfl⟩
  · split at h
    · cases h
      exact ⟨rfl, rfl, rfl⟩
    · exact OptimizeBranchTargetLoop_keeps bb fuel l l2 h

theorem head?_replaceFirst (l : List BBId) (old new : BBId) (h : l.head? = some old) :
    (replaceFirst l old new).head? = some new := by
  cases l with
  | nil => cases h
  | cons a r =>
    simp only [List.head?_cons, Option.some.injEq] at h
    subst h
    simp [replaceFirst]

/-- The walk of `GetFallThruBBSkippingEmpty` changes no statement, kind or
attribute, creates and lays out no block, and returns the first successor of
`bb`. -/
theorem GetFallThruBBSkippingEmptyLoop_keeps (bb : BBId) :
    ∀ (fuel : Nat) (l l2 : BBLayout) (fallthru ft : BBId),
      (l.func.bb bb).succ.head? = some fallthru →
      GetFallThruBBSkippingEmptyLoop fuel l bb fallthru = Except.ok (ft, l2) →
      SameShape bb l.func l2.func ∧ l2.newBBInLayout = l.newBBInLayout ∧
      l2.layoutBBs = l.layoutBBs ∧ (l2.func.bb bb).succ.head? = some ft ∧
      (∀ x, (l2.func.bb x).stmts = (l.func.bb x).stmts) := by
  intro fuel
  induction fuel with
  | zero =>
    intro l l2 fallthru ft _ h
    cases h
  | succ fuel ih =>
    intro l l2 fallthru ft hhead h
    rw [GetFallThruBBSkippingEmptyLoop] at h
    split at h
    · cases h
      exact ⟨SameShape_refl _ _, rfl, rfl, hhead, fun _ => rfl⟩
    · split at h
      · cases h
        exact ⟨SameShape_refl _ _, rfl, rfl, hhead, fun _ => rfl⟩
      · rw [bind_eq_ok_iff] at h
        obtain ⟨ft2, hft2, h⟩ := h
        simp only [] at h
        have hshape3 : SameShape bb l.func
            (RemoveBBFromPred (ReplaceSucc l.func bb fallthru ft2) fallthru bb) :=
          SameShape_trans (ReplaceSucc_sameShape _ bb fallthru ft2)
            (RemoveBBFromPred_sameShape bb _ fallthru bb)
        have hhead3 : ((RemoveBBFromPred (ReplaceSucc l.func bb fallthru ft2) fallthru bb).bb
            bb).succ.head? = some ft2 := by
          rw [bb_RemoveBBFromPred, bb_ReplaceSucc]
          simp only [if_true]
          exact head?_replaceFirst _ _ _ hhead
        have hstmts3 : ∀ x, ((RemoveBBFromPred (ReplaceSucc l.func bb fallthru ft2) fallthru
            bb).bb x).stmts = (l.func.bb x).stmts := by
          intro x
          rw [bb_RemoveBBFromPred, bb_ReplaceSucc]
        split at h
        · rw [bind_eq_ok_iff] at h
          obtain ⟨l4, h4, h⟩ := h
          obtain ⟨v, hv⟩ := RemoveUnreachable_onlyTable _ _ _ _ h4
          have hbb4 : ∀ x, l4.func.bb x =
              (RemoveBBFromPred (ReplaceSucc l.func bb fallthru ft2) fallthru bb).bb x := by
            intro x
            rw [hv]
            rfl
          obtain ⟨a, b, c, d, e⟩ := ih l4 l2 ft2 ft (by rw [hbb4]; exact hhead3) h
          refine ⟨SameShape_trans (SameShape_trans hshape3 ?_) a, ?_, ?_, d, ?_⟩
          · rw [hv]
            exact ⟨rfl, rfl, fun _ => ⟨rfl, rfl, rfl, fun _ => rfl⟩⟩
          · rw [b, hv]
            rfl
          · rw [c, hv]
            rfl
          · intro x
            rw [e x, hbb4 x, hstmts3 x]
        · rw [bind_ok_eq] at h
          obtain ⟨a, b, c, d, e⟩ := ih _ l2 ft2 ft hhead3 h
          refine ⟨SameShape_trans hshape3 a, ?_, ?_, d, ?_⟩
          · rw [b]
            rfl
          · rw [c]
            rfl
          · intro x
            rw [e x]
            exact hstmts3 x

theorem GetFallThruBBSkippingEmpty_keeps (fuel : Nat) (l l2 : BBLayout) (bb ft : BBId)
    (h : GetFallThruBBSkippingEmpty fuel l bb = Except.ok (ft, l2)) :
    SameShape bb l.func l2.func ∧ l2.newBBInLayout = l.newBBInLayout ∧
      l2.layoutBBs = l.layoutBBs ∧ (l2.func.bb bb).succ.head? = some ft ∧
      (∀ x, (l2.func.bb x).stmts = (l.func.bb x).stmts) := by
  unfold GetFallThruBBSkippingEmpty at h
  rw [bind_eq_ok_iff] at h
  obtain ⟨_, _, h⟩ := h
  rw [bind_eq_ok_iff] at h
  obtain ⟨_, _, h⟩ := h
  rw [bind_eq_ok_iff] at h
  obtain ⟨fallthru, hf, h⟩ := h
  have hhead : (l.func.bb bb).succ.head? = some fallthru := by
    unfold SuccFront at hf
    cases hh : (l.func.bb bb).succ.head? with
    | none => rw [hh] at hf; cases hf
    | some x => rw [hh] at hf; cases hf; rfl
  exact GetFallThruBBSkippingEmptyLoop_keeps bb fuel l l2 fallthru ft hhead h


theorem count_erase_other (p : List BBId) (b x : BBId) (h : x ≠ b) :
    (p.erase b).count x = p.count x := by
  rw [List.count_erase]
  have : (b == x) = false := by simp [Ne.symm h]
  simp [this]

theorem count_append_other (p : List BBId) (b x : BBId) (h : x ≠ b) :
    (p ++ [b]).count x = p.count x := by
  rw [List.count_append]
  have : (b == x) = false := by simp [Ne.symm h]
  simp [List.count_cons, this]

/-- A splice of the edge `bb -> t` to `bb -> nt` touches no predecessor entry
other than those of `bb`. -/
theorem spliced_pred_count_other (g : MeFunction) (bb t nt x p : BBId) (hp : p ≠ bb) :
    ((RemoveBBFromPred (ReplaceSucc g bb t nt) t bb).bb x).pred.count p =
      (g.bb x).pred.count p := by
  rw [bb_RemoveBBFromPred, bb_ReplaceSucc]
  simp only []
  split <;> split <;>
    simp only [count_erase_other _ _ _ hp, count_append_other _ _ _ hp]

theorem Retargeted_pred_count_other (f : MeFunction) (bb t nt x p : BBId) (hp : p ≠ bb) :
    ((Retargeted f bb t nt).bb x).pred.count p = (f.bb x).pred.count p := by
  rw [Retargeted_pred]
  split <;> split <;>
    simp only [count_erase_other _ _ _ hp, count_append_other _ _ _ hp]

/-- The loop of `OptimizeBranchTarget(bb)` changes no kind, attribute or
statement shape, no successor list but the one of `bb`, and no predecessor
entry but those of `bb`. -/
theorem OptimizeBranchTargetLoop_frame (bb : BBId) :
    ∀ (fuel : Nat) (l l2 : BBLayout), OptimizeBranchTargetLoop fuel l bb = Except.ok l2 →
      SameShape bb l.func l2.func ∧
      ∀ x p, p ≠ bb → (l2.func.bb x).pred.count p = (l.func.bb x).pred.count p := by
  intro fuel
  induction fuel with
  | zero =>
    intro l l2 h
    cases h
  | succ fuel ih =>
    intro l l2 h
    rw [OptimizeBranchTargetLoop, bind_eq_ok_iff] at h
    obtain ⟨r, hr, h⟩ := h
    cases r with
    | none =>
      cases h
      exact ⟨SameShape_refl _ _, fun _ _ _ => rfl⟩
    | some p =>
      obtain ⟨t, l4⟩ := p
      obtain ⟨_, _, nt, _, hl4⟩ := RetargetBranch_some l bb t l4 hr
      have h4 : SameShape bb l.func l4.func ∧
          ∀ x p, p ≠ bb → (l4.func.bb x).pred.count p = (l.func.bb x).pred.count p := by
        rw [hl4]
        exact ⟨Retargeted_sameShape _ _ _ _,
          fun x p hp => Retargeted_pred_count_other _ _ _ _ x p hp⟩
      simp only [] at h
      split at h
      · rw [bind_eq_ok_iff] at h
        obtain ⟨l5, h5, h⟩ := h
        have hP := RemoveUnreachable_onlyTable _ _ _ _ h5
        have hbb5 : ∀ x, l5.func.bb x = l4.func.bb x := fun x => OnlyTableChanged_bb_eq hP x
        obtain ⟨a, b⟩ := ih l5 l2 h
        refine ⟨SameShape_trans (SameShape_trans h4.1 (OnlyTableChanged_sameShape hP bb)) a, ?_⟩
        intro x p hp
        rw [b x p hp, hbb5 x]
        exact h4.2 x p hp
      · obtain ⟨a, b⟩ := ih l4 l2 h
        refine ⟨SameShape_trans h4.1 a, ?_⟩
        intro x p hp
        rw [b x p hp]
        exact h4.2 x p hp

theorem OptimizeBranchTarget_frame (fuel : Nat) (l l2 : BBLayout) (bb : BBId)
    (h : OptimizeBranchTarget fuel l bb = Except.ok l2) :
    SameShape bb l.func l2.func ∧
      ∀ x p, p ≠ bb → (l2.func.bb x).pred.count p = (l.func.bb x).pred.count p := by
  unfold OptimizeBranchTarget at h
  split at h
  · cases h
    exact ⟨SameShape_refl _ _, fun _ _ _ => rfl⟩
  · split at h
    · cases h
      exact ⟨SameShape_refl _ _, fun _ _ _ => rfl⟩
    · exact OptimizeBranchTargetLoop_frame bb fuel l l2 h

/-- The walk of `GetFallThruBBSkippingEmpty(bb)` touches no predecessor entry
other than those of `bb`. -/
theorem GetFallThruBBSkippingEmptyLoop_pred_other (bb : BBId) :
    ∀ (fuel : Nat) (l l2 : BBLayout) (fallthru ft : BBId),
      GetFallThruBBSkippingEmptyLoop fuel l bb fallthru = Except.ok (ft, l2) →
      ∀ x p, p ≠ bb → (l2.func.bb x).pred.count p = (l.func.bb x).pred.count p := by
  intro fuel
  induction fuel with
  | zero =>
    intro l l2 fallthru ft h
    cases h
  | succ fuel ih =>
    intro l l2 fallthru ft h
    rw [GetFallThruBBSkippingEmptyLoop] at h
    split at h
    · cases h
      exact fun _ _ _ => rfl
    · split at h
      · cases h
        exact fun _ _ _ => rfl
      · rw [bind_eq_ok_iff] at h
        obtain ⟨ft2, hft2, h⟩ := h
        simp only [] at h
        split at h
        · rw [bind_eq_ok_iff] at h
          obtain ⟨l4, h4, h⟩ := h
          have hP := RemoveUnreachable_onlyTable _ _ _ _ h4
          intro x p hp
          rw [ih l4 l2 ft2 ft h x p hp, OnlyTableChanged_bb_eq hP x]
          exact spliced_pred_count_other l.func bb fallthru ft2 x p hp
        · rw [bind_ok_eq] at h
          intro x p hp
          rw [ih _ l2 ft2 ft h x p hp]
          exact spliced_pred_count_other l.func bb fallthru ft2 x p hp

theorem GetFallThruBBSkippingEmpty_pred_other (fuel : Nat) (l l2 : BBLayout) (bb ft : BBId)
    (h : GetFallThruBBSkippingEmpty fuel l bb = Except.ok (ft, l2)) :
    ∀ x p, p ≠ bb → (l2.func.bb x).pred.count p = (l.func.bb x).pred.count p := by
  unfold GetFallThruBBSkippingEmpty at h
  rw [bind_eq_ok_iff] at h
  obtain ⟨_, _, h⟩ := h
  rw [bind_eq_ok_iff] at h
  obtain ⟨_, _, h⟩ := h
  rw [bind_eq_ok_iff] at h
  obtain ⟨fallthru, _, h⟩ := h
  exact GetFallThruBBSkippingEmptyLoop_pred_other bb fuel l l2 fallthru ft h

theorem bb_CreateGoto (f : MeFunction) (bb ft x : BBId) :
    (CreateGoto f bb ft).bb x =
      if x = bb ∧ bb < f.heap.length then
        { (GetOrCreateBBLabel f ft).2.bb bb with
          stmts := ((GetOrCreateBBLabel f ft).2.bb bb).stmts ++ [gotoStmt (GetOrCreateBBLabel f ft).1]
          kind := BBKind.kBBGoto }
      else (GetOrCreateBBLabel f ft).2.bb x := by
  unfold CreateGoto
  simp only [bb_setBB, (GetOrCreateBBLabel_sameShape bb f ft).2.1]
  rfl

theorem CreateGoto_length (f : MeFunction) (bb ft : BBId) :
    (CreateGoto f bb ft).heap.length = f.heap.length := by
  unfold CreateGoto
  simp only [setBB_length]
  exact (GetOrCreateBBLabel_sameShape bb f ft).2.1

theorem CreateGoto_edges (f : MeFunction) (bb ft x : BBId) :
    ((CreateGoto f bb ft).bb x).succ = (f.bb x).succ ∧
    ((CreateGoto f bb ft).bb x).pred = (f.bb x).pred := by
  rw [bb_CreateGoto]
  split
  · rename_i h
    rw [h.1]
    exact GetOrCreateBBLabel_sameEdges f ft bb
  · exact GetOrCreateBBLabel_sameEdges f ft x

theorem CreateGoto_bbLabel (f : MeFunction) (bb ft : BBId) (h : ft < f.heap.length) :
    ((CreateGoto f bb ft).bb ft).bbLabel = (GetOrCreateBBLabel f ft).1 := by
  rw [bb_CreateGoto]
  split
  · rename_i hc
    rw [← hc.1]
    exact GetOrCreateBBLabel_label f ft h
  · exact GetOrCreateBBLabel_label f ft h

theorem OptimizeBranchTarget_stops (fuel : Nat) (l : BBLayout) (b t : BBId) (last : Stmt)
    (hlast : (l.func.bb b).stmts.getLast? = some last) (hop : last.op = Opcode.OP_goto)
    (ht : GetSucc (l.func.bb b) (BrTargetIdx (l.func.bb b)) = Except.ok t)
    (hstop : (l.func.bb t).GetAttributes BBAttr.kBBAttrWontExit = true ∨
      ThreadThrough l.func b t = Except.ok false) :
    OptimizeBranchTarget (fuel + 1) l b = Except.ok l := by
  unfold OptimizeBranchTarget
  rw [hlast]
  simp only [hop, bne_self_eq_false, Bool.false_and, Bool.false_eq_true, if_false]
  rw [OptimizeBranchTargetLoop, RetargetBranch_stops l b t ht hstop]
  rfl

/-- C13 (amended).  A `Fallthru` block `bb` whose fall-through target `ft`
(after the walk over empty blocks) has more than one predecessor and is not
the next block gets no trampoline: `ResolveUnconditionalFallThru` is
`CreateGoto` followed by `OptimizeBranchTarget(bb)`.  `CreateGoto` appends
`goto ft` to `bb` itself, recording the label of `ft`, and turns `bb` into a
`Goto` block, with the edge `bb -> ft` and the predecessors of `ft` in place.
In every state the repair returns, no block is created or laid out,
`newBBInLayout` keeps its value, `bb` is a `Goto` block whose statements are
its old ones followed by one goto, and the successors of every other block
and every predecessor entry other than those of `bb` are as before the
repair; `OptimizeBranchTarget` may retarget the new goto.  When `ft` is
`WontExit` or not threadable the repair returns exactly the state of
`CreateGoto`; on `threadableDetourCFG`, where `ft` is a trivial goto, the new
goto of block 1 is threaded to block 4 and block 1 leaves the predecessors of
block 3. -/
theorem ResolveUnconditionalFallThru_appends_goto (fuel : Nat) (l l1 : BBLayout) (bb ft : BBId)
    (nextBB : Option BBId)
    (hkind : (l.func.bb bb).kind = BBKind.kBBFallthru)
    (hone : (l.func.bb bb).GetAttributes BBAttr.kBBAttrIsTry = true ∨
      (l.func.bb bb).GetAttributes BBAttr.kBBAttrWontExit = true ∨ (l.func.bb bb).succ.length = 1)
    (hft : GetFallThruBBSkippingEmpty fuel l bb = Except.ok (ft, l1))
    (hpred : 1 < (l1.func.bb ft).pred.length)
    (hnext : nextBB ≠ some ft) :
    ResolveUnconditionalFallThru (fuel + 1) l bb nextBB =
      OptimizeBranchTarget fuel { l1 with func := CreateGoto l1.func bb ft } bb ∧
    (CreateGoto l1.func bb ft).heap.length = l.func.heap.length ∧
    ((CreateGoto l1.func bb ft).bb bb).kind = BBKind.kBBGoto ∧
    ((CreateGoto l1.func bb ft).bb bb).stmts =
      (l.func.bb bb).stmts ++ [gotoStmt ((CreateGoto l1.func bb ft).bb ft).bbLabel] ∧
    ((CreateGoto l1.func bb ft).bb bb).succ.head? = some ft ∧
    ((CreateGoto l1.func bb ft).bb ft).pred = (l1.func.bb ft).pred ∧
    (∀ l2, ResolveUnconditionalFallThru (fuel + 1) l bb nextBB = Except.ok l2 →
      l2.func.heap.length = l.func.heap.length ∧ l2.newBBInLayout = l.newBBInLayout ∧
      l2.layoutBBs = l.layoutBBs ∧
      (l2.func.bb bb).kind = BBKind.kBBGoto ∧
      (l2.func.bb bb).stmts.map Stmt.shape =
        (l.func.bb bb).stmts.map Stmt.shape ++ [(Opcode.OP_goto, none)] ∧
      (∀ x, x ≠ bb → (l2.func.bb x).succ = (l.func.bb x).succ) ∧
      (∀ x p, p ≠ bb → (l2.func.bb x).pred.count p = (l.func.bb x).pred.count p)) ∧
    ((l1.func.bb ft).GetAttributes BBAttr.kBBAttrWontExit = true ∨
        ThreadThrough (CreateGoto l1.func bb ft) bb ft = Except.ok false →
      ResolveUnconditionalFallThru (fuel + 1) l bb nextBB =
        Except.ok { l1 with func := CreateGoto l1.func bb ft }) ∧
    (ResolveUnconditionalFallThru 10 (BBLayout.new threadableDetourCFG) 1 (some 2)).map
        (fun l2 => (l2.func.heap.length, l2.newBBInLayout, (l2.func.bb 1).kind,
          (l2.func.bb 1).stmts, (l2.func.bb 1).succ, (l2.func.bb 3).pred,
          (l2.func.bb 4).pred)) =
      Except.ok (5, false, BBKind.kBBGoto, [plainStmt 0, gotoStmt 5], [4], [2], [3, 1]) := by
  obtain ⟨hshape, hflag, hlay, hhead, hstmts⟩ := GetFallThruBBSkippingEmpty_keeps fuel l l1 bb ft hft
  have hbb : bb < l.func.heap.length := by
    by_contra hge
    rw [bb_default_of_ge l.func bb (Nat.le_of_not_lt hge)] at hkind
    cases hkind
  have hbb1 : bb < l1.func.heap.length := by
    rw [hshape.2.1]
    exact hbb
  have hftlt : ft < l1.func.heap.length :=
    pred_ne_nil_lt l1.func ft (by
      intro h
      rw [h] at hpred
      simp at hpred)
  have hmove : BBCanBeMoved l1 (l1.func.bb ft) (l1.func.bb bb) = false := by
    unfold BBCanBeMoved
    simp [hpred]
  have hne : (some ft != nextBB) = true := by
    simp only [bne_iff_ne, ne_eq]
    exact fun h => hnext h.symm
  have hmain : ResolveUnconditionalFallThru (fuel + 1) l bb nextBB =
      OptimizeBranchTarget fuel { l1 with func := CreateGoto l1.func bb ft } bb := by
    rw [ResolveUnconditionalFallThru]
    have hassert : ((l.func.bb bb).GetAttributes BBAttr.kBBAttrIsTry ||
        (l.func.bb bb).GetAttributes BBAttr.kBBAttrWontExit ||
        (l.func.bb bb).succ.length == 1) = true := by
      rcases hone with h | h | h <;> simp [h]
    simp only [ASSERT, hkind, hassert, beq_self_eq_true, Bool.true_or, Bool.not_true,
      Bool.and_false, Bool.false_eq_true, if_false, bind_ok_eq, hft, hne, hmove, if_true]
    rfl
  have hkindG : ((CreateGoto l1.func bb ft).bb bb).kind = BBKind.kBBGoto := by
    rw [bb_CreateGoto]
    simp [hbb1]
  have hedge := CreateGoto_edges l1.func bb ft
  have hstm : ((CreateGoto l1.func bb ft).bb bb).stmts =
      (l.func.bb bb).stmts ++ [gotoStmt ((CreateGoto l1.func bb ft).bb ft).bbLabel] := by
    rw [CreateGoto_bbLabel l1.func bb ft hftlt, bb_CreateGoto]
    simp only [hbb1, and_self, if_true, GetOrCreateBBLabel_stmts, hstmts]
  refine ⟨hmain, ?_, hkindG, hstm, ?_, (hedge ft).2, ?_, ?_, rfl⟩
  · rw [CreateGoto_length]
    exact hshape.2.1
  · rw [(hedge bb).1]
    exact hhead
  · intro l2 h2
    rw [hmain] at h2
    obtain ⟨a, b, c⟩ := OptimizeBranchTarget_keeps fuel _ l2 bb h2
    obtain ⟨hsh2, hcnt2⟩ := OptimizeBranchTarget_frame fuel _ l2 bb h2
    have hcnt1 := GetFallThruBBSkippingEmpty_pred_other fuel l l1 bb ft hft
    refine ⟨?_, b.trans hflag, c.trans hlay, ?_, ?_, ?_, ?_⟩
    · rw [a, CreateGoto_length]
      exact hshape.2.1
    · rw [(hsh2.2.2 bb).1]
      exact hkindG
    · rw [(hsh2.2.2 bb).2.2.1]
      show ((CreateGoto l1.func bb ft).bb bb).stmts.map Stmt.shape = _
      rw [hstm, List.map_append]
      rfl
    · intro x hx
      rw [(hsh2.2.2 x).2.2.2 hx]
      show ((CreateGoto l1.func bb ft).bb x).succ = _
      rw [(hedge x).1]
      exact (hshape.2.2 x).2.2.2 hx
    · intro x p hp
      rw [hcnt2 x p hp]
      show ((CreateGoto l1.func bb ft).bb x).pred.count p = _
      rw [(hedge x).2]
      exact hcnt1 x p hp
  · intro hstop
    rw [hmain]
    cases fuel with
    | zero =>
      unfold GetFallThruBBSkippingEmpty at hft
      rw [bind_eq_ok_iff] at hft
      obtain ⟨_, _, hft⟩ := hft
      rw [bind_eq_ok_iff] at hft
      obtain ⟨_, _, hft⟩ := hft
      rw [bind_eq_ok_iff] at hft
      obtain ⟨_, _, hft⟩ := hft
      cases hft
    | succ k =>
      have hlast : ((CreateGoto l1.func bb ft).bb bb).stmts.getLast? =
          some (gotoStmt ((CreateGoto l1.func bb ft).bb ft).bbLabel) := by
        rw [hstm]
        simp
      have hsucc : GetSucc ((CreateGoto l1.func bb ft).bb bb)
          (BrTargetIdx ((CreateGoto l1.func bb ft).bb bb)) = Except.ok ft := by
        rw [GetSucc_eq_ok]
        unfold BrTargetIdx
        rw [hkindG, (hedge bb).1]
        simp only [beq_iff_eq, reduceCtorEq, if_false]
        rw [← hhead]
        cases (l1.func.bb bb).succ <;> simp
      have hattr : ((CreateGoto l1.func bb ft).bb ft).GetAttributes BBAttr.kBBAttrWontExit =
          (l1.func.bb ft).GetAttributes BBAttr.kBBAttrWontExit := by
        rw [bb_CreateGoto]
        obtain ⟨lab, hlab⟩ := bb_GetOrCreateBBLabel l1.func ft ft
        split
        · rename_i hc
          rw [← hc.1, hlab]
          rfl
        · rw [hlab]
          rfl
      have hstop2 : ((CreateGoto l1.func bb ft).bb ft).GetAttributes BBAttr.kBBAttrWontExit = true ∨
          ThreadThrough (CreateGoto l1.func bb ft) bb ft = Except.ok false := by
        rcases hstop with h | h
        · left
          rw [← h]
          exact hattr
        · right
          exact h
      exact OptimizeBranchTarget_stops k { l1 with func := CreateGoto l1.func bb ft } bb ft _
        hlast rfl hsucc hstop2

theorem ResolveUnconditionalFallThru_appends_goto_witness :
    ResolveUnconditionalFallThru 3 (BBLayout.new fallthruDetourCFG) 1 (some 2) =
      Except.ok { BBLayout.new fallthruDetourCFG with
        func := CreateGoto fallthruDetourCFG 1 3 } :=
  (ResolveUnconditionalFallThru_appends_goto 2 (BBLayout.new fallthruDetourCFG)
    (BBLayout.new fallthruDetourCFG) 1 3 (some 2) rfl (Or.inr (Or.inr rfl)) rfl (by decide)
    (by decide)).2.2.2.2.2.2.2.1 (Or.inr rfl)

/-- C13 (counterexample).  In `fallthruDetourCFG` the `Fallthru` block 1 falls
through to block 3, which has two predecessors and is not the next block
(block 2 is).  The pass creates no block: the function still has four blocks,
the layout is the four blocks in source order, `newBBInLayout` stays false,
and block 1 itself has become a `Goto` block ending in `goto` to the label of
block 3. -/
theorem Run_fallthru_gets_no_trampoline :
    fallthruDetourCFG.WellFormed = true ∧
    (fallthruDetourCFG.bb 1).kind = BBKind.kBBFallthru ∧
    (fallthruDetourCFG.bb 1).succ = [3] ∧ (fallthruDetourCFG.bb 3).pred = [1, 2] ∧
    (Run 10 fallthruDetourCFG).map (fun l =>
        (l.layoutBBs, l.func.heap.length, l.newBBInLayout, (l.func.bb 1).kind,
          (l.func.bb 1).stmts, (l.func.bb 1).succ, (l.func.bb 3).pred, (l.func.bb 3).bbLabel)) =
      Except.ok ([0, 1, 2, 3], 4, false, BBKind.kBBGoto, [plainStmt 0, gotoStmt 4], [3], [1, 2], 4) := by
  refine ⟨by decide, rfl, rfl, rfl, ?_⟩
  rfl


/-! ## The laid-out bits and the branch labels on concrete graphs -/

/-- C15 (code defect).  `RemoveUnreachable` nullifies the blocks it reaches
recursively without setting their `laidOut` bit.  On the well-formed
`sameCondCFG` block 0 is threaded past block 1, whose removal recursively
nullifies block 3: at the end of `Run` block 3 is null in the block table and
absent from `layoutBBs`, yet its bit is false.  On the well-formed
`droppedNextCFG` the missing bit lets the driver lay out block 1 after the
sweep has nullified it. -/
theorem Run_nullified_block_not_marked :
    sameCondCFG.WellFormed = true ∧
    (Run 20 sameCondCFG).map (fun l => (l.layoutBBs, l.laidOut, l.func.bbVec)) =
      Except.ok ([0, 4, 2], [true, true, true, false, true],
        [some 0, none, some 2, none, some 4]) ∧
    droppedNextCFG.WellFormed = true ∧
    (Run 20 droppedNextCFG).map (fun l => (l.layoutBBs, l.func.bbVec)) =
      Except.ok ([0, 2, 3, 1, 5], [some 0, none, some 2, some 3, none, some 5]) := by
  refine ⟨by decide, ?_, by decide, ?_⟩
  · rfl
  · rfl

/-! ## Branch threading keeps the label and the edges of the rewritten block -/

theorem mem_replaceFirst (old new y : BBId) :
    ∀ l : List BBId, y ∈ replaceFirst l old new → y ∈ l ∨ y = new
  | [], h => by cases h
  | a :: r, h => by
    unfold replaceFirst at h
    split at h
    · rcases List.mem_cons.mp h with e | e
      · exact Or.inr e
      · exact Or.inl (List.mem_cons_of_mem _ e)
    · rcases List.mem_cons.mp h with e | e
      · exact Or.inl (by simp [e])
      · rcases mem_replaceFirst old new y r e with e2 | e2
        · exact Or.inl (List.mem_cons_of_mem _ e2)
        · exact Or.inr e2

theorem GetOrCreateBBLabel_labelCount (f : MeFunction) (nt : BBId) :
    f.labelCount ≤ (GetOrCreateBBLabel f nt).2.labelCount := by
  unfold GetOrCreateBBLabel
  split
  · exact Nat.le_refl _
  · exact Nat.le_succ _

theorem ReplaceSucc_labelCount (f : MeFunction) (bb t nt : BBId) :
    (ReplaceSucc f bb t nt).labelCount = f.labelCount := by
  unfold ReplaceSucc
  split <;> rfl

theorem Retargeted_labelCount (f : MeFunction) (bb t nt : BBId) :
    f.labelCount ≤ (Retargeted f bb t nt).labelCount := by
  have h1 : (Retargeted f bb t nt).labelCount =
      (ReplaceSucc (SetLastOffset (GetOrCreateBBLabel f nt).2 bb (GetOrCreateBBLabel f nt).1)
        bb t nt).labelCount := rfl
  rw [h1, ReplaceSucc_labelCount]
  exact GetOrCreateBBLabel_labelCount f nt

theorem GetOrCreateBBLabel_fst_ne_zero (f : MeFunction) (nt : BBId) (h : 0 < f.labelCount) :
    (GetOrCreateBBLabel f nt).1 ≠ 0 := by
  unfold GetOrCreateBBLabel
  split
  · rename_i hl
    simpa using hl
  · exact Nat.pos_iff_ne_zero.mp h

theorem Threads_ne_self (f : MeFunction) (b t : BBId)
    (hk : (f.bb b).kind = BBKind.kBBCondGoto) (h : Threads f b t = true) : t ≠ b := by
  intro e
  subst e
  unfold Threads ThreadThrough at h
  by_cases h1 : BBContainsOnlyGoto (f.bb t) = true
  · have := kind_of_BBContainsOnlyGoto _ h1
    rw [hk] at this
    cases this
  · by_cases h2 : BBEmptyAndFallthru (f.bb t) = true
    · have := kind_of_BBEmptyAndFallthru _ h2
      rw [hk] at this
      cases this
    · simp [h1, h2] at h

theorem RetargetBranch_none (l : BBLayout) (bb : BBId)
    (h : RetargetBranch l bb = Except.ok none) :
    ∃ t, GetSucc (l.func.bb bb) (BrTargetIdx (l.func.bb bb)) = Except.ok t ∧
      Threads l.func bb t = false := by
  unfold RetargetBranch at h
  rw [bind_eq_ok_iff] at h
  obtain ⟨_, _, h⟩ := h
  rw [bind_eq_ok_iff] at h
  obtain ⟨t0, ht0, h⟩ := h
  refine ⟨t0, ht0, ?_⟩
  split at h
  · rename_i hw
    unfold Threads
    simp [hw]
  · rw [bind_eq_ok_iff] at h
    obtain ⟨thread, hthread, h⟩ := h
    split at h
    · rename_i hth
      have hf : thread = false := by simpa using hth
      subst hf
      unfold Threads
      rw [hthread]
      simp
    · rw [bind_eq_ok_iff] at h
      obtain ⟨nt, hnt, h⟩ := h
      simp only [] at h
      split at h
      · cases h
      · rw [bind_eq_ok_iff] at h
        obtain ⟨_, _, h⟩ := h
        cases h

theorem Retargeted_outEdges (f : MeFunction) (bb t nt : BBId) (h : OutEdgesMutual f bb)
    (ht : t ∈ (f.bb bb).succ) (hnt : nt < f.heap.length) :
    OutEdgesMutual (Retargeted f bb t nt) bb := by
  intro s
  rw [Retargeted_succ, Retargeted_pred]
  have hs := h s
  have hbt := h t
  have hpos : 0 < (f.bb bb).succ.count t := List.count_pos_iff.mpr ht
  simp only [ht, hnt, and_true]
  have hc := count_replaceFirst s t nt (f.bb bb).succ ht
  have hq : (if s = nt then (f.bb s).pred ++ [bb] else (f.bb s).pred).count bb =
      (f.bb s).pred.count bb + (if s = nt then 1 else 0) := by
    by_cases h2 : s = nt
    · simp [h2]
    · simp [h2]
  have hp : (if s = t then
        (if s = nt then (f.bb s).pred ++ [bb] else (f.bb s).pred).erase bb
      else (if s = nt then (f.bb s).pred ++ [bb] else (f.bb s).pred)).count bb =
      (if s = nt then (f.bb s).pred ++ [bb] else (f.bb s).pred).count bb -
        (if s = t then 1 else 0) := by
    by_cases h1 : s = t
    · simp only [h1, if_true, List.count_erase_self]
    · simp only [h1, if_false, Nat.sub_zero]
  rw [hp, hq, if_pos trivial]
  by_cases hst : s = t
  · subst hst
    simp only [if_true] at hc ⊢
    omega
  · simp only [hst, if_false] at hc ⊢
    omega

theorem mutual_of_EdgesMutual (f : MeFunction) (h : f.EdgesMutual = true) :
    SuccInRange f ∧ ∀ x s : BBId, (f.bb x).succ.count s = (f.bb s).pred.count x := by
  unfold MeFunction.EdgesMutual at h
  rw [List.all_eq_true] at h
  have hall : ∀ x, x < f.heap.length →
      (∀ s ∈ (f.bb x).succ, s < f.heap.length) ∧ (∀ p ∈ (f.bb x).pred, p < f.heap.length) ∧
      ∀ s, s < f.heap.length → (f.bb x).succ.count s = (f.bb s).pred.count x := by
    intro x hx
    have hx2 := h x (List.mem_range.mpr hx)
    simp only [Bool.and_eq_true, List.all_eq_true, decide_eq_true_eq, List.mem_range,
      beq_iff_eq] at hx2
    exact ⟨hx2.1.1, hx2.1.2, hx2.2⟩
  have hdS : ∀ x, f.heap.length ≤ x → (f.bb x).succ = [] := by
    intro x hx
    rw [bb_default_of_ge f x hx]
    rfl
  have hdP : ∀ x, f.heap.length ≤ x → (f.bb x).pred = [] := by
    intro x hx
    rw [bb_default_of_ge f x hx]
    rfl
  refine ⟨?_, ?_⟩
  · intro x s hs
    by_cases hx : x < f.heap.length
    · exact (hall x hx).1 s hs
    · rw [hdS x (Nat.le_of_not_lt hx)] at hs
      cases hs
  · intro x s
    by_cases hx : x < f.heap.length
    · by_cases hs : s < f.heap.length
      · exact (hall x hx).2.2 s hs
      · rw [hdP s (Nat.le_of_not_lt hs), List.count_nil]
        exact List.count_eq_zero_of_not_mem (fun hm => hs ((hall x hx).1 s hm))
    · rw [hdS x (Nat.le_of_not_lt hx), List.count_nil]
      by_cases hs : s < f.heap.length
      · exact (List.count_eq_zero_of_not_mem (fun hm => hx ((hall s hs).2.1 x hm))).symm
      · rw [hdP s (Nat.le_of_not_lt hs), List.count_nil]

theorem Retargeted_branchLabelOK (f : MeFunction) (b t nt : BBId) (st0 : Stmt)
    (hlast : (f.bb b).stmts.getLast? = some st0) (hnt : nt < f.heap.length)
    (hc : 0 < f.labelCount) : BranchLabelOK (Retargeted f b t nt) b nt := by
  refine ⟨{ st0 with offset := (GetOrCreateBBLabel f nt).1 }, ?_, ?_, ?_⟩
  · rw [Retargeted_stmts, if_pos rfl, getLast?_modifyLast, hlast]
    rfl
  · rw [Retargeted_bbLabel, GetOrCreateBBLabel_label f nt hnt]
  · rw [Retargeted_bbLabel, GetOrCreateBBLabel_label f nt hnt]
    exact GetOrCreateBBLabel_fst_ne_zero f nt hc

/-- One iteration of the loop of `OptimizeBranchTarget(b)` that bypasses `t`
for `nt` leads from a state of the loop to a state of the loop, and the
fall-through successor it leaves alone afterwards was left alone before and is
not `t`. -/
theorem ThreadState_step (f : MeFunction) (b t nt : BBId)
    (hst : ThreadState f b) (hrange : SuccInRange f) (hc : 0 < f.labelCount)
    (hget : GetSucc (f.bb b) (BrTargetIdx (f.bb b)) = Except.ok t)
    (hth : Threads f b t = true) (hnt : NewTargetBB (f.bb t) = Except.ok nt) :
    ThreadState (Retargeted f b t nt) b ∧
    (∀ x, FallthruKept (Retargeted f b t nt) b x → FallthruKept f b x ∧ x ≠ t) := by
  have hntlt : nt < f.heap.length := hrange t nt (NewTargetBB_mem _ _ hnt)
  have hsh := Retargeted_sameShape f b t nt
  have hkind : ((Retargeted f b t nt).bb b).kind = (f.bb b).kind := (hsh.2.2 b).1
  have hsucc : ((Retargeted f b t nt).bb b).succ = replaceFirst (f.bb b).succ t nt := by
    rw [Retargeted_succ, if_pos rfl]
  rw [GetSucc_eq_ok] at hget
  rcases hst with ⟨hk, s, hs, st0, hlast, _, _⟩ | ⟨hk, s0, s1, hs, hcls⟩
  · have hidx : BrTargetIdx (f.bb b) = 0 := by simp [BrTargetIdx, hk]
    rw [hidx, hs] at hget
    simp at hget
    subst hget
    have hsucc2 : ((Retargeted f b s nt).bb b).succ = [nt] := by
      rw [hsucc, hs]
      simp [replaceFirst]
    refine ⟨Or.inl ⟨hkind.trans hk, nt, hsucc2,
      Retargeted_branchLabelOK f b s nt st0 hlast hntlt hc⟩, ?_⟩
    intro x hx
    have := hx.1
    rw [hkind, hk] at this
    cases this
  · have hidx : BrTargetIdx (f.bb b) = 1 := by simp [BrTargetIdx, hk]
    rw [hidx, hs] at hget
    simp at hget
    subst hget
    have hlastE : ∃ st0, (f.bb b).stmts.getLast? = some st0 := by
      rcases hcls with ⟨st0, h1, _⟩ | ⟨_, _, _, st0, h1, _⟩
      · exact ⟨st0, h1⟩
      · exact ⟨st0, h1⟩
    obtain ⟨st0, hlast⟩ := hlastE
    have hlab := Retargeted_branchLabelOK f b s1 nt st0 hlast hntlt hc
    have htb : s1 ≠ b := Threads_ne_self f b s1 hk hth
    have hth2 : Threads (Retargeted f b s1 nt) b s1 = true := by
      rw [Threads_congr b f _ hsh s1]
      exact hth
    have hnt2 : NewTargetBB ((Retargeted f b s1 nt).bb s1) = Except.ok nt := by
      rw [NewTargetBB_congr (f.bb s1) _ (hsh.2.2 s1).1 ((hsh.2.2 s1).2.2.2 htb)]
      exact hnt
    by_cases h0 : s0 = s1
    · subst h0
      have hsucc2 : ((Retargeted f b s0 nt).bb b).succ = [nt, s0] := by
        rw [hsucc, hs]
        simp [replaceFirst]
      refine ⟨Or.inr ⟨hkind.trans hk, nt, s0, hsucc2, ?_⟩, ?_⟩
      · by_cases hn : nt = s0
        · have e : ((Retargeted f b s0 nt).bb nt).bbLabel = ((Retargeted f b s0 nt).bb s0).bbLabel := by
            rw [hn]
          obtain ⟨st, a1, a2, a3⟩ := hlab
          exact Or.inl ⟨st, a1, a2.trans e, fun h => a3 (e.trans h)⟩
        · exact Or.inr ⟨hn, hth2, hnt2, hlab⟩
      · intro x hx
        exfalso
        obtain ⟨_, y, hy, _, hno⟩ := hx
        rw [hsucc2] at hy
        simp only [List.cons.injEq, and_true] at hy
        obtain ⟨e1, e2⟩ := hy
        subst e1
        subst e2
        exact hno ⟨hth2, hnt2⟩
    · have hsucc2 : ((Retargeted f b s1 nt).bb b).succ = [s0, nt] := by
        rw [hsucc, hs]
        simp [replaceFirst, h0]
      refine ⟨Or.inr ⟨hkind.trans hk, s0, nt, hsucc2, Or.inl hlab⟩, ?_⟩
      intro x hx
      obtain ⟨_, y, hy, hxy, _⟩ := hx
      rw [hsucc2] at hy
      simp only [List.cons.injEq, and_true] at hy
      obtain ⟨e1, e2⟩ := hy
      subst e1
      subst e2
      refine ⟨⟨hk, s1, hs, h0, ?_⟩, h0⟩
      rintro ⟨_, hn⟩
      rw [hnt] at hn
      cases hn
      exact hxy rfl

/-- What holds when the loop of `OptimizeBranchTarget(b)` returns, from any
state of the loop whose edges out of `b` are mutual. -/
theorem OptimizeBranchTargetLoopLog_post (b : BBId) :
    ∀ (fuel : Nat) (l l2 : BBLayout) (log : List BBId),
      ThreadState l.func b → OutEdgesMutual l.func b → SuccInRange l.func →
      0 < l.func.labelCount →
      OptimizeBranchTargetLoopLog fuel l b = Except.ok (l2, log) →
      (∃ s, (l2.func.bb b).succ[BrTargetIdx (l2.func.bb b)]? = some s ∧
        BranchLabelOK l2.func b s) ∧
      OutEdgesMutual l2.func b ∧ SameShape b l.func l2.func ∧
      (∀ x ∈ (l2.func.bb b).succ, Threads l.func b x = true → FallthruKept l.func b x) ∧
      (∀ t ∈ log, t ∉ (l2.func.bb b).succ) := by
  intro fuel
  induction fuel with
  | zero =>
    intro l l2 log _ _ _ _ h
    cases h
  | succ fuel ih =>
    intro l l2 log hst hmut hrange hc h
    rw [OptimizeBranchTargetLoopLog, bind_eq_ok_iff] at h
    obtain ⟨r, hr, h⟩ := h
    cases r with
    | none =>
      simp only [Except.ok.injEq, Prod.mk.injEq] at h
      obtain ⟨e1, e2⟩ := h
      subst e1
      subst e2
      obtain ⟨t, hget, hnth⟩ := RetargetBranch_none l b hr
      rw [GetSucc_eq_ok] at hget
      refine ⟨?_, hmut, SameShape_refl _ _, ?_, fun _ h => by cases h⟩
      · rcases hst with ⟨hk, s, hs, hlab⟩ | ⟨hk, s0, s1, hs, hcls⟩
        · have hidx : BrTargetIdx (l.func.bb b) = 0 := by simp [BrTargetIdx, hk]
          exact ⟨s, by rw [hidx, hs]; rfl, hlab⟩
        · have hidx : BrTargetIdx (l.func.bb b) = 1 := by simp [BrTargetIdx, hk]
          rw [hidx, hs] at hget
          simp at hget
          subst hget
          rcases hcls with hlab | ⟨_, hthr, _, _⟩
          · exact ⟨s1, by rw [hidx, hs]; rfl, hlab⟩
          · rw [hnth] at hthr
            cases hthr
      · intro x hx hthx
        rcases hst with ⟨hk, s, hs, _⟩ | ⟨hk, s0, s1, hs, _⟩
        · have hidx : BrTargetIdx (l.func.bb b) = 0 := by simp [BrTargetIdx, hk]
          rw [hidx, hs] at hget
          simp at hget
          subst hget
          rw [hs] at hx
          simp at hx
          subst hx
          rw [hnth] at hthx
          cases hthx
        · have hidx : BrTargetIdx (l.func.bb b) = 1 := by simp [BrTargetIdx, hk]
          rw [hidx, hs] at hget
          simp at hget
          subst hget
          rw [hs] at hx
          simp at hx
          rcases hx with hx | hx
          · subst hx
            by_cases hne : x = s1
            · subst hne
              rw [hnth] at hthx
              cases hthx
            · refine ⟨hk, s1, hs, hne, ?_⟩
              rintro ⟨h1, _⟩
              rw [hnth] at h1
              cases h1
          · subst hx
            rw [hnth] at hthx
            cases hthx
    | some p =>
      obtain ⟨t, l4⟩ := p
      obtain ⟨hget, hth, nt, hnt, hl4⟩ := RetargetBranch_some l b t l4 hr
      simp only [] at h
      have key : ∃ (l5 : BBLayout) (r : BBLayout × List BBId) (v : List (Option BBId)),
          l5.func = { Retargeted l.func b t nt with bbVec := v } ∧
          OptimizeBranchTargetLoopLog fuel l5 b = Except.ok r ∧ r.1 = l2 ∧ t :: r.2 = log := by
        split at h
        · rw [bind_eq_ok_iff] at h
          obtain ⟨l5, h5, h⟩ := h
          rw [bind_eq_ok_iff] at h
          obtain ⟨r, hrec, h⟩ := h
          simp only [Except.ok.injEq, Prod.mk.injEq] at h
          obtain ⟨v, hv⟩ := RemoveUnreachable_onlyTable _ _ _ _ h5
          refine ⟨l5, r, v, ?_, hrec, h.1, h.2⟩
          rw [hv, hl4]
          rfl
        · rw [bind_eq_ok_iff] at h
          obtain ⟨l5, h5, h⟩ := h
          rw [bind_eq_ok_iff] at h
          obtain ⟨r, hrec, h⟩ := h
          simp only [Except.ok.injEq, Prod.mk.injEq] at h
          cases h5
          refine ⟨l4, r, (Retargeted l.func b t nt).bbVec, ?_, hrec, h.1, h.2⟩
          rw [hl4]
      obtain ⟨l5, r, v, hv, hrec, e1, e2⟩ := key
      subst e1
      subst e2
      have hntlt : nt < l.func.heap.length := hrange t nt (NewTargetBB_mem _ _ hnt)
      have htmem : t ∈ (l.func.bb b).succ := List.getElem?_mem ((GetSucc_eq_ok _ _ _).mp hget)
      obtain ⟨hst4, hkept⟩ := ThreadState_step l.func b t nt hst hrange hc hget hth hnt
      have hmut4 := Retargeted_outEdges l.func b t nt hmut htmem hntlt
      have hsh4 := Retargeted_sameShape l.func b t nt
      have hrange4 : SuccInRange (Retargeted l.func b t nt) := by
        intro x s hs
        rw [Retargeted_length]
        rw [Retargeted_succ] at hs
        split at hs
        · rcases mem_replaceFirst _ _ _ _ hs with e | e
          · exact hrange x s e
          · rw [e]
            exact hntlt
        · exact hrange x s hs
      have hc4 : 0 < (Retargeted l.func b t nt).labelCount :=
        Nat.lt_of_lt_of_le hc (Retargeted_labelCount l.func b t nt)
      have hst5 : ThreadState l5.func b := by
        rw [hv]
        exact hst4
      have hmut5 : OutEdgesMutual l5.func b := by
        rw [hv]
        exact hmut4
      have hrange5 : SuccInRange l5.func := by
        rw [hv]
        exact hrange4
      have hc5 : 0 < l5.func.labelCount := by
        rw [hv]
        exact hc4
      have hsh5 : SameShape b l.func l5.func := by
        rw [hv]
        exact hsh4
      obtain ⟨p1, p2, p3, p4, p5⟩ := ih l5 r.1 r.2 hst5 hmut5 hrange5 hc5 hrec
      have hk5 : ∀ x, FallthruKept l5.func b x → FallthruKept l.func b x ∧ x ≠ t := by
        intro x hx
        rw [hv] at hx
        exact hkept x hx
      refine ⟨p1, p2, SameShape_trans hsh5 p3, ?_, ?_⟩
      · intro x hx hthx
        have hthx5 : Threads l5.func b x = true := by
          rw [Threads_congr b l.func l5.func hsh5 x]
          exact hthx
        exact (hk5 x (p4 x hx hthx5)).1
      · intro y hy
        rcases List.mem_cons.mp hy with e | e
        · subst e
          intro hmem
          have hthx5 : Threads l5.func b y = true := by
            rw [Threads_congr b l.func l5.func hsh5 y]
            exact hth
          exact (hk5 y (p4 y hmem hthx5)).2 rfl
        · exact p5 y e

/-- The instrumented loop computes the state of the loop of `OptimizeBranchTarget`. -/
theorem OptimizeBranchTargetLoopLog_fst (bb : BBId) :
    ∀ (fuel : Nat) (l : BBLayout),
      (OptimizeBranchTargetLoopLog fuel l bb).map Prod.fst = OptimizeBranchTargetLoop fuel l bb := by
  intro fuel
  induction fuel with
  | zero =>
    intro l
    rfl
  | succ n ih =>
    intro l
    rw [OptimizeBranchTargetLoopLog, OptimizeBranchTargetLoop]
    cases hr : RetargetBranch l bb with
    | error e => rfl
    | ok o =>
      cases o with
      | none => rfl
      | some p =>
        obtain ⟨t, l4⟩ := p
        simp only [bind_ok_eq]
        by_cases hc : (l4.func.bb t).pred.isEmpty = true
        · simp only [if_pos hc]
          cases h5 : RemoveUnreachable n (l4.SetLaidOut (l4.func.bb t).id) t with
          | error e => rfl
          | ok l5 =>
            simp only [bind_ok_eq]
            rw [← ih l5]
            cases OptimizeBranchTargetLoopLog n l5 bb <;> rfl
        · simp only [if_neg hc, bind_ok_eq]
          rw [← ih l4]
          cases OptimizeBranchTargetLoopLog n l4 bb <;> rfl

/-- The instrumented rewriter computes the state of `OptimizeBranchTarget`. -/
theorem OptimizeBranchTargetLog_fst (fuel : Nat) (l : BBLayout) (bb : BBId) :
    (OptimizeBranchTargetLog fuel l bb).map Prod.fst = OptimizeBranchTarget fuel l bb := by
  unfold OptimizeBranchTargetLog OptimizeBranchTarget
  split
  · rfl
  · split
    · rfl
    · exact OptimizeBranchTargetLoopLog_fst bb fuel l

/-- A `Goto` or `CondGoto` block whose kind fits and whose branch records the
label of its labeled successor is in a state of the loop, and ends in a goto
or conditional branch. -/
theorem ThreadState_of_LabelConsistent (f : MeFunction) (b : BBId)
    (hfit : KindFits (f.bb b) = true) (hlab : LabelConsistent f (f.bb b) = true)
    (hkind : (f.bb b).kind = BBKind.kBBGoto ∨ (f.bb b).kind = BBKind.kBBCondGoto) :
    ThreadState f b ∧
    ∃ st, (f.bb b).stmts.getLast? = some st ∧
      (st.op != Opcode.OP_goto && !st.IsCondBr) = false := by
  unfold KindFits at hfit
  unfold LabelConsistent at hlab
  rcases hkind with hk | hk
  · rw [hk] at hfit
    simp only [Bool.and_eq_true, beq_iff_eq] at hfit
    obtain ⟨hlen, hl⟩ := hfit
    cases hlast : (f.bb b).stmts.getLast? with
    | none =>
      rw [hlast] at hl
      cases hl
    | some st =>
      rw [hlast] at hl hlab
      simp only [beq_iff_eq] at hl
      have hidx : BrTargetIdx (f.bb b) = 0 := by simp [BrTargetIdx, hk]
      have hop : (st.op == Opcode.OP_goto) = true := by simp [hl]
      simp only [hop, Bool.true_or, if_true, hidx] at hlab
      cases hs : (f.bb b).succ with
      | nil =>
        rw [hs] at hlen
        cases hlen
      | cons s r =>
        rw [hs] at hlen hlab
        cases r with
        | cons _ _ => simp at hlen
        | nil =>
          simp only [List.getElem?_cons_zero, Bool.and_eq_true, beq_iff_eq, bne_iff_ne] at hlab
          exact ⟨Or.inl ⟨hk, s, hs, st, hlast, hlab.1, hlab.2⟩, st, rfl, by simp [hl]⟩
  · rw [hk] at hfit
    simp only [Bool.and_eq_true, beq_iff_eq] at hfit
    obtain ⟨hlen, hl⟩ := hfit
    cases hlast : (f.bb b).stmts.getLast? with
    | none =>
      rw [hlast] at hl
      cases hl
    | some st =>
      rw [hlast] at hl hlab
      simp only [] at hl
      have hidx : BrTargetIdx (f.bb b) = 1 := by simp [BrTargetIdx, hk]
      simp only [hl, Bool.or_true, if_true, hidx] at hlab
      cases hs : (f.bb b).succ with
      | nil =>
        rw [hs] at hlen
        cases hlen
      | cons s0 r =>
        rw [hs] at hlen hlab
        cases r with
        | nil => simp at hlen
        | cons s1 r2 =>
          cases r2 with
          | cons _ _ => simp at hlen
          | nil =>
            simp only [List.getElem?_cons_succ, List.getElem?_cons_zero, Bool.and_eq_true,
              beq_iff_eq, bne_iff_ne] at hlab
            exact ⟨Or.inr ⟨hk, s0, s1, hs, Or.inl ⟨st, hlast, hlab.1, hlab.2⟩⟩, st, rfl,
              by simp [hl]⟩

theorem LabelConsistent_of_branchLabelOK (f : MeFunction) (b s : BBId)
    (hs : (f.bb b).succ[BrTargetIdx (f.bb b)]? = some s) (h : BranchLabelOK f b s) :
    LabelConsistent f (f.bb b) = true := by
  obtain ⟨st, h1, h2, h3⟩ := h
  unfold LabelConsistent
  rw [h1]
  simp only [hs]
  split
  · simp [h2, h3]
  · rfl

/-- C17.  `OptimizeBranchTarget` keeps label consistency and edge mutuality.
Let the edges of the function be mutual, let `b` be a `Goto` or `CondGoto`
block whose kind fits (so it ends in a goto or a conditional branch) and whose
branch records the label of its labeled successor, and let the label
allocator be past the null label.  Whenever `OptimizeBranchTarget(b)` returns
a state `l2`, the instrumented rewriter returns the same state with the list
`log` of the blocks that were bypassed, and: the branch of `b` records the
label of the labeled successor of `b` (`successors[1]` for `CondGoto`,
`successors[0]` for `Goto`), which is minted; `b` is in the predecessor list
of that successor; `b` is in the predecessor list of no bypassed block; and
every edge of the function is recorded as often in the successor list of its
source as in the predecessor list of its target.  The two successors of a
`CondGoto` block may be the same block. -/
theorem OptimizeBranchTarget_keeps_label_and_edges (fuel : Nat) (l l2 : BBLayout) (b : BBId)
    (hmut : l.func.EdgesMutual = true) (hfit : KindFits (l.func.bb b) = true)
    (hlab : LabelConsistent l.func (l.func.bb b) = true) (hcnt : 0 < l.func.labelCount)
    (hkind : (l.func.bb b).kind = BBKind.kBBGoto ∨ (l.func.bb b).kind = BBKind.kBBCondGoto)
    (hobt : OptimizeBranchTarget fuel l b = Except.ok l2) :
    ∃ log, OptimizeBranchTargetLog fuel l b = Except.ok (l2, log) ∧
      LabelConsistent l2.func (l2.func.bb b) = true ∧
      (∃ s st, (l2.func.bb b).succ[BrTargetIdx (l2.func.bb b)]? = some s ∧
        (l2.func.bb b).stmts.getLast? = some st ∧ st.offset = (l2.func.bb s).bbLabel ∧
        (l2.func.bb s).bbLabel ≠ 0 ∧ b ∈ (l2.func.bb s).pred) ∧
      (∀ t ∈ log, b ∉ (l2.func.bb t).pred) ∧
      (∀ x s : BBId, (l2.func.bb x).succ.count s = (l2.func.bb s).pred.count x) := by
  have hlogE : ∃ log, OptimizeBranchTargetLog fuel l b = Except.ok (l2, log) := by
    have e := OptimizeBranchTargetLog_fst fuel l b
    rw [hobt] at e
    cases hq : OptimizeBranchTargetLog fuel l b with
    | error err =>
      rw [hq] at e
      cases e
    | ok r =>
      rw [hq] at e
      obtain ⟨a, lg⟩ := r
      simp only [Except.map, Except.ok.injEq] at e
      subst e
      exact ⟨lg, rfl⟩
  obtain ⟨log, hret⟩ := hlogE
  obtain ⟨hrange, hfull⟩ := mutual_of_EdgesMutual l.func hmut
  obtain ⟨hst, st0, hlast, hop⟩ := ThreadState_of_LabelConsistent l.func b hfit hlab hkind
  have hloop : OptimizeBranchTargetLoopLog fuel l b = Except.ok (l2, log) := by
    unfold OptimizeBranchTargetLog at hret
    rw [hlast] at hret
    simp only [hop] at hret
    exact hret
  have hframe := OptimizeBranchTarget_frame fuel l l2 b hobt
  obtain ⟨⟨s, hs, hok⟩, hm2, _, _, hlog⟩ :=
    OptimizeBranchTargetLoopLog_post b fuel l l2 log hst (fun s => (hfull b s).symm) hrange hcnt
      hloop
  refine ⟨log, hret, LabelConsistent_of_branchLabelOK _ b s hs hok, ?_, ?_, ?_⟩
  · obtain ⟨st, h1, h2, h3⟩ := hok
    refine ⟨s, st, hs, h1, h2, h3, ?_⟩
    have hmem : s ∈ (l2.func.bb b).succ := List.getElem?_mem hs
    have hpos : 0 < (l2.func.bb s).pred.count b := by
      rw [hm2 s]
      exact List.count_pos_iff.mpr hmem
    exact List.count_pos_iff.mp hpos
  · intro t ht hmem
    have hpos : 0 < (l2.func.bb t).pred.count b := List.count_pos_iff.mpr hmem
    rw [hm2 t] at hpos
    exact hlog t ht (List.count_pos_iff.mp hpos)
  · intro x s
    by_cases hx : x = b
    · rw [hx]
      exact (hm2 s).symm
    · rw [(hframe.1.2.2 x).2.2.2 hx, hframe.2 s x hx]
      exact hfull x s

/-- C17, on `twinSuccCFG` without assertions: block 0 is a `CondGoto` block
whose two successors are the trivial goto block 1.  `OptimizeBranchTarget(0)`
returns after bypassing block 1 twice: both successors of block 0 are block 2,
whose label 3 the branch records, block 2 has block 0 twice as a predecessor
and block 1 has no predecessor left.  On `joinCFG` without assertions the call
bypasses block 2 and then block 1 twice, and both successors of block 0 end
up as block 3, whose label 4 the branch records. -/
theorem OptimizeBranchTarget_keeps_label_and_edges_witness :
    (twinSuccCFG false).WellFormed = true ∧
    (OptimizeBranchTargetLog 20 (BBLayout.new (twinSuccCFG false)) 0).map (fun r => r.2) =
      Except.ok [1, 1] ∧
    (joinCFG false).WellFormed = true ∧
    (OptimizeBranchTargetLog 20 (BBLayout.new (joinCFG false)) 0).map (fun r =>
        (r.2, (r.1.func.bb 0).succ, (r.1.func.bb 0).stmts, (r.1.func.bb 3).bbLabel,
          (r.1.func.bb 1).pred, (r.1.func.bb 2).pred, (r.1.func.bb 3).pred)) =
      Except.ok ([2, 1, 1], [3, 3], [condStmt Opcode.OP_brtrue 4 aGt3], 4, [2], [], [1, 0, 0]) ∧
    ∃ l2,
      OptimizeBranchTarget 20 (BBLayout.new (twinSuccCFG false)) 0 = Except.ok l2 ∧
      (l2.func.bb 0).succ = [2, 2] ∧
      (l2.func.bb 0).stmts = [condStmt Opcode.OP_brtrue 3 aGt3] ∧
      (l2.func.bb 2).bbLabel = 3 ∧
      (l2.func.bb 1).pred = [] ∧ (l2.func.bb 2).pred = [1, 0, 0] ∧
      ∃ log, OptimizeBranchTargetLog 20 (BBLayout.new (twinSuccCFG false)) 0 =
          Except.ok (l2, log) ∧
        LabelConsistent l2.func (l2.func.bb 0) = true ∧
        (∃ s st, (l2.func.bb 0).succ[BrTargetIdx (l2.func.bb 0)]? = some s ∧
          (l2.func.bb 0).stmts.getLast? = some st ∧ st.offset = (l2.func.bb s).bbLabel ∧
          (l2.func.bb s).bbLabel ≠ 0 ∧ 0 ∈ (l2.func.bb s).pred) ∧
        (∀ t ∈ log, 0 ∉ (l2.func.bb t).pred) ∧
        (∀ x s : BBId, (l2.func.bb x).succ.count s = (l2.func.bb s).pred.count x) :=
  ⟨by decide, by rfl, by decide, by rfl, _, rfl, rfl, rfl, rfl, rfl, rfl,
    OptimizeBranchTarget_keeps_label_and_edges 20 (BBLayout.new (twinSuccCFG false)) _ 0
      (by rfl) (by rfl) (by rfl) (by decide) (Or.inr rfl) rfl⟩

/-! ## Scenarios S1 and S2 through the driver -/

theorem RetargetBranch_Return_target (l : BBLayout) (b t : BBId)
    (ht : GetSucc (l.func.bb b) (BrTargetIdx (l.func.bb b)) = Except.ok t)
    (hk : (l.func.bb t).kind = BBKind.kBBReturn) :
    RetargetBranch l b = Except.ok none := by
  by_cases hw : (l.func.bb t).GetAttributes BBAttr.kBBAttrWontExit = true
  · exact RetargetBranch_stops l b t ht (Or.inl hw)
  · apply RetargetBranch_stops l b t ht
    right
    unfold ThreadThrough BBContainsOnlyGoto BBEmptyAndFallthru
    simp [hk]

theorem ite_bind_eq {α β : Type} (c : Prop) [Decidable c] (a b : Res α) (g : α → Res β) :
    (if c then a >>= g else b >>= g) = ((if c then a else b) >>= g) := by
  split <;> rfl

/-- The body of the loop of `Run` as a sequence of six steps. -/
theorem RunLoop_succ (fuel : Nat) (l : BBLayout) (bb : BBId) :
    RunLoop (fuel + 1) l (some bb) =
      (AddBB l bb >>= fun l1 =>
        (if (l1.func.bb bb).kind == BBKind.kBBCondGoto || (l1.func.bb bb).kind == BBKind.kBBGoto
          then OptimizeBranchTarget fuel l1 bb else Except.ok l1) >>= fun l2 =>
        CheckTryEndTry (NextBB l2).2 (NextBB l2).1 >>= fun _ =>
        (if ((NextBB l2).2.func.bb bb).kind == BBKind.kBBFallthru then
            ResolveUnconditionalFallThru fuel (NextBB l2).2 bb (NextBB l2).1
          else if ((NextBB l2).2.func.bb bb).kind == BBKind.kBBCondGoto then
            RunCondGoto fuel (NextBB l2).2 bb (NextBB l2).1
          else Except.ok (NextBB l2).2) >>= fun l4 =>
        (if (l4.func.bb bb).kind == BBKind.kBBGoto then RunGoto fuel l4 bb (NextBB l2).1
          else Except.ok l4) >>= fun l5 =>
        RunLoop fuel
          (match (NextBB l2).1 with
            | some nb =>
              if l5.IsBBLaidOut (l5.func.bb nb).id then NextBB l5 else ((NextBB l2).1, l5)
            | none => ((NextBB l2).1, l5)).2
          (match (NextBB l2).1 with
            | some nb =>
              if l5.IsBBLaidOut (l5.func.bb nb).id then NextBB l5 else ((NextBB l2).1, l5)
            | none => ((NextBB l2).1, l5)).1) := by
  rw [RunLoop]
  congr 1
  funext l1
  dsimp only
  rw [ite_bind_eq]
  congr 1
  funext l2
  congr 1
  funext _
  rw [ite_bind_eq, ite_bind_eq]
  congr 1
  funext l4
  rw [ite_bind_eq]

/-- One iteration of the loop of `Run`, cut into its six steps. -/
theorem RunLoop_step (fuel : Nat) (l l1 l2 l3 l4 l5 : BBLayout) (bb : BBId) (nextBB : Option BBId)
    (h1 : AddBB l bb = Except.ok l1)
    (h2 : (if (l1.func.bb bb).kind == BBKind.kBBCondGoto || (l1.func.bb bb).kind == BBKind.kBBGoto
      then OptimizeBranchTarget fuel l1 bb else Except.ok l1) = Except.ok l2)
    (h3 : NextBB l2 = (nextBB, l3))
    (h4 : CheckTryEndTry l3 nextBB = Except.ok ())
    (h5 : (if (l3.func.bb bb).kind == BBKind.kBBFallthru then
        ResolveUnconditionalFallThru fuel l3 bb nextBB
      else if (l3.func.bb bb).kind == BBKind.kBBCondGoto then RunCondGoto fuel l3 bb nextBB
      else Except.ok l3) = Except.ok l4)
    (h6 : (if (l4.func.bb bb).kind == BBKind.kBBGoto then RunGoto fuel l4 bb nextBB
      else Except.ok l4) = Except.ok l5) :
    RunLoop (fuel + 1) l (some bb) =
      RunLoop fuel
        (match nextBB with
          | some nb => if l5.IsBBLaidOut (l5.func.bb nb).id then NextBB l5 else (nextBB, l5)
          | none => (nextBB, l5)).2
        (match nextBB with
          | some nb => if l5.IsBBLaidOut (l5.func.bb nb).id then NextBB l5 else (nextBB, l5)
          | none => (nextBB, l5)).1 := by
  rw [RunLoop_succ, h1, bind_ok_eq, h2, bind_ok_eq, h3]
  simp only []
  rw [h4, bind_ok_eq, h5, bind_ok_eq, h6, bind_ok_eq]

theorem AddBB_plain (l : BBLayout) (bb : BBId)
    (hid : (l.func.bb bb).id < l.laidOut.length)
    (hnot : l.IsBBLaidOut (l.func.bb bb).id = false)
    (htry : FrontIsTry (l.func.bb bb) = false) (hto : l.tryOutstanding = false) :
    AddBB l bb = Except.ok { l with
      layoutBBs := l.layoutBBs ++ [bb], laidOut := l.laidOut.set (l.func.bb bb).id true } := by
  unfold AddBB
  simp only [hid, not_true_eq_false, decide_False, decide_True, Bool.not_true, Bool.false_eq_true,
    if_false, ASSERT, hnot, Bool.not_false, Bool.and_false, bind_ok_eq, htry]
  split
  · rw [← hto]
  · rfl

theorem CheckTryEndTry_plain (l : BBLayout) (nb : BBId)
    (htry : FrontIsTry (l.func.bb nb) = false)
    (hend : (l.func.bb nb).GetAttributes BBAttr.kBBAttrIsTryEnd = false) :
    CheckTryEndTry l (some nb) = Except.ok () := by
  unfold CheckTryEndTry
  simp [ASSERT, htry, hend, bind_ok_eq]

theorem GetFallThruBBSkippingEmpty_stops (fuel : Nat) (l : BBLayout) (bb ft : BBId)
    (hkind : (l.func.bb bb).kind = BBKind.kBBFallthru ∨ (l.func.bb bb).kind = BBKind.kBBCondGoto)
    (hsucc : (l.func.bb bb).succ.head? = some ft)
    (hstop : 1 < (l.func.bb ft).pred.length ∨
      (l.func.bb ft).GetAttributes BBAttr.kBBAttrIsTryEnd = true ∨ (l.func.bb ft).IsEmpty = false) :
    GetFallThruBBSkippingEmpty (fuel + 1) l bb = Except.ok (ft, l) := by
  unfold GetFallThruBBSkippingEmpty SuccFront
  have hk : ((l.func.bb bb).kind == BBKind.kBBFallthru ||
      (l.func.bb bb).kind == BBKind.kBBCondGoto) = true := by
    rcases hkind with h | h <;> simp [h]
  have hne : (l.func.bb bb).succ.isEmpty = false := by
    cases hs : (l.func.bb bb).succ with
    | nil => rw [hs] at hsucc; cases hsucc
    | cons a r => rfl
  simp only [ASSERT, hk, hne, Bool.not_true, Bool.not_false, Bool.and_false, Bool.false_eq_true,
    if_false, bind_ok_eq, hsucc]
  rw [GetFallThruBBSkippingEmptyLoop]
  rcases hstop with h | h | h
  · simp [h]
  · simp [h]
  · simp [h]

/-- In scenario S2 the driver lays out the three blocks in source order and
changes nothing in the function. -/
theorem Run_condReturns_eq (k : Nat) (f : MeFunction) (h : CondReturnsShape f) :
    Run (k + 3) f = Except.ok
      { func := f, layoutBBs := [0, 1, 2], laidOut := [true, true, true],
        tryOutstanding := false, newBBInLayout := false, curBBId := 3 } := by
  obtain ⟨hvec, hid, hA, hF, hT, htry, hend⟩ := h
  obtain ⟨hkA, hsA, hbr⟩ := hA
  obtain ⟨br, hlast, hcond⟩ : ∃ br, (f.bb 0).stmts.getLast? = some br ∧ br.IsCondBr = true := by
    cases hl : (f.bb 0).stmts.getLast? with
    | none => rw [hl] at hbr; cases hbr
    | some br =>
      rw [hl] at hbr
      simp only [Option.map_some', Option.some.injEq] at hbr
      exact ⟨br, rfl, hbr⟩
  obtain ⟨he1, he2⟩ := hend
  obtain ⟨hid0, hid1, hid2⟩ := hid
  obtain ⟨hkF, heF, hpF⟩ := hF
  obtain ⟨ht0, ht1, ht2⟩ := htry
  have hobt : ∀ (l : BBLayout), l.func = f → OptimizeBranchTarget (k + 2) l 0 = Except.ok l := by
    intro l hl
    unfold OptimizeBranchTarget
    rw [hl, hlast]
    simp only [hcond, Bool.not_true, Bool.and_false, Bool.false_eq_true, if_false]
    rw [OptimizeBranchTargetLoop, RetargetBranch_Return_target l 0 2]
    · rfl
    · rw [hl, GetSucc_eq_ok]
      simp [BrTargetIdx, hkA, hsA]
    · rw [hl]
      exact hT
  have hcg : ∀ (l : BBLayout), l.func = f → RunCondGoto (k + 2) l 0 (some 1) = Except.ok l := by
    intro l hl
    have hg := GetFallThruBBSkippingEmpty_stops (k + 1) l 0 1
      (Or.inr (by rw [hl]; exact hkA)) (by rw [hl, hsA]; rfl)
      (Or.inr (Or.inr (by rw [hl]; exact heF)))
    unfold RunCondGoto
    rw [hg]
    simp [hl, GetSucc, hsA, hpF, bind_ok_eq]
  unfold Run GetFirstBB
  rw [hvec]
  simp only [List.getD_cons_zero]
  have hnew : BBLayout.new f =
      { func := f, layoutBBs := [], laidOut := [false, false, false],
        tryOutstanding := false, newBBInLayout := false, curBBId := 0 } := by
    unfold BBLayout.new
    rw [hvec]
    rfl
  rw [hnew]
  rw [RunLoop_step (k + 2) _
    { func := f, layoutBBs := [0], laidOut := [true, false, false],
      tryOutstanding := false, newBBInLayout := false, curBBId := 0 }
    { func := f, layoutBBs := [0], laidOut := [true, false, false],
      tryOutstanding := false, newBBInLayout := false, curBBId := 0 }
    { func := f, layoutBBs := [0], laidOut := [true, false, false],
      tryOutstanding := false, newBBInLayout := false, curBBId := 1 }
    { func := f, layoutBBs := [0], laidOut := [true, false, false],
      tryOutstanding := false, newBBInLayout := false, curBBId := 1 }
    { func := f, layoutBBs := [0], laidOut := [true, false, false],
      tryOutstanding := false, newBBInLayout := false, curBBId := 1 } 0 (some 1)]
  rotate_left
  · rw [AddBB_plain _ 0 (by simp [hid0]) (by simp [BBLayout.IsBBLaidOut, hid0]) ht0 rfl]
    simp [hid0]
  · simp only [hkA, beq_self_eq_true, Bool.true_or, if_true]
    exact hobt _ rfl
  · simp [NextBB, NextBBScan, hvec, hid1]
  · exact CheckTryEndTry_plain _ 1 ht1 he1
  · simp only [hkA, beq_self_eq_true, if_true]
    simp only [beq_iff_eq, reduceCtorEq, if_false]
    exact hcg _ rfl
  · simp [hkA]
  simp only [BBLayout.IsBBLaidOut, hid1, List.getD_cons_succ, List.getD_cons_zero,
    Bool.false_eq_true, if_false]
  rw [RunLoop_step (k + 1) _
    { func := f, layoutBBs := [0, 1], laidOut := [true, true, false],
      tryOutstanding := false, newBBInLayout := false, curBBId := 1 }
    { func := f, layoutBBs := [0, 1], laidOut := [true, true, false],
      tryOutstanding := false, newBBInLayout := false, curBBId := 1 }
    { func := f, layoutBBs := [0, 1], laidOut := [true, true, false],
      tryOutstanding := false, newBBInLayout := false, curBBId := 2 }
    { func := f, layoutBBs := [0, 1], laidOut := [true, true, false],
      tryOutstanding := false, newBBInLayout := false, curBBId := 2 }
    { func := f, layoutBBs := [0, 1], laidOut := [true, true, false],
      tryOutstanding := false, newBBInLayout := false, curBBId := 2 } 1 (some 2)]
  rotate_left
  · rw [AddBB_plain _ 1 (by simp [hid1]) (by simp [BBLayout.IsBBLaidOut, hid1]) ht1 rfl]
    simp [hid1]
  · simp [hkF]
  · simp [NextBB, NextBBScan, hvec, hid2]
  · exact CheckTryEndTry_plain _ 2 ht2 he2
  · simp [hkF]
  · simp [hkF]
  simp only [BBLayout.IsBBLaidOut, hid2, List.getD_cons_succ, List.getD_cons_zero,
    Bool.false_eq_true, if_false]
  rw [RunLoop_step k _
    { func := f, layoutBBs := [0, 1, 2], laidOut := [true, true, true],
      tryOutstanding := false, newBBInLayout := false, curBBId := 2 }
    { func := f, layoutBBs := [0, 1, 2], laidOut := [true, true, true],
      tryOutstanding := false, newBBInLayout := false, curBBId := 2 }
    { func := f, layoutBBs := [0, 1, 2], laidOut := [true, true, true],
      tryOutstanding := false, newBBInLayout := false, curBBId := 3 }
    { func := f, layoutBBs := [0, 1, 2], laidOut := [true, true, true],
      tryOutstanding := false, newBBInLayout := false, curBBId := 3 }
    { func := f, layoutBBs := [0, 1, 2], laidOut := [true, true, true],
      tryOutstanding := false, newBBInLayout := false, curBBId := 3 } 2 none]
  rotate_left
  · rw [AddBB_plain _ 2 (by simp [hid2]) (by simp [BBLayout.IsBBLaidOut, hid2]) ht2 rfl]
    simp [hid2]
  · simp [hT]
  · simp [NextBB, NextBBScan, hvec]
  · rfl
  · simp [hT]
  · simp [hT]
  simp only []
  rw [RunLoop]

/-- C12 (amended).  In scenario S2 nothing is flipped: for every function of
the shape `CondReturnsShape` (`A` a `CondGoto` block with successors `[F, T]`,
`F` and `T` `Return` blocks in source order `A, F, T`, `F` non-empty with `A`
as its only predecessor), `Run` returns with `layoutBBs = [A, F, T]`, the
function unchanged (the branch of `A` keeps its operator and its offset) and
`newBBInLayout` false. -/
theorem Run_keeps_adjacent_fallthru (k : Nat) (f : MeFunction) (h : CondReturnsShape f) :
    ∃ l, Run (k + 3) f = Except.ok l ∧ l.layoutBBs = [0, 1, 2] ∧ l.func = f ∧
      l.newBBInLayout = false :=
  ⟨_, Run_condReturns_eq k f h, rfl, rfl, rfl⟩

theorem Run_keeps_adjacent_fallthru_witness :
    ∃ l, Run 3 condReturnsCFG = Except.ok l ∧ l.layoutBBs = [0, 1, 2] ∧
      l.func = condReturnsCFG ∧ l.newBBInLayout = false :=
  Run_keeps_adjacent_fallthru 0 condReturnsCFG
    ⟨rfl, ⟨rfl, rfl, rfl⟩, ⟨rfl, rfl, rfl⟩, ⟨rfl, rfl, rfl⟩, rfl, ⟨rfl, rfl, rfl⟩, ⟨rfl, rfl⟩⟩

/-- C12 (counterexample).  `condReturnsCFG` is scenario S2: block 0 ends in
`brtrue` with successors `[1, 2]`, blocks 1 and 2 are non-empty `Return`
blocks whose only predecessor is block 0.  `Run` does not flip the branch:
`layoutBBs` is `[0, 1, 2]`, not `[0, 2, 1]`, and block 0 still ends in
`brtrue` with the label of block 2 (3), not `brfalse` with the label of
block 1 (2). -/
theorem Run_does_not_flip_S2 :
    condReturnsCFG.WellFormed = true ∧
    ((condReturnsCFG.bb 0).succ = [1, 2] ∧ (condReturnsCFG.bb 1).pred = [0] ∧
      (condReturnsCFG.bb 2).pred = [0] ∧ (condReturnsCFG.bb 1).bbLabel = 2 ∧
      (condReturnsCFG.bb 2).bbLabel = 3) ∧
    (Run 10 condReturnsCFG).map (fun l =>
        (l.layoutBBs, (l.func.bb 0).stmts.map (fun st => (st.op, st.offset)))) =
      Except.ok ([0, 1, 2], [(Opcode.OP_brtrue, 3)]) := by
  refine ⟨by decide, ⟨rfl, rfl, rfl, rfl, rfl⟩, ?_⟩
  rfl


/-! ## Scenario S1 through the driver -/

theorem Retargeted_id (f : MeFunction) (b t nt x : BBId) :
    ((Retargeted f b t nt).bb x).id = (f.bb x).id := by
  unfold Retargeted
  rw [bb_RemoveBBFromPred, bb_ReplaceSucc, bb_SetLastOffset]
  obtain ⟨lab, h⟩ := bb_GetOrCreateBBLabel f nt x
  rw [h]

theorem Retargeted_bbVec (f : MeFunction) (b t nt : BBId) :
    (Retargeted f b t nt).bbVec = f.bbVec := by
  unfold Retargeted RemoveBBFromPred ReplaceSucc SetLastOffset GetOrCreateBBLabel
  split <;> split <;> rfl

theorem FrontIsTry_congr (b1 b2 : BB) (h : b1.stmts = b2.stmts) : FrontIsTry b1 = FrontIsTry b2 := by
  unfold FrontIsTry
  rw [h]

theorem lt_of_kind_Return (f : MeFunction) (x : BBId) (h : (f.bb x).kind = BBKind.kBBReturn) :
    x < f.heap.length := by
  by_contra hge
  rw [bb_default_of_ge f x (Nat.le_of_not_lt hge)] at h
  cases h

/-- In scenario S1 the driver threads `A` past `B`, nullifies `B` and lays
out `A, C`; the function it returns is `Retargeted f 0 1 2` with `B` cleared
in the block table. -/
theorem Run_gotoThread_eq (k : Nat) (f : MeFunction) (h : GotoThreadShape f) :
    Run (k + 3) f = Except.ok
      { func := { Retargeted f 0 1 2 with bbVec := [some 0, none, some 2] },
        layoutBBs := [0, 2], laidOut := [true, true, true],
        tryOutstanding := false, newBBInLayout := false, curBBId := 3 } := by
  obtain ⟨hvec, ⟨hid0, hid1, hid2⟩, ⟨hkA, hsA, hgo⟩, ⟨hB, hwB, heB, hpB, hsB, hlB⟩, hkC,
    ht0, ht2, he2⟩ := h
  obtain ⟨g0, hlast, hop, hoff⟩ : ∃ g0, (f.bb 0).stmts.getLast? = some g0 ∧
      g0.op = Opcode.OP_goto ∧ g0.offset = (f.bb 1).bbLabel := by
    cases hl : (f.bb 0).stmts.getLast? with
    | none => rw [hl] at hgo; cases hgo
    | some g0 =>
      rw [hl] at hgo
      simp only [Option.map_some', Option.some.injEq, Prod.mk.injEq] at hgo
      exact ⟨g0, rfl, hgo.1, hgo.2⟩
  have h2lt : 2 < f.heap.length := lt_of_kind_Return f 2 hkC
  -- the retargeted function
  have hshape := Retargeted_sameShape f 0 1 2
  have gid : ∀ x, ((Retargeted f 0 1 2).bb x).id = (f.bb x).id := Retargeted_id f 0 1 2
  have gkind : ∀ x, ((Retargeted f 0 1 2).bb x).kind = (f.bb x).kind := fun x => (hshape.2.2 x).1
  have gattr : ∀ x a, ((Retargeted f 0 1 2).bb x).GetAttributes a = (f.bb x).GetAttributes a := by
    intro x a
    unfold BB.GetAttributes
    rw [(hshape.2.2 x).2.1]
  have gsucc0 : ((Retargeted f 0 1 2).bb 0).succ = [2] := by
    rw [Retargeted_succ, hsA]
    simp [replaceFirst]
  have gsucc1 : ((Retargeted f 0 1 2).bb 1).succ = [2] := by
    rw [Retargeted_succ, hsB]
    simp
  have gpred1 : ((Retargeted f 0 1 2).bb 1).pred = [] := by
    rw [Retargeted_pred, hpB]
    simp
  have gpred2 : ((Retargeted f 0 1 2).bb 2).pred = (f.bb 2).pred ++ [0] := by
    rw [Retargeted_pred, hsA]
    simp [h2lt]
  have gstmts2 : ((Retargeted f 0 1 2).bb 2).stmts = (f.bb 2).stmts := by
    rw [Retargeted_stmts]
    simp
  have glast : ∃ g1, ((Retargeted f 0 1 2).bb 0).stmts.getLast? = some g1 ∧
      g1.op = Opcode.OP_goto := by
    rw [Retargeted_stmts]
    simp only [if_true]
    rw [getLast?_modifyLast, hlast]
    exact ⟨_, rfl, hop⟩
  have gvec : (Retargeted f 0 1 2).bbVec = [some 0, some 1, some 2] := by
    rw [Retargeted_bbVec, hvec]
  have hkB : (f.bb 1).kind = BBKind.kBBGoto := kind_of_BBContainsOnlyGoto _ hB
  have hne : (RemoveBBFromVector 1 ((f.bb 2).pred ++ [0])).isEmpty = false := by
    have hmem : 0 ∈ RemoveBBFromVector 1 ((f.bb 2).pred ++ [0]) := by
      unfold RemoveBBFromVector
      exact (List.mem_erase_of_ne (by decide)).mpr (by simp)
    cases hr : RemoveBBFromVector 1 ((f.bb 2).pred ++ [0]) with
    | nil => rw [hr] at hmem; cases hmem
    | cons a r => rfl
  have hobt : OptimizeBranchTarget (k + 2)
      { func := f, layoutBBs := [0], laidOut := [true, false, false],
        tryOutstanding := false, newBBInLayout := false, curBBId := 0 } 0 =
      Except.ok
        { func := { Retargeted f 0 1 2 with bbVec := [some 0, none, some 2] },
          layoutBBs := [0], laidOut := [true, true, false],
          tryOutstanding := false, newBBInLayout := false, curBBId := 0 } := by
    unfold OptimizeBranchTarget
    simp only [hlast, hop, bne_self_eq_false, Bool.false_and, Bool.false_eq_true, if_false]
    rw [OptimizeBranchTargetLoop, RetargetBranch_threads _ 0 1 2 g0 _ hwB _ _ hlast ⟨hoff, hlB⟩]
    rotate_left
    · rw [GetSucc_eq_ok]
      simp [BrTargetIdx, hkA, hsA]
    · unfold ThreadThrough
      simp [hB]
    · unfold NewTargetBB SuccFront
      simp [hsB, hkB, bind_ok_eq]
    simp only [bind_ok_eq, gpred1, List.isEmpty_nil, if_true, gid, hid1]
    rw [RemoveUnreachable_succ]
    simp only [BBLayout.SetLaidOut, gattr, heB, Bool.false_eq_true, if_false, gsucc1,
      List.foldlM_cons, List.foldlM_nil, gpred2, hne, bind_ok_eq, gid, hid1, pure, Except.pure]
    rw [OptimizeBranchTargetLoop, RetargetBranch_Return_target _ 0 2]
    · simp [NullifyBBByID, gvec, bind_ok_eq]
    · show GetSucc ((Retargeted f 0 1 2).bb 0) (BrTargetIdx ((Retargeted f 0 1 2).bb 0)) = _
      rw [GetSucc_eq_ok]
      simp [BrTargetIdx, gkind, hkA, gsucc0]
    · show ((Retargeted f 0 1 2).bb 2).kind = _
      rw [gkind, hkC]
  have hbbG : ∀ x, ({ Retargeted f 0 1 2 with bbVec := [some 0, none, some 2] } : MeFunction).bb x =
      (Retargeted f 0 1 2).bb x := fun _ => rfl
  unfold Run GetFirstBB
  rw [hvec]
  simp only [List.getD_cons_zero]
  have hnew : BBLayout.new f =
      { func := f, layoutBBs := [], laidOut := [false, false, false],
        tryOutstanding := false, newBBInLayout := false, curBBId := 0 } := by
    unfold BBLayout.new
    rw [hvec]
    rfl
  rw [hnew]
  rw [RunLoop_step (k + 2) _
    { func := f, layoutBBs := [0], laidOut := [true, false, false],
      tryOutstanding := false, newBBInLayout := false, curBBId := 0 }
    { func := { Retargeted f 0 1 2 with bbVec := [some 0, none, some 2] }, layoutBBs := [0], laidOut := [true, true, false],
      tryOutstanding := false, newBBInLayout := false, curBBId := 0 }
    { func := { Retargeted f 0 1 2 with bbVec := [some 0, none, some 2] }, layoutBBs := [0], laidOut := [true, true, false],
      tryOutstanding := false, newBBInLayout := false, curBBId := 2 }
    { func := { Retargeted f 0 1 2 with bbVec := [some 0, none, some 2] }, layoutBBs := [0], laidOut := [true, true, false],
      tryOutstanding := false, newBBInLayout := false, curBBId := 2 }
    { func := { Retargeted f 0 1 2 with bbVec := [some 0, none, some 2] }, layoutBBs := [0], laidOut := [true, true, false],
      tryOutstanding := false, newBBInLayout := false, curBBId := 2 } 0 (some 2)]
  rotate_left
  · rw [AddBB_plain _ 0 (by simp [hid0]) (by simp [BBLayout.IsBBLaidOut, hid0]) ht0 rfl]
    simp [hid0]
  · simp only [hkA, beq_self_eq_true, Bool.or_true, if_true]
    exact hobt
  · simp [NextBB, NextBBScan, hbbG, gid, hid2]
  · apply CheckTryEndTry_plain _ 2
    · rw [← ht2]
      exact FrontIsTry_congr _ _ gstmts2
    · rw [← he2]
      exact gattr 2 _
  · simp [hbbG, gkind, hkA]
  · simp only [hbbG, gkind, hkA, beq_self_eq_true, if_true]
    unfold RunGoto SuccFront
    simp [hbbG, gsucc0, gkind, hkC, bind_ok_eq]
  simp only [BBLayout.IsBBLaidOut, hbbG, gid, hid2, List.getD_cons_succ, List.getD_cons_zero,
    Bool.false_eq_true, if_false]
  rw [RunLoop_step (k + 1) _
    { func := { Retargeted f 0 1 2 with bbVec := [some 0, none, some 2] }, layoutBBs := [0, 2], laidOut := [true, true, true],
      tryOutstanding := false, newBBInLayout := false, curBBId := 2 }
    { func := { Retargeted f 0 1 2 with bbVec := [some 0, none, some 2] }, layoutBBs := [0, 2], laidOut := [true, true, true],
      tryOutstanding := false, newBBInLayout := false, curBBId := 2 }
    { func := { Retargeted f 0 1 2 with bbVec := [some 0, none, some 2] }, layoutBBs := [0, 2], laidOut := [true, true, true],
      tryOutstanding := false, newBBInLayout := false, curBBId := 3 }
    { func := { Retargeted f 0 1 2 with bbVec := [some 0, none, some 2] }, layoutBBs := [0, 2], laidOut := [true, true, true],
      tryOutstanding := false, newBBInLayout := false, curBBId := 3 }
    { func := { Retargeted f 0 1 2 with bbVec := [some 0, none, some 2] }, layoutBBs := [0, 2], laidOut := [true, true, true],
      tryOutstanding := false, newBBInLayout := false, curBBId := 3 } 2 none]
  rotate_left
  · rw [AddBB_plain _ 2 (by simp [hbbG, gid, hid2]) (by simp [BBLayout.IsBBLaidOut, hbbG, gid, hid2])
      (by rw [← ht2]; exact FrontIsTry_congr _ _ gstmts2) rfl]
    simp [hbbG, gid, hid2]
  · simp [hbbG, gkind, hkC]
  · simp [NextBB, NextBBScan]
  · rfl
  · simp [hbbG, gkind, hkC]
  · simp [hbbG, gkind, hkC]
  simp only []
  rw [RunLoop]

theorem FrontIsTry_of_shape (b1 b2 : BB)
    (h : b1.stmts.map Stmt.shape = b2.stmts.map Stmt.shape) : FrontIsTry b1 = FrontIsTry b2 := by
  unfold FrontIsTry
  cases h1 : b1.stmts with
  | nil =>
    rw [h1] at h
    cases h2 : b2.stmts with
    | nil => rfl
    | cons c r => rw [h2] at h; cases h
  | cons a q =>
    rw [h1] at h
    cases h2 : b2.stmts with
    | nil => rw [h2] at h; cases h
    | cons c r =>
      rw [h2] at h
      simp only [List.map_cons, List.cons.injEq, Stmt.shape, Prod.mk.injEq] at h
      simp [h.1.1]

/-- A function whose block table is `A, null, C`, with `A` ending in a goto
to the `Return` block `C`, is laid out as `A, C` and not changed. -/
theorem Run_goto_return_eq (k : Nat) (h : MeFunction) (g1 : Stmt)
    (hvec : h.bbVec = [some 0, none, some 2])
    (hid0 : (h.bb 0).id = 0) (hid2 : (h.bb 2).id = 2)
    (hk0 : (h.bb 0).kind = BBKind.kBBGoto) (hs0 : (h.bb 0).succ = [2])
    (hlast : (h.bb 0).stmts.getLast? = some g1) (hop : g1.op = Opcode.OP_goto)
    (hk2 : (h.bb 2).kind = BBKind.kBBReturn)
    (ht0 : FrontIsTry (h.bb 0) = false) (ht2 : FrontIsTry (h.bb 2) = false)
    (he2 : (h.bb 2).GetAttributes BBAttr.kBBAttrIsTryEnd = false) :
    Run (k + 3) h = Except.ok
      { func := h, layoutBBs := [0, 2], laidOut := [true, false, true],
        tryOutstanding := false, newBBInLayout := false, curBBId := 3 } := by
  have hobt : ∀ (l : BBLayout), l.func = h → OptimizeBranchTarget (k + 2) l 0 = Except.ok l := by
    intro l hl
    unfold OptimizeBranchTarget
    rw [hl, hlast]
    simp only [hop, bne_self_eq_false, Bool.false_and, Bool.false_eq_true, if_false]
    rw [OptimizeBranchTargetLoop, RetargetBranch_Return_target l 0 2]
    · rfl
    · rw [hl, GetSucc_eq_ok]
      simp [BrTargetIdx, hk0, hs0]
    · rw [hl]
      exact hk2
  unfold Run GetFirstBB
  rw [hvec]
  simp only [List.getD_cons_zero]
  have hnew : BBLayout.new h =
      { func := h, layoutBBs := [], laidOut := [false, false, false],
        tryOutstanding := false, newBBInLayout := false, curBBId := 0 } := by
    unfold BBLayout.new
    rw [hvec]
    rfl
  rw [hnew]
  rw [RunLoop_step (k + 2) _
    { func := h, layoutBBs := [0], laidOut := [true, false, false],
      tryOutstanding := false, newBBInLayout := false, curBBId := 0 }
    { func := h, layoutBBs := [0], laidOut := [true, false, false],
      tryOutstanding := false, newBBInLayout := false, curBBId := 0 }
    { func := h, layoutBBs := [0], laidOut := [true, false, false],
      tryOutstanding := false, newBBInLayout := false, curBBId := 2 }
    { func := h, layoutBBs := [0], laidOut := [true, false, false],
      tryOutstanding := false, newBBInLayout := false, curBBId := 2 }
    { func := h, layoutBBs := [0], laidOut := [true, false, false],
      tryOutstanding := false, newBBInLayout := false, curBBId := 2 } 0 (some 2)]
  rotate_left
  · rw [AddBB_plain _ 0 (by simp [hid0]) (by simp [BBLayout.IsBBLaidOut, hid0]) ht0 rfl]
    simp [hid0]
  · simp only [hk0, beq_self_eq_true, Bool.or_true, if_true]
    exact hobt _ rfl
  · simp [NextBB, NextBBScan, hvec, hid2]
  · exact CheckTryEndTry_plain _ 2 ht2 he2
  · simp [hk0]
  · simp only [hk0, beq_self_eq_true, if_true]
    unfold RunGoto SuccFront
    simp [hs0, hk2, bind_ok_eq]
  simp only [BBLayout.IsBBLaidOut, hid2, List.getD_cons_succ, List.getD_cons_zero,
    Bool.false_eq_true, if_false]
  rw [RunLoop_step (k + 1) _
    { func := h, layoutBBs := [0, 2], laidOut := [true, false, true],
      tryOutstanding := false, newBBInLayout := false, curBBId := 2 }
    { func := h, layoutBBs := [0, 2], laidOut := [true, false, true],
      tryOutstanding := false, newBBInLayout := false, curBBId := 2 }
    { func := h, layoutBBs := [0, 2], laidOut := [true, false, true],
      tryOutstanding := false, newBBInLayout := false, curBBId := 3 }
    { func := h, layoutBBs := [0, 2], laidOut := [true, false, true],
      tryOutstanding := false, newBBInLayout := false, curBBId := 3 }
    { func := h, layoutBBs := [0, 2], laidOut := [true, false, true],
      tryOutstanding := false, newBBInLayout := false, curBBId := 3 } 2 none]
  rotate_left
  · rw [AddBB_plain _ 2 (by simp [hid2]) (by simp [BBLayout.IsBBLaidOut, hid2]) ht2 rfl]
    simp [hid2]
  · simp [hk2]
  · simp [NextBB, NextBBScan, hvec]
  · rfl
  · simp [hk2]
  · simp [hk2]
  simp only []
  rw [RunLoop]

/-- A second run on the function returned for scenario S1 lays out `A, C`
again and changes nothing. -/
theorem Run_gotoThread_again (k : Nat) (f : MeFunction) (h : GotoThreadShape f) :
    Run (k + 3) { Retargeted f 0 1 2 with bbVec := [some 0, none, some 2] } = Except.ok
      { func := { Retargeted f 0 1 2 with bbVec := [some 0, none, some 2] },
        layoutBBs := [0, 2], laidOut := [true, false, true],
        tryOutstanding := false, newBBInLayout := false, curBBId := 3 } := by
  obtain ⟨hvec, ⟨hid0, hid1, hid2⟩, ⟨hkA, hsA, hgo⟩, ⟨hB, hwB, heB, hpB, hsB, hlB⟩, hkC,
    ht0, ht2, he2⟩ := h
  obtain ⟨g0, hlast, hop, hoff⟩ : ∃ g0, (f.bb 0).stmts.getLast? = some g0 ∧
      g0.op = Opcode.OP_goto ∧ g0.offset = (f.bb 1).bbLabel := by
    cases hl : (f.bb 0).stmts.getLast? with
    | none => rw [hl] at hgo; cases hgo
    | some g0 =>
      rw [hl] at hgo
      simp only [Option.map_some', Option.some.injEq, Prod.mk.injEq] at hgo
      exact ⟨g0, rfl, hgo.1, hgo.2⟩
  have h2lt : 2 < f.heap.length := lt_of_kind_Return f 2 hkC
  -- the retargeted function
  have hshape := Retargeted_sameShape f 0 1 2
  have gid : ∀ x, ((Retargeted f 0 1 2).bb x).id = (f.bb x).id := Retargeted_id f 0 1 2
  have gkind : ∀ x, ((Retargeted f 0 1 2).bb x).kind = (f.bb x).kind := fun x => (hshape.2.2 x).1
  have gattr : ∀ x a, ((Retargeted f 0 1 2).bb x).GetAttributes a = (f.bb x).GetAttributes a := by
    intro x a
    unfold BB.GetAttributes
    rw [(hshape.2.2 x).2.1]
  have gsucc0 : ((Retargeted f 0 1 2).bb 0).succ = [2] := by
    rw [Retargeted_succ, hsA]
    simp [replaceFirst]
  have gsucc1 : ((Retargeted f 0 1 2).bb 1).succ = [2] := by
    rw [Retargeted_succ, hsB]
    simp
  have gpred1 : ((Retargeted f 0 1 2).bb 1).pred = [] := by
    rw [Retargeted_pred, hpB]
    simp
  have gpred2 : ((Retargeted f 0 1 2).bb 2).pred = (f.bb 2).pred ++ [0] := by
    rw [Retargeted_pred, hsA]
    simp [h2lt]
  have gstmts2 : ((Retargeted f 0 1 2).bb 2).stmts = (f.bb 2).stmts := by
    rw [Retargeted_stmts]
    simp
  have glast : ∃ g1, ((Retargeted f 0 1 2).bb 0).stmts.getLast? = some g1 ∧
      g1.op = Opcode.OP_goto := by
    rw [Retargeted_stmts]
    simp only [if_true]
    rw [getLast?_modifyLast, hlast]
    exact ⟨_, rfl, hop⟩
  have gvec : (Retargeted f 0 1 2).bbVec = [some 0, some 1, some 2] := by
    rw [Retargeted_bbVec, hvec]
  have hbbG : ∀ x, ({ Retargeted f 0 1 2 with bbVec := [some 0, none, some 2] } : MeFunction).bb x =
      (Retargeted f 0 1 2).bb x := fun _ => rfl
  obtain ⟨g1, hg1, hg1op⟩ := glast
  have gt0 : FrontIsTry ((Retargeted f 0 1 2).bb 0) = false := by
    rw [← ht0]
    exact FrontIsTry_of_shape _ _ (hshape.2.2 0).2.2.1
  have gt2 : FrontIsTry ((Retargeted f 0 1 2).bb 2) = false := by
    rw [← ht2]
    exact FrontIsTry_congr _ _ gstmts2
  apply Run_goto_return_eq k _ g1 rfl
  · rw [hbbG, gid, hid0]
  · rw [hbbG, gid, hid2]
  · rw [hbbG, gkind, hkA]
  · rw [hbbG, gsucc0]
  · rw [hbbG, hg1]
  · exact hg1op
  · rw [hbbG, gkind, hkC]
  · rw [hbbG, gt0]
  · rw [hbbG, gt2]
  · rw [hbbG, gattr, he2]

theorem gotoThreadCFG_shape : GotoThreadShape gotoThreadCFG :=
  ⟨rfl, ⟨rfl, rfl, rfl⟩, ⟨rfl, rfl, rfl⟩, ⟨rfl, rfl, rfl, rfl, rfl, by decide⟩, rfl,
    ⟨rfl, rfl, rfl⟩⟩

/-- C11.  Trivial goto threading (S1): for every function of the shape
`GotoThreadShape` (block table `A, B, C`; `A` ends in a goto to its only
successor `B`; `B` holds only a goto to `C`, is not `TryEnd`, `WontExit` or
the entry and has `A` as its only predecessor; `C` is a `Return` block), `Run`
returns with `layoutBBs = [A, C]`, `B` null in the block table, the
successors of `A` equal to `[C]` and the last statement of `A` a goto that
records the label of `C`. -/
theorem Run_threads_trivial_goto (k : Nat) (f : MeFunction) (h : GotoThreadShape f) :
    ∃ l, Run (k + 3) f = Except.ok l ∧ l.layoutBBs = [0, 2] ∧
      l.func.bbVec = [some 0, none, some 2] ∧ (l.func.bb 0).succ = [2] ∧
      (l.func.bb 0).kind = BBKind.kBBGoto ∧
      (l.func.bb 0).stmts.getLast?.map (fun st => (st.op, st.offset)) =
        some (Opcode.OP_goto, (l.func.bb 2).bbLabel) := by
  refine ⟨_, Run_gotoThread_eq k f h, rfl, rfl, ?_, ?_, ?_⟩
  · show ((Retargeted f 0 1 2).bb 0).succ = [2]
    rw [Retargeted_succ, h.2.2.1.2.1]
    simp [replaceFirst]
  · show ((Retargeted f 0 1 2).bb 0).kind = BBKind.kBBGoto
    rw [((Retargeted_sameShape f 0 1 2).2.2 0).1]
    exact h.2.2.1.1
  · show ((Retargeted f 0 1 2).bb 0).stmts.getLast?.map (fun st => (st.op, st.offset)) =
      some (Opcode.OP_goto, ((Retargeted f 0 1 2).bb 2).bbLabel)
    have h2lt : 2 < f.heap.length := lt_of_kind_Return f 2 h.2.2.2.2.1
    rw [Retargeted_stmts, Retargeted_bbLabel, GetOrCreateBBLabel_label f 2 h2lt]
    simp only [if_true]
    rw [getLast?_modifyLast]
    have hgo := h.2.2.1.2.2
    cases hl : (f.bb 0).stmts.getLast? with
    | none => rw [hl] at hgo; cases hgo
    | some g0 =>
      rw [hl] at hgo
      simp only [Option.map_some', Option.some.injEq, Prod.mk.injEq] at hgo
      simp [hgo.1]

theorem Run_threads_trivial_goto_witness :
    ∃ l, Run 3 gotoThreadCFG = Except.ok l ∧ l.layoutBBs = [0, 2] ∧
      l.func.bbVec = [some 0, none, some 2] ∧ (l.func.bb 0).succ = [2] ∧
      (l.func.bb 0).kind = BBKind.kBBGoto ∧
      (l.func.bb 0).stmts.getLast?.map (fun st => (st.op, st.offset)) =
        some (Opcode.OP_goto, (l.func.bb 2).bbLabel) :=
  Run_threads_trivial_goto 0 gotoThreadCFG
    ⟨rfl, ⟨rfl, rfl, rfl⟩, ⟨rfl, rfl, rfl⟩, ⟨rfl, rfl, rfl, rfl, rfl, by decide⟩, rfl,
      ⟨rfl, rfl, rfl⟩⟩

/-- C14 (amended).  On the scenarios S1 and S2 the pass is idempotent: for
every function of the shape `GotoThreadShape` or `CondReturnsShape`, `Run`
returns, a second `Run` on the function it produced returns the same
`layoutBBs` and the same function, and neither run sets `newBBInLayout`. -/
theorem Run_twice_same_layout (k : Nat) (f : MeFunction)
    (h : GotoThreadShape f ∨ CondReturnsShape f) :
    ∃ l1 l2, Run (k + 3) f = Except.ok l1 ∧ Run (k + 3) l1.func = Except.ok l2 ∧
      l2.layoutBBs = l1.layoutBBs ∧ l2.func = l1.func ∧
      l1.newBBInLayout = false ∧ l2.newBBInLayout = false := by
  rcases h with h | h
  · exact ⟨_, _, Run_gotoThread_eq k f h, Run_gotoThread_again k f h, rfl, rfl, rfl, rfl⟩
  · exact ⟨_, _, Run_condReturns_eq k f h, Run_condReturns_eq k f h, rfl, rfl, rfl, rfl⟩

theorem Run_twice_same_layout_witness :
    ∃ l1 l2, Run 3 gotoThreadCFG = Except.ok l1 ∧ Run 3 l1.func = Except.ok l2 ∧
      l2.layoutBBs = l1.layoutBBs ∧ l2.func = l1.func ∧
      l1.newBBInLayout = false ∧ l2.newBBInLayout = false :=
  Run_twice_same_layout 0 gotoThreadCFG (Or.inl gotoThreadCFG_shape)

/-- C14 (counterexample).  `secondRunCFG` is well formed and all its blocks
are reachable.  The first run lays the blocks out in source order and threads
the branch of block 2 past block 4, which leaves block 4 with the single
predecessor 1.  On the function the first run produced, a second run takes
the piggy-back case at block 1 (its goto target 4 is now a `CondGoto` block
with one predecessor) and lays out `[0, 1, 4, 5, 2, 3, 6, 7]`. -/
theorem Run_twice_differs :
    secondRunCFG.WellFormed = true ∧
    (Run 20 secondRunCFG).map (fun l => l.layoutBBs) = Except.ok [0, 1, 2, 3, 4, 5, 6, 7] ∧
    ((Run 20 secondRunCFG).bind (fun l => Run 20 l.func)).map (fun l => l.layoutBBs) =
      Except.ok [0, 1, 4, 5, 2, 3, 6, 7] := by
  refine ⟨by decide, ?_, ?_⟩
  · rfl
  · rfl


/-! ## Bounded pruning -/

theorem twoCycle_sweep :
    ∀ (fuel : Nat) (l : BBLayout), l.func.heap = twoCycleCFG.heap →
      RemoveUnreachable fuel l 1 = Except.error Err.fuel ∧
      RemoveUnreachable fuel l 2 = Except.error Err.fuel := by
  intro fuel
  induction fuel with
  | zero =>
    intro l _
    exact ⟨rfl, rfl⟩
  | succ n ih =>
    intro l hl
    have h1 : l.func.bb 1 = twoCycleCFG.bb 1 := bb_of_heap_eq _ _ hl 1
    have h2 : l.func.bb 2 = twoCycleCFG.bb 2 := bb_of_heap_eq _ _ hl 2
    have e1 : (twoCycleCFG.bb 1).GetAttributes BBAttr.kBBAttrIsEntry = false := rfl
    have e2 : (twoCycleCFG.bb 2).GetAttributes BBAttr.kBBAttrIsEntry = false := rfl
    have s1 : (twoCycleCFG.bb 1).succ = [2] := rfl
    have s2 : (twoCycleCFG.bb 2).succ = [1] := rfl
    have p1 : (RemoveBBFromVector 2 (twoCycleCFG.bb 1).pred).isEmpty = true := rfl
    have p2 : (RemoveBBFromVector 1 (twoCycleCFG.bb 2).pred).isEmpty = true := rfl
    constructor
    · rw [RemoveUnreachable_succ, h1, e1]
      simp only [Bool.false_eq_true, if_false, s1, List.foldlM_cons, h2, p2, if_true,
        (ih l hl).2, bind_error_eq]
    · rw [RemoveUnreachable_succ, h2, e2]
      simp only [Bool.false_eq_true, if_false, s2, List.foldlM_cons, h1, p1, if_true,
        (ih l hl).1, bind_error_eq]

/-- C20 (counterexample).  In the well-formed `twoCycleCFG` blocks 1 and 2 are
each other's only predecessor and successor and neither is the entry.  The
recursion of `RemoveUnreachable(1)` never ends: block 2 loses its only
predecessor in the copy of its list, the call on block 2 does the same to
block 1, and so on; whatever the fuel, it runs out. -/
theorem RemoveUnreachable_loops_on_cycle :
    twoCycleCFG.WellFormed = true ∧
    (twoCycleCFG.bb 1).GetAttributes BBAttr.kBBAttrIsEntry = false ∧
    ∀ fuel : Nat,
      RemoveUnreachable fuel (BBLayout.new twoCycleCFG) 1 = Except.error Err.fuel :=
  ⟨by decide, rfl, fun fuel => (twoCycle_sweep fuel _ rfl).1⟩

theorem RemoveUnreachableLog_succ (fuel : Nat) (l : BBLayout) (bb : BBId) :
    RemoveUnreachableLog (fuel + 1) l bb =
      if (l.func.bb bb).GetAttributes BBAttr.kBBAttrIsEntry then Except.ok (l, [])
      else
        ((l.func.bb bb).succ.foldlM (fun (p : BBLayout × List BBId) (succ : BBId) =>
          if (RemoveBBFromVector bb (p.1.func.bb succ).pred).isEmpty then
            RemoveUnreachableLog fuel p.1 succ >>= fun q => Except.ok (q.1, p.2 ++ q.2)
          else Except.ok p) (l, [])) >>= fun r =>
          Except.ok ({ r.1 with func := NullifyBBByID r.1.func (r.1.func.bb bb).id },
            r.2 ++ [bb]) := by
  rfl

theorem map_bind_eq {α β γ : Type} (x : Res α) (g : α → Res β) (h : β → γ) :
    (x >>= g).map h = (x >>= fun a => (g a).map h) := by
  cases x <;> rfl

/-- The instrumented sweep computes the state of `RemoveUnreachable`. -/
theorem RemoveUnreachableLog_fst :
    ∀ (fuel : Nat) (l : BBLayout) (bb : BBId),
      (RemoveUnreachableLog fuel l bb).map Prod.fst = RemoveUnreachable fuel l bb := by
  intro fuel
  induction fuel with
  | zero =>
    intro l bb
    rfl
  | succ n ih =>
    intro l bb
    rw [RemoveUnreachableLog_succ, RemoveUnreachable_succ]
    split
    · rfl
    · have hfold : ∀ (L : List BBId) (l0 : BBLayout) (acc : List BBId),
          (L.foldlM (fun (p : BBLayout × List BBId) (succ : BBId) =>
            if (RemoveBBFromVector bb (p.1.func.bb succ).pred).isEmpty then
              RemoveUnreachableLog n p.1 succ >>= fun q => Except.ok (q.1, p.2 ++ q.2)
            else Except.ok p) (l0, acc)).map Prod.fst =
          L.foldlM (fun (l0 : BBLayout) (succ : BBId) =>
            if (RemoveBBFromVector bb (l0.func.bb succ).pred).isEmpty then
              RemoveUnreachable n l0 succ
            else Except.ok l0) l0 := by
        intro L
        induction L with
        | nil =>
          intro l0 acc
          rfl
        | cons a L ihL =>
          intro l0 acc
          rw [List.foldlM_cons, List.foldlM_cons, map_bind_eq]
          simp only []
          split
          · rw [← ih l0 a]
            cases hq : RemoveUnreachableLog n l0 a with
            | error e => rfl
            | ok q =>
              simp only [bind_ok_eq, Except.map]
              exact ihL q.1 (acc ++ q.2)
          · simp only [bind_ok_eq]
            exact ihL l0 acc
      rw [map_bind_eq, ← hfold (l.func.bb bb).succ l []]
      cases (l.func.bb bb).succ.foldlM (fun (p : BBLayout × List BBId) (succ : BBId) =>
            if (RemoveBBFromVector bb (p.1.func.bb succ).pred).isEmpty then
              RemoveUnreachableLog n p.1 succ >>= fun q => Except.ok (q.1, p.2 ++ q.2)
            else Except.ok p) (l, []) with
      | error e => rfl
      | ok r => rfl

theorem Below_of_only_pred (f : MeFunction) (x s : BBId) (hp : (f.bb s).pred = [x]) :
    ∀ y, Below f s y → Below f x y := by
  intro y h
  induction h with
  | self => exact Below.step s x hp Below.self
  | step y p hy _ ih => exact Below.step y p hy ih

theorem Below_linear (f : MeFunction) (a b : BBId) :
    ∀ y, Below f a y → Below f b y → Below f a b ∨ Below f b a := by
  intro y ha
  induction ha with
  | self =>
    intro hb
    exact Or.inr hb
  | step y p hy hap ih =>
    intro hb
    cases hb with
    | self => exact Or.inl (Below.step _ p hy hap)
    | step _ p2 hy2 hbp =>
      rw [hy] at hy2
      cases hy2
      exact ih hbp

theorem Below_mem_path (f : MeFunction) (root s : BBId) :
    ∀ x, Below f s x → ∀ q, PredPath f root (x :: q) → s ∈ x :: q := by
  intro x h
  induction h with
  | self =>
    intro q _
    exact List.mem_cons_self _ _
  | step y p hy _ ih =>
    intro q hpath
    cases q with
    | nil =>
      rw [hpath.2] at hy
      cases hy
    | cons z rest =>
      have hz : (f.bb y).pred = [z] := hpath.1
      rw [hy] at hz
      cases hz
      exact List.mem_cons_of_mem _ (ih rest hpath.2)

theorem child_not_in_path (f : MeFunction) (root x s : BBId) (q : List BBId)
    (hpath : PredPath f root (x :: q)) (hnd : (x :: q).Nodup) (hp : (f.bb s).pred = [x]) :
    s ∉ x :: q := by
  intro hin
  have := PredPath_mem_tail f root (x :: q) s x hpath hin hp
  simp only [List.tail_cons] at this
  exact (List.nodup_cons.mp hnd).1 this

theorem Below_child_ne (f : MeFunction) (root x a s : BBId) (q : List BBId)
    (hpath : PredPath f root (x :: q)) (hnd : (x :: q).Nodup)
    (ha : (f.bb a).pred = [x]) (hs : (f.bb s).pred = [x]) (hne : s ≠ a) :
    ¬ Below f a s := by
  intro h
  cases h with
  | self => exact hne rfl
  | step _ p hp hap =>
    rw [hs] at hp
    cases hp
    exact child_not_in_path f root x a q hpath hnd ha (Below_mem_path f root a x hap q hpath)

theorem getD_set_none (v : List (Option BBId)) (i : Nat) : (v.set i none).getD i none = none := by
  simp only [List.getD_eq_getElem?_getD, List.getElem?_set]
  by_cases h : i < v.length
  · simp [h]
  · simp [h, List.getElem?_eq_none (Nat.le_of_not_lt h)]

theorem getD_set_of_none (v : List (Option BBId)) (i j : Nat) (h : v.getD i none = none) :
    (v.set j none).getD i none = none := by
  simp only [List.getD_eq_getElem?_getD, List.getElem?_set] at h ⊢
  by_cases hji : j = i
  · subst hji
    by_cases hlt : j < v.length
    · simp [hlt]
    · simp [hlt, List.getElem?_eq_none (Nat.le_of_not_lt hlt)]
  · simp only [hji, if_false]
    exact h

/-- The sweep never brings a block back: an entry of the block table that is
null stays null. -/
theorem RemoveUnreachableLog_keeps_null (i : Nat) :
    ∀ (fuel : Nat) (l : BBLayout) (x : BBId) (r : BBLayout × List BBId),
      RemoveUnreachableLog fuel l x = Except.ok r →
      l.func.bbVec.getD i none = none → r.1.func.bbVec.getD i none = none := by
  intro fuel
  induction fuel with
  | zero =>
    intro l x r h
    cases h
  | succ n ih =>
    intro l x r h hnull
    rw [RemoveUnreachableLog_succ] at h
    split at h
    · cases h
      exact hnull
    · rw [bind_eq_ok_iff] at h
      obtain ⟨p, hp, h⟩ := h
      have hP : p.1.func.bbVec.getD i none = none :=
        foldlM_preserves (fun (p : BBLayout × List BBId) => p.1.func.bbVec.getD i none = none) _ _
          (by
            intro s a s2 _ hs hstep
            split at hstep
            · rw [bind_eq_ok_iff] at hstep
              obtain ⟨q, hq, hstep⟩ := hstep
              cases hstep
              exact ih s.1 a q hq hs
            · cases hstep
              exact hs)
          (l, []) p hnull hp
      cases h
      exact getD_set_of_none _ _ _ hP

/-- When edges are recorded in the predecessor lists (with multiplicity), the
instrumented sweep returns on every block without predecessors, its log has
no block twice, and every block of the log is null in the block table at the
end. -/
theorem RemoveUnreachableLog_ok (f0 : MeFunction) (root : BBId) (hrec : EdgesRecorded f0) :
    ∀ (fuel : Nat) (l : BBLayout) (x : BBId) (q : List BBId),
      l.func.heap = f0.heap → PredPath f0 root (x :: q) → (x :: q).Nodup →
      f0.heap.length + 2 ≤ fuel + (x :: q).length →
      ∃ l2 log, RemoveUnreachableLog fuel l x = Except.ok (l2, log) ∧ OnlyTableChanged l l2 ∧
        log.Nodup ∧ (∀ y ∈ log, Below f0 x y) ∧
        ((f0.bb x).GetAttributes BBAttr.kBBAttrIsEntry = false → x ∈ log) ∧
        (∀ y ∈ log, l2.func.bbVec.getD (f0.bb y).id none = none) := by
  intro fuel
  induction fuel with
  | zero =>
    intro l x q _ hpath hnd hfuel
    have := PredPath_length f0 root (x :: q) hpath hnd
    omega
  | succ fuel ih =>
    intro l x q hheap hpath hnd hfuel
    have hbx : l.func.bb x = f0.bb x := bb_of_heap_eq _ _ hheap x
    rw [RemoveUnreachableLog_succ]
    split
    · rename_i hentry
      rw [hbx] at hentry
      refine ⟨l, [], rfl, OnlyTableChanged_refl l, List.nodup_nil, ?_, ?_, ?_⟩
      · intro y hy
        cases hy
      · intro hne
        rw [hne] at hentry
        cases hentry
      · intro y hy
        cases hy
    · have hfold : ∀ (L : List BBId) (p : BBLayout × List BBId),
          (∀ s ∈ L, s ∈ (f0.bb x).succ) →
          (∀ s, (f0.bb s).pred = [x] → L.count s ≤ 1) →
          OnlyTableChanged l p.1 → p.2.Nodup →
          (∀ y ∈ p.2, Below f0 x y ∧ y ≠ x ∧
            p.1.func.bbVec.getD (f0.bb y).id none = none ∧
            ∀ s ∈ L, (f0.bb s).pred = [x] → ¬ Below f0 s y) →
          ∃ r, L.foldlM (fun (p : BBLayout × List BBId) (succ : BBId) =>
              if (RemoveBBFromVector x (p.1.func.bb succ).pred).isEmpty then
                RemoveUnreachableLog fuel p.1 succ >>= fun q => Except.ok (q.1, p.2 ++ q.2)
              else Except.ok p) p = Except.ok r ∧
            OnlyTableChanged l r.1 ∧ r.2.Nodup ∧
            ∀ y ∈ r.2, Below f0 x y ∧ y ≠ x ∧
              r.1.func.bbVec.getD (f0.bb y).id none = none := by
        intro L
        induction L with
        | nil =>
          intro p _ _ hP hnodup hinv
          exact ⟨p, rfl, hP, hnodup,
            fun y hy => ⟨(hinv y hy).1, (hinv y hy).2.1, (hinv y hy).2.2.1⟩⟩
        | cons a L ihL =>
          intro p hsub hcount hP hnodup hinv
          rw [List.foldlM_cons]
          have hsubL : ∀ s ∈ L, s ∈ (f0.bb x).succ :=
            fun s hs => hsub s (List.mem_cons_of_mem _ hs)
          have hcountL : ∀ s, (f0.bb s).pred = [x] → L.count s ≤ 1 := by
            intro s hs
            have := hcount s hs
            rw [List.count_cons] at this
            omega
          have hbs : p.1.func.bb a = f0.bb a :=
            (OnlyTableChanged_bb_eq hP a).trans (bb_of_heap_eq _ _ hheap a)
          split
          · rename_i hempty
            rw [hbs] at hempty
            have hasucc : a ∈ (f0.bb x).succ := hsub a (List.mem_cons_self _ _)
            have hmem : x ∈ (f0.bb a).pred := by
              have h1 := hrec x a
              have h2 : 0 < (f0.bb x).succ.count a := List.count_pos_iff.mpr hasucc
              exact List.count_pos_iff.mp (by omega)
            have hpred : (f0.bb a).pred = [x] :=
              erase_eq_nil_of_mem _ _ hmem (by simpa [RemoveBBFromVector] using hempty)
            have hnotin : a ∉ x :: q := child_not_in_path f0 root x a q hpath hnd hpred
            have hl0 : p.1.func.heap = f0.heap := (OnlyTableChanged_heap_eq hP).trans hheap
            obtain ⟨l2, loga, h2, hP2, hnd2, hbelow2, _, hnull2⟩ := ih p.1 a (x :: q) hl0 ⟨hpred, hpath⟩
              (List.nodup_cons.mpr ⟨hnotin, hnd⟩) (by simp only [List.length_cons] at hfuel ⊢; omega)
            rw [h2, bind_ok_eq]
            have haL : a ∉ L := by
              intro haL
              have := hcount a hpred
              rw [List.count_cons_self] at this
              have h3 : 0 < L.count a := List.count_pos_iff.mpr haL
              omega
            apply ihL (l2, p.2 ++ loga) hsubL hcountL (OnlyTableChanged_trans hP hP2)
            · rw [List.nodup_append]
              refine ⟨hnodup, hnd2, ?_⟩
              intro y hy1 hy2
              exact (hinv y hy1).2.2.2 a (List.mem_cons_self _ _) hpred (hbelow2 y hy2)
            · intro y hy
              rcases List.mem_append.mp hy with hy | hy
              · obtain ⟨h1, h2', h3, h4⟩ := hinv y hy
                exact ⟨h1, h2', RemoveUnreachableLog_keeps_null _ _ p.1 a (l2, loga) h2 h3,
                  fun s hs => h4 s (List.mem_cons_of_mem _ hs)⟩
              · have hay := hbelow2 y hy
                refine ⟨Below_of_only_pred f0 x a hpred y hay, ?_, hnull2 y hy, ?_⟩
                · intro hyx
                  rw [hyx] at hay
                  exact hnotin (Below_mem_path f0 root a x hay q hpath)
                · intro s hs hsp hsy
                  have hne : s ≠ a := fun e => haL (e ▸ hs)
                  rcases Below_linear f0 a s y hay hsy with h | h
                  · exact Below_child_ne f0 root x a s q hpath hnd hpred hsp hne h
                  · exact Below_child_ne f0 root x s a q hpath hnd hsp hpred (Ne.symm hne) h
          · apply ihL p hsubL hcountL hP hnodup
            intro y hy
            obtain ⟨h1, h2, h3, h4⟩ := hinv y hy
            exact ⟨h1, h2, h3, fun s hs => h4 s (List.mem_cons_of_mem _ hs)⟩
      have hcount0 : ∀ s, (f0.bb s).pred = [x] → (f0.bb x).succ.count s ≤ 1 := by
        intro s hs
        have := hrec x s
        rw [hs] at this
        simpa using this
      obtain ⟨r, hr, hP, hnodup, hinv⟩ := hfold (l.func.bb x).succ (l, [])
        (by rw [hbx]; exact fun s hs => hs) (by rw [hbx]; exact hcount0)
        (OnlyTableChanged_refl l) List.nodup_nil (by intro y hy; cases hy)
      rw [hr, bind_ok_eq]
      have hrx : r.1.func.bb x = f0.bb x := (OnlyTableChanged_bb_eq hP x).trans hbx
      refine ⟨_, _, rfl, ?_, ?_, ?_, ?_, ?_⟩
      · obtain ⟨v, hv⟩ := hP
        rw [hv]
        exact ⟨_, rfl⟩
      · rw [List.nodup_append]
        refine ⟨hnodup, List.nodup_singleton x, ?_⟩
        intro y hy1 hy2
        simp only [List.mem_singleton] at hy2
        exact (hinv y hy1).2.1 hy2
      · intro y hy
        rcases List.mem_append.mp hy with hy | hy
        · exact (hinv y hy).1
        · simp only [List.mem_singleton] at hy
          rw [hy]
          exact Below.self
      · intro _
        simp
      · intro y hy
        rcases List.mem_append.mp hy with hy | hy
        · exact getD_set_of_none _ _ _ (hinv y hy).2.2
        · simp only [List.mem_singleton] at hy
          rw [hy, ← hrx]
          exact getD_set_none _ _

/-- Whenever `RemoveUnreachable` returns on a block that is not the entry, the
block is null in the block table. -/
theorem RemoveUnreachable_nullifies (fuel : Nat) (l l2 : BBLayout) (x : BBId)
    (h : RemoveUnreachable fuel l x = Except.ok l2)
    (hentry : (l.func.bb x).GetAttributes BBAttr.kBBAttrIsEntry = false) :
    l2.func.bbVec.getD (l.func.bb x).id none = none := by
  cases fuel with
  | zero => cases h
  | succ n =>
    rw [RemoveUnreachable_succ, hentry] at h
    simp only [Bool.false_eq_true, if_false] at h
    rw [bind_eq_ok_iff] at h
    obtain ⟨l1, h1, h⟩ := h
    have hP : OnlyTableChanged l l1 :=
      foldlM_preserves (fun l0 => OnlyTableChanged l l0) _ _
        (by
          intro s a s2 _ hs hstep
          split at hstep
          · exact OnlyTableChanged_trans hs (RemoveUnreachable_onlyTable _ _ _ _ hstep)
          · cases hstep
            exact hs)
        l l1 (OnlyTableChanged_refl l) h1
    cases h
    rw [OnlyTableChanged_bb_eq hP x]
    exact getD_set_none _ _

/-- C20 (amended).  In a state in which every edge is recorded in the
predecessor list of its target at least as often as in the successor list of
its source, `RemoveUnreachable(b)` on a block `b` without predecessors (the
situation at both call sites) returns once the fuel exceeds the number of
blocks, and it nullifies no block twice: the log of the instrumented sweep,
which computes the same state, has no duplicates, every block of the log is
null in the block table at the end, and `b` is in the log unless it is the
entry. -/
theorem RemoveUnreachable_bounded (fuel : Nat) (l : BBLayout) (b : BBId)
    (hrec : EdgesRecorded l.func) (hroot : (l.func.bb b).pred = [])
    (hfuel : l.func.heap.length + 1 ≤ fuel) :
    ∃ l2 log, RemoveUnreachable fuel l b = Except.ok l2 ∧
      RemoveUnreachableLog fuel l b = Except.ok (l2, log) ∧ log.Nodup ∧
      (∀ y ∈ log, l2.func.bbVec.getD (l.func.bb y).id none = none) ∧
      ((l.func.bb b).GetAttributes BBAttr.kBBAttrIsEntry = false → b ∈ log) := by
  obtain ⟨l2, log, hlog, _, hnd, _, hin, hnull⟩ :=
    RemoveUnreachableLog_ok l.func b hrec fuel l b [] rfl ⟨rfl, hroot⟩
      (List.nodup_singleton b) (by simp only [List.length_singleton]; omega)
  have hru : RemoveUnreachable fuel l b = Except.ok l2 := by
    rw [← RemoveUnreachableLog_fst, hlog]
    rfl
  exact ⟨l2, log, hru, hlog, hnd, hnull, hin⟩

theorem RemoveUnreachable_bounded_witness :
    (∃ l2 log, RemoveUnreachable 5 (BBLayout.new orphanChainCFG) 1 = Except.ok l2 ∧
      RemoveUnreachableLog 5 (BBLayout.new orphanChainCFG) 1 = Except.ok (l2, log) ∧
      log.Nodup ∧
      (∀ y ∈ log, l2.func.bbVec.getD ((BBLayout.new orphanChainCFG).func.bb y).id none = none) ∧
      (((BBLayout.new orphanChainCFG).func.bb 1).GetAttributes BBAttr.kBBAttrIsEntry = false →
        1 ∈ log)) ∧
    (RemoveUnreachableLog 5 (BBLayout.new orphanChainCFG) 1).map (fun r =>
        (r.2, r.1.func.bbVec)) = Except.ok ([3, 2, 1], [some 0, none, none, none]) :=
  ⟨RemoveUnreachable_bounded 5 (BBLayout.new orphanChainCFG) 1
    (EdgesRecorded_of_EdgesMutual orphanChainCFG (by decide)) rfl (by decide), rfl⟩


/-! ## The walk over empty fall-through blocks -/

theorem GetOppositeOp_comm (a b : Opcode) (ha : a ≠ Opcode.OP_undef) (hb : b ≠ Opcode.OP_undef) :
    (a == GetOppositeOp b) = (b == GetOppositeOp a) := by
  cases a <;> cases b <;> simp [GetOppositeOp] at ha hb ⊢

theorem beq_comm_opcode (a b : Opcode) : (a == b) = (b == a) := by
  by_cases h : a = b
  · simp [h]
  · have h2 : ¬ b = a := fun e => h e.symm
    simp [h, h2]

theorem bne_comm_expr (a b : MeExpr) : (a != b) = (b != a) := by
  by_cases h : a = b
  · subst h
    rfl
  · have e1 : (a != b) = true := bne_iff_ne.mpr h
    have e2 : (b != a) = true := bne_iff_ne.mpr (fun e => h e.symm)
    rw [e1, e2]

/-- C21 (counterexample).  `undefCmpBB` ends in `brtrue` on an expression with
the opcode `OP_undef`, `tablelessCmpBB` in `brfalse` on an expression whose
operator has no opposite, over the same operands.  `GetOppositeOp` answers
`OP_undef` for the operator without opposite, which equals the operator of
`undefCmpBB`: the test returns true in one order and false in the other. -/
theorem HasSameBranchCond_not_symmetric :
    (undefCmpBB.stmts.getLast?.map Stmt.IsCondBr = some true ∧
      tablelessCmpBB.stmts.getLast?.map Stmt.IsCondBr = some true) ∧
    GetOppositeOp (Opcode.OP_other 0) = Opcode.OP_undef ∧
    HasSameBranchCond true undefCmpBB tablelessCmpBB = Except.ok true ∧
    HasSameBranchCond true tablelessCmpBB undefCmpBB = Except.ok false :=
  ⟨⟨rfl, rfl⟩, rfl, rfl, rfl⟩

/-- C21 (amended).  `HasSameBranchCond` is symmetric on all blocks whose last
statements have a branch operator and a compare operator other than
`OP_undef` (conditional branches `brtrue`/`brfalse` on any expression whose
opcode is not `OP_undef`, with or without an opposite): the two orders give
the same result, be it true, false or the abort of the unchecked cast, with
and without an IRMap. -/
theorem HasSameBranchCond_symm (hasIRMap : Bool) (b1 b2 : BB)
    (h1 : ∀ st e, b1.stmts.getLast? = some st → st.opnd = some e →
      st.op ≠ Opcode.OP_undef ∧ e.GetOp ≠ Opcode.OP_undef)
    (h2 : ∀ st e, b2.stmts.getLast? = some st → st.opnd = some e →
      st.op ≠ Opcode.OP_undef ∧ e.GetOp ≠ Opcode.OP_undef) :
    HasSameBranchCond hasIRMap b1 b2 = HasSameBranchCond hasIRMap b2 b1 := by
  cases hasIRMap with
  | false => rfl
  | true =>
    cases hs1 : b1.stmts.getLast? with
    | none =>
      cases hs2 : b2.stmts.getLast? <;> simp [HasSameBranchCond, hs1, hs2]
    | some st1 =>
      cases hs2 : b2.stmts.getLast? with
      | none => simp [HasSameBranchCond, hs1, hs2]
      | some st2 =>
        cases ho1 : st1.opnd with
        | none =>
          cases ho2 : st2.opnd <;> simp [HasSameBranchCond, hs1, hs2, ho1, ho2]
        | some e1 =>
          cases ho2 : st2.opnd with
          | none => simp [HasSameBranchCond, hs1, hs2, ho1, ho2]
          | some e2 =>
            obtain ⟨hop1, hc1⟩ := h1 st1 e1 hs1 ho1
            obtain ⟨hop2, hc2⟩ := h2 st2 e2 hs2 ho2
            have k1 := GetOppositeOp_comm st1.op st2.op hop1 hop2
            have k2 := GetOppositeOp_comm e1.GetOp e2.GetOp hc1 hc2
            have k3 := beq_comm_opcode st1.op st2.op
            have k4 := beq_comm_opcode e1.GetOp e2.GetOp
            simp only [HasSameBranchCond, hs1, hs2, ho1, ho2, Bool.not_true, Bool.false_eq_true,
              if_false]
            rw [k1, k2, k3, k4]
            generalize (!(st2.op == st1.op && e2.GetOp == e1.GetOp) &&
              !(st2.op == GetOppositeOp st1.op && e2.GetOp == GetOppositeOp e1.GetOp)) = c
            cases c
            · simp only [Bool.false_eq_true, if_false]
              cases e1 with
              | var _ => cases e2 <;> simp [MeExpr.GetMeOp]
              | const _ _ => cases e2 <;> simp [MeExpr.GetMeOp]
              | opExpr c1 l1 r1 =>
                cases e2 with
                | var _ => simp [MeExpr.GetMeOp]
                | const _ _ => simp [MeExpr.GetMeOp]
                | opExpr c2 l2 r2 =>
                  simp only [MeExpr.GetMeOp, beq_self_eq_true, Bool.and_self, Bool.not_true,
                    Bool.false_eq_true, if_false]
                  rw [bne_comm_expr l1 l2, bne_comm_expr r1 r2, Bool.and_comm r1.IsZero r2.IsZero]
            · rfl

theorem HasSameBranchCond_symm_witness :
    HasSameBranchCond true (sameCondCFG.bb 0) (sameCondCFG.bb 1) =
      HasSameBranchCond true (sameCondCFG.bb 1) (sameCondCFG.bb 0) ∧
    HasSameBranchCond true (sameCondCFG.bb 0) (sameCondCFG.bb 1) = Except.ok true :=
  ⟨HasSameBranchCond_symm true (sameCondCFG.bb 0) (sameCondCFG.bb 1)
    (by
      intro st e hs ho
      have hst : st = condStmt Opcode.OP_brfalse 2 aGt3 := by
        have h : (sameCondCFG.bb 0).stmts.getLast? = some (condStmt Opcode.OP_brfalse 2 aGt3) := rfl
        rw [h] at hs
        exact (Option.some.inj hs).symm
      subst hst
      have he : e = aGt3 := (Option.some.inj ho).symm
      subst he
      exact ⟨by decide, by decide⟩)
    (by
      intro st e hs ho
      have hst : st = condStmt Opcode.OP_brfalse 3 aGt3 := by
        have h : (sameCondCFG.bb 1).stmts.getLast? = some (condStmt Opcode.OP_brfalse 3 aGt3) := rfl
        rw [h] at hs
        exact (Option.some.inj hs).symm
      subst hst
      have he : e = aGt3 := (Option.some.inj ho).symm
      subst he
      exact ⟨by decide, by decide⟩),
    rfl⟩

end maple
